import Mathlib

/-!
# git-snap: the correlation engine

A shallow embedding of `pkg/types/types.go` and `pkg/correlation/engine.go`, followed by
theorems about the engine.

Modelling conventions.

* A Go `string` is a Lean `String`; `len` and indexing act on its UTF-8 bytes (`goBytes`).
* A Go `map[string]V` is a function `String → Option V`; a lookup of an absent key yields
  the zero value of `V`.
* `time.Time` is an instant counted in nanoseconds and `time.Duration` a number of
  nanoseconds, both integers; `Time.Sub` saturates at the limits of a 64-bit duration as the
  Go library does.
* `float64` arithmetic is idealised as exact arithmetic on rationals. The one place where
  the engine divides by a value that may be zero (`calculateTemporalScore`) keeps the IEEE
  outcome: a score is an `Option ℚ` in which `none` stands for NaN.
* `regexp.MatchString` and the non-ASCII part of `unicode.ToLower` are library tables that
  are not part of the repository; they are parameters (`Stdlib`).
-/

namespace GitSnap

/-! ## Library values -/

/-! A `time.Time` is an instant, held as the integer count of nanoseconds since a fixed
epoch; a `time.Duration` is a signed integer count of nanoseconds. -/

/-- The largest `time.Duration`, `1<<63 - 1` nanoseconds. -/
def maxDuration : Int := 2 ^ 63 - 1

/-- The smallest `time.Duration`, `-1 << 63` nanoseconds. -/
def minDuration : Int := -(2 ^ 63)

/-- Go `t.After(u)`: the instant `t` is later than `u`. -/
def Time.After (t u : Int) : Bool := decide (u < t)

/-- Go `t.Sub(u)`: the duration `t - u`, replaced by the maximal (minimal) duration when the
difference does not fit a `Duration`. -/
def Time.Sub (t u : Int) : Int :=
  if maxDuration < t - u then maxDuration
  else if t - u < minDuration then minDuration
  else t - u

/-- Go `d.Abs()`: the absolute value of a duration, with the minimal duration sent to the
maximal one. -/
def Duration.Abs (d : Int) : Int :=
  if 0 ≤ d then d else if d = minDuration then maxDuration else -d

/-- The library functions the engine calls whose tables live outside the repository. -/
structure Stdlib where
  /-- The call `regexp.MatchString pattern s`; `none` is a pattern that does not compile. -/
  regexpMatchString : String → String → Option Bool
  /-- The function `unicode.ToLower` on code points outside ASCII. -/
  unicodeToLower : Char → Char

/-- The UTF-8 bytes of a string, which is what Go's `len` and `s[i]` see. -/
def goBytes (s : String) : List UInt8 := s.data.flatMap String.utf8EncodeChar

/-- Go `strings.ToLower`: every code point is mapped by `unicode.ToLower`, which on ASCII
sends `A`..`Z` to `a`..`z` and fixes the rest. -/
def stringsToLower (lib : Stdlib) (s : String) : String :=
  ⟨s.data.map (fun c => if c.toNat < 128 then c.toLower else lib.unicodeToLower c)⟩

/-- Go `strings.Contains s substr`: the bytes of `substr` occur contiguously in `s`. -/
def stringsContains (s substr : String) : Bool := decide (goBytes substr <:+: goBytes s)

/-- Go `strconv.Itoa`: the decimal text of an integer. -/
def strconvItoa (n : Int) : String := toString n

/-- Go `strings.Join elems sep`. -/
def stringsJoin (elems : List String) (sep : String) : String := sep.intercalate elems

/-- A value stored in a `map[string]interface{}`. A value of a dynamic type other than
string, int and bool (a float64, nil, a nested value) is carried as its `%v` text. -/
inductive AttrValue where
  | str (s : String)
  | int (n : Int)
  | bool (b : Bool)
  | other (text : String)

/-- Go `fmt.Sprintf("%v", value)`. -/
def sprintfV : AttrValue → String
  | .str s => s
  | .int n => strconvItoa n
  | .bool b => if b then "true" else "false"
  | .other text => text

/-- Assignment `m[k] = v` on a Go map. -/
def mapSet {V : Type} (m : String → Option V) (k : String) (v : V) : String → Option V :=
  fun x => if x = k then some v else m x

/-- Removal of the key `k` from a Go map. -/
def mapDelete {V : Type} (m : String → Option V) (k : String) : String → Option V :=
  fun x => if x = k then none else m x

/-! ## `pkg/types/types.go` -/

structure SnapEvent where
  ID : String
  Timestamp : Int
  Attributes : String → Option AttrValue
  Metadata : String → Option AttrValue

structure EnrichedCommit where
  SHA : String
  Author : String
  AuthorEmail : String
  Committer : String
  Timestamp : Int
  Message : String
  Files : List String
  Branch : String
  Repository : String
  PRNumber : Option Int
  Additions : Int
  Deletions : Int
  Parents : List String

/-- Go `type MatchType int`: any integer is a value of the type. -/
abbrev MatchType := Int

def EXACT : MatchType := 0
def CONTAINS : MatchType := 1
def REGEX : MatchType := 2
def FUZZY : MatchType := 3

structure AttributeRule where
  EventKey : String
  CommitKey : String
  MatchType : MatchType
  Required : Bool

structure SnapConfig where
  TimeWindow : Int
  AttributeRules : List AttributeRule
  ScoreWeights : String → Option ℚ

structure CorrelationResult where
  Event : SnapEvent
  Commit : EnrichedCommit
  Score : ℚ
  Matches : String → Option Bool
  TimeDelta : Int

/-! ## `pkg/correlation/engine.go` -/

structure CorrelationEngine where
  config : SnapConfig

def NewCorrelationEngine (config : SnapConfig) : CorrelationEngine := ⟨config⟩

protected def min (a b : Nat) : Nat := if a < b then a else b

protected def max (a b : Nat) : Nat := if a > b then a else b

def calculateTimeDelta (_e : CorrelationEngine) (event : SnapEvent) (commit : EnrichedCommit) :
    Int :=
  if Time.After event.Timestamp commit.Timestamp then
    Time.Sub event.Timestamp commit.Timestamp
  else
    Time.Sub commit.Timestamp event.Timestamp

def isWithinTimeWindow (e : CorrelationEngine) (event : SnapEvent) (commit : EnrichedCommit) :
    Bool :=
  let timeDelta := calculateTimeDelta e event commit
  decide (timeDelta ≤ e.config.TimeWindow)

/-- The temporal score `math.Max(0, 1.0 - float64(timeDelta)/float64(TimeWindow))`.
For a zero window the quotient is an IEEE special value: `0/0` is NaN, which both the
subtraction and `math.Max` propagate (`none`), and `d/0` with `d > 0` is `+Inf`, so the
difference is `-Inf` and the maximum is `0`; `timeDelta` is never negative. -/
def calculateTemporalScore (e : CorrelationEngine) (event : SnapEvent)
    (commit : EnrichedCommit) : Option ℚ :=
  let timeDelta := calculateTimeDelta e event commit
  if e.config.TimeWindow = 0 then
    if timeDelta = 0 then none else some 0
  else
    some (Max.max 0 (1 - (timeDelta : ℚ) / (e.config.TimeWindow : ℚ)))

def getEventValue (_e : CorrelationEngine) (event : SnapEvent) (key : String) : String :=
  match event.Attributes key with
  | some value => sprintfV value
  | none => ""

def getCommitValue (_e : CorrelationEngine) (commit : EnrichedCommit) (key : String) : String :=
  if key = "sha" then commit.SHA
  else if key = "author" then commit.Author
  else if key = "author_email" then commit.AuthorEmail
  else if key = "committer" then commit.Committer
  else if key = "message" then commit.Message
  else if key = "repository" then commit.Repository
  else if key = "branch" then commit.Branch
  else if key = "pr_number" then
    match commit.PRNumber with
    | some n => strconvItoa n
    | none => ""
  else if key = "additions" then strconvItoa commit.Additions
  else if key = "deletions" then strconvItoa commit.Deletions
  else if key = "files" then stringsJoin commit.Files ","
  else ""

/-- The element `matrix[i][j]` of a slice of slices. -/
def getCell (matrix : List (List Nat)) (i j : Nat) : Nat := (matrix.getD i []).getD j 0

/-- Assignment `matrix[i][j] = v`. -/
def setCell (matrix : List (List Nat)) (i j v : Nat) : List (List Nat) :=
  matrix.set i ((matrix.getD i []).set j v)

/-- The dynamic-programming edit distance over the bytes of the two strings. The matrix has
`len(s1)+1` rows of `len(s2)+1` zeros at first; the three loops fill it in the order of the
source. -/
def levenshteinDistance (_e : CorrelationEngine) (s1 s2 : String) : Nat :=
  let b1 := goBytes s1
  let b2 := goBytes s2
  if b1.length = 0 then b2.length
  else if b2.length = 0 then b1.length
  else
    let matrix : List (List Nat) :=
      List.replicate (b1.length + 1) (List.replicate (b2.length + 1) 0)
    let matrix := (List.range (b1.length + 1)).foldl (fun m i => setCell m i 0 i) matrix
    let matrix := (List.range (b2.length + 1)).foldl (fun m j => setCell m 0 j j) matrix
    let matrix := (List.range' 1 b1.length).foldl (fun m i =>
      (List.range' 1 b2.length).foldl (fun m j =>
        let cost := if b1[i - 1]? ≠ b2[j - 1]? then 1 else 0
        setCell m i j
          (GitSnap.min (GitSnap.min (getCell m (i - 1) j + 1) (getCell m i (j - 1) + 1))
            (getCell m (i - 1) (j - 1) + cost))) m) matrix
    getCell matrix b1.length b2.length

/-- The fuzzy strategy; the threshold `0.7` is the rational `7/10`. -/
def fuzzyMatch (lib : Stdlib) (e : CorrelationEngine) (s1 s2 : String) : Bool :=
  let s1 := stringsToLower lib s1
  let s2 := stringsToLower lib s2
  let distance := levenshteinDistance e s1 s2
  let maxLen : ℚ := (GitSnap.max (goBytes s1).length (goBytes s2).length : ℚ)
  if maxLen = 0 then true
  else
    let similarity : ℚ := 1 - (distance : ℚ) / maxLen
    decide (similarity ≥ 7 / 10)

def matchValues (lib : Stdlib) (e : CorrelationEngine) (eventValue commitValue : String)
    (matchType : MatchType) : Bool :=
  if eventValue = "" ∨ commitValue = "" then false
  else if matchType = EXACT then decide (eventValue = commitValue)
  else if matchType = CONTAINS then
    stringsContains (stringsToLower lib commitValue) (stringsToLower lib eventValue)
  else if matchType = REGEX then
    match lib.regexpMatchString eventValue commitValue with
    | some matched => matched
    | none => false
  else if matchType = FUZZY then fuzzyMatch lib e eventValue commitValue
  else false

/-- The local variables of the rule loop of `calculateCorrelation`. -/
structure RuleTally where
  matchesMap : String → Option Bool
  requiredMatches : Nat
  totalRequired : Nat
  optionalMatches : Nat
  totalOptional : Nat

/-- The outcome of one rule on a pair: the condition of the `if` in the rule loop. -/
def ruleMatches (lib : Stdlib) (e : CorrelationEngine) (event : SnapEvent)
    (commit : EnrichedCommit) (rule : AttributeRule) : Bool :=
  let eventValue := getEventValue e event rule.EventKey
  let commitValue := getCommitValue e commit rule.CommitKey
  matchValues lib e eventValue commitValue rule.MatchType

/-- One iteration of the rule loop of `calculateCorrelation`. -/
def ruleStep (lib : Stdlib) (e : CorrelationEngine) (event : SnapEvent)
    (commit : EnrichedCommit) (st : RuleTally) (rule : AttributeRule) : RuleTally :=
  let st : RuleTally :=
    if rule.Required then { st with totalRequired := st.totalRequired + 1 }
    else { st with totalOptional := st.totalOptional + 1 }
  if ruleMatches lib e event commit rule then
    let st : RuleTally := { st with matchesMap := mapSet st.matchesMap rule.EventKey true }
    if rule.Required then { st with requiredMatches := st.requiredMatches + 1 }
    else { st with optionalMatches := st.optionalMatches + 1 }
  else
    { st with matchesMap := mapSet st.matchesMap rule.EventKey false }

/-- The state of the rule loop after all rules. -/
def runRules (lib : Stdlib) (e : CorrelationEngine) (event : SnapEvent)
    (commit : EnrichedCommit) : RuleTally :=
  e.config.AttributeRules.foldl (ruleStep lib e event commit)
    { matchesMap := fun _ => none, requiredMatches := 0, totalRequired := 0,
      optionalMatches := 0, totalOptional := 0 }

def calculateCorrelation (lib : Stdlib) (e : CorrelationEngine) (event : SnapEvent)
    (commit : EnrichedCommit) : (String → Option Bool) × Option ℚ :=
  let st := runRules lib e event commit
  if st.totalRequired > 0 ∧ st.requiredMatches < st.totalRequired then
    (st.matchesMap, some 0)
  else
    let attributeScore : ℚ :=
      if st.totalRequired > 0 then (st.requiredMatches : ℚ) / (st.totalRequired : ℚ) else 1
    let attributeScore : ℚ :=
      if st.totalOptional > 0 then
        (attributeScore + (st.optionalMatches : ℚ) / (st.totalOptional : ℚ)) / 2
      else attributeScore
    let temporalScore := calculateTemporalScore e event commit
    let temporalWeight : ℚ := (e.config.ScoreWeights "temporal").getD 0
    let temporalWeight : ℚ := if temporalWeight = 0 then 1 / 2 else temporalWeight
    let attributeWeight : ℚ := (e.config.ScoreWeights "attribute").getD 0
    let attributeWeight : ℚ := if attributeWeight = 0 then 1 / 2 else attributeWeight
    (st.matchesMap,
      temporalScore.map (fun t => t * temporalWeight + attributeScore * attributeWeight))

/-- One inner iteration of the exchange sort: `results[i]` and `results[j]` are swapped
when `results[j].Score > results[i].Score`. Both indices are in range wherever the loops
call it. -/
def exchangeStep (i : Nat) (results : List CorrelationResult) (j : Nat) :
    List CorrelationResult :=
  match results[i]?, results[j]? with
  | some ri, some rj =>
    if rj.Score > ri.Score then (results.set i rj).set j ri else results
  | _, _ => results

/-- The inner loop `for j := i + 1; j < len(results); j++`. -/
def exchangePass (results : List CorrelationResult) (i : Nat) : List CorrelationResult :=
  (List.range' (i + 1) (results.length - (i + 1))).foldl (exchangeStep i) results

def sortAndFilterResults (_e : CorrelationEngine) (results : List CorrelationResult) :
    List CorrelationResult :=
  (List.range results.length).foldl exchangePass results

/-- The body of the inner loop of `SnapToCommits` for one pair. -/
def snapPair (lib : Stdlib) (e : CorrelationEngine) (event : SnapEvent)
    (results : List CorrelationResult) (commit : EnrichedCommit) : List CorrelationResult :=
  if !isWithinTimeWindow e event commit then results
  else
    match calculateCorrelation lib e event commit with
    | (matchesMap, some score) =>
      if score > 0 then
        results ++ [{ Event := event, Commit := commit, Score := score, Matches := matchesMap,
                      TimeDelta := calculateTimeDelta e event commit }]
      else results
    | (_, none) => results

def SnapToCommits (lib : Stdlib) (e : CorrelationEngine) (events : List SnapEvent)
    (commits : List EnrichedCommit) : List CorrelationResult :=
  let results : List CorrelationResult :=
    events.foldl (fun results event => commits.foldl (snapPair lib e event) results) []
  sortAndFilterResults e results

/-! ## Data for closed examples -/

/-- Library tables for closed examples: no pattern compiles, and code points outside ASCII
are left alone. -/
def plainLib : Stdlib := ⟨fun _ _ => none, fun c => c⟩

/-- One minute as a `time.Duration`. -/
def minute : Int := 60 * 1000000000

/-- An event with no attributes at the given instant. -/
def eventAt (t : Int) : SnapEvent :=
  { ID := "", Timestamp := t, Attributes := fun _ => none, Metadata := fun _ => none }

/-- A commit with empty fields at the given instant. -/
def commitAt (t : Int) : EnrichedCommit :=
  { SHA := "", Author := "", AuthorEmail := "", Committer := "", Timestamp := t, Message := "",
    Files := [], Branch := "", Repository := "", PRNumber := none, Additions := 0,
    Deletions := 0, Parents := [] }

/-- The configuration of `TestCorrelationEngine_SnapToCommits`. -/
def testConfig : SnapConfig :=
  { TimeWindow := 30 * minute,
    AttributeRules :=
      [{ EventKey := "user_id", CommitKey := "author_email", MatchType := EXACT,
         Required := true }],
    ScoreWeights := mapSet (mapSet (fun _ => none) "temporal" (1 / 2)) "attribute" (1 / 2) }

/-- The event of `TestCorrelationEngine_SnapToCommits`, at instant `baseTime`. -/
def testEvent (baseTime : Int) : SnapEvent :=
  { ID := "event1", Timestamp := baseTime,
    Attributes :=
      mapSet (mapSet (fun _ => none) "user_id" (AttrValue.str "john.doe@example.com"))
        "action" (AttrValue.str "code_generation"),
    Metadata := fun _ => none }

/-- The first commit of `TestCorrelationEngine_SnapToCommits`. -/
def testCommitA (baseTime : Int) : EnrichedCommit :=
  { SHA := "abc123", Author := "John Doe", AuthorEmail := "john.doe@example.com",
    Committer := "", Timestamp := baseTime + 10 * minute, Message := "Add new feature",
    Files := [], Branch := "", Repository := "test-repo", PRNumber := none, Additions := 0,
    Deletions := 0, Parents := [] }

/-- The second commit of `TestCorrelationEngine_SnapToCommits`. -/
def testCommitB (baseTime : Int) : EnrichedCommit :=
  { SHA := "def456", Author := "Jane Smith", AuthorEmail := "jane.smith@example.com",
    Committer := "", Timestamp := baseTime + 5 * minute, Message := "Fix bug",
    Files := [], Branch := "", Repository := "test-repo", PRNumber := none, Additions := 0,
    Deletions := 0, Parents := [] }

/-- The result `TestCorrelationEngine_SnapToCommits` expects, for `baseTime = 0`. -/
def testResult : CorrelationResult :=
  { Event := testEvent 0, Commit := testCommitA 0, Score := 5 / 6,
    Matches := (calculateCorrelation plainLib ⟨testConfig⟩ (testEvent 0) (testCommitA 0)).1,
    TimeDelta := 10 * minute }

/-- The instant `2024-01-01T00:00:00Z` counted from the zero `time.Time`
(`0001-01-01T00:00:00Z`), in nanoseconds. -/
def year2024 : Int := 63839664000 * 1000000000

/-- A configuration without rules and weights whose window is the maximal duration. -/
def maxWindowConfig : SnapConfig :=
  { TimeWindow := maxDuration, AttributeRules := [], ScoreWeights := fun _ => none }

/-- A result with the given score and empty fields otherwise. -/
def scoredResult (score : ℚ) : CorrelationResult :=
  { Event := eventAt 0, Commit := commitAt 0, Score := score, Matches := fun _ => none,
    TimeDelta := 0 }

/-- A configuration without rules whose weights are `1` for `temporal` and `0` for
`attribute`, with a window of 30 minutes. -/
def skewedConfig : SnapConfig :=
  { TimeWindow := 30 * minute, AttributeRules := [],
    ScoreWeights := mapSet (mapSet (fun _ => none) "temporal" 1) "attribute" 0 }

/-! ## Definitions used in the statements and proofs -/

/-- The state of the inner loop of the exchange sort at position `i`, before index `m` is
visited: `l0` is the list the pass started from. -/
def PassInv (i : Nat) (l0 l : List CorrelationResult) (m : Nat) : Prop :=
  l.length = l0.length ∧
  (∀ k, k < i → l[k]? = l0[k]?) ∧
  (∀ k, i < k → k < m → ∀ x y, l[i]? = some x → l[k]? = some y → y.Score ≤ x.Score) ∧
  (∀ k, i ≤ k → k < l.length → ∃ k', i ≤ k' ∧ k' < l0.length ∧ l[k]? = l0[k']?)

/-- The state of the outer loop of the exchange sort before position `m` is visited: every
element in front of `m` is at least as large as every element behind it. -/
def SortedUpTo (l : List CorrelationResult) (m : Nat) : Prop :=
  ∀ a b, a < m → a < b → ∀ x y, l[a]? = some x → l[b]? = some y → y.Score ≤ x.Score

/-- The commit keys `getCommitValue` knows. -/
def commitKeys : List String :=
  ["sha", "author", "author_email", "committer", "message", "repository", "branch",
    "pr_number", "additions", "deletions", "files"]

/-- The temporal score as the specification words it: `max(0, 1 - delta/window)`. -/
def specTemporalScore (delta window : Int) : ℚ := Max.max 0 (1 - (delta : ℚ) / (window : ℚ))

/-- The attribute score as the specification words it: the required fraction is
`requiredMatches/totalRequired` (`1` without required rules), averaged with
`optionalMatches/totalOptional` when there is an optional rule. -/
def specAttributeScore (requiredMatches totalRequired optionalMatches totalOptional : Nat) : ℚ :=
  let requiredFraction : ℚ :=
    if totalRequired = 0 then 1 else (requiredMatches : ℚ) / (totalRequired : ℚ)
  if 0 < totalOptional then
    (requiredFraction + (optionalMatches : ℚ) / (totalOptional : ℚ)) / 2
  else requiredFraction

/-- A weight as the specification words it: the configured value, or `0.5` if zero or
absent. -/
def specWeight (weights : String → Option ℚ) (name : String) : ℚ :=
  match weights name with
  | some w => if w = 0 then 1 / 2 else w
  | none => 1 / 2

/-- The total score as the specification words it, the matches being counted over the rule
list: `temporalScore·temporalWeight + attributeScore·attributeWeight`. -/
def specScore (lib : Stdlib) (e : CorrelationEngine) (event : SnapEvent)
    (commit : EnrichedCommit) : ℚ :=
  let rules := e.config.AttributeRules
  specTemporalScore (calculateTimeDelta e event commit) e.config.TimeWindow *
      specWeight e.config.ScoreWeights "temporal" +
    specAttributeScore
        (rules.countP (fun r => r.Required && ruleMatches lib e event commit r))
        (rules.countP (fun r => r.Required))
        (rules.countP (fun r => !r.Required && ruleMatches lib e event commit r))
        (rules.countP (fun r => !r.Required)) *
      specWeight e.config.ScoreWeights "attribute"

/-- The string `s'` is `s` with the case of some of its ASCII letters changed: position by
position the character is kept, put in upper case or put in lower case. -/
def caseVariant (s s' : String) : Prop :=
  List.Forall₂ (fun c c' => c' = c ∨ c' = c.toUpper ∨ c' = c.toLower) s.data s'.data

/-- The commit of `TestCorrelationEngine_GetCommitValue`. -/
def testCommitValues : EnrichedCommit :=
  { SHA := "abc123", Author := "John Doe", AuthorEmail := "john.doe@example.com",
    Committer := "", Timestamp := 0, Message := "Test commit",
    Files := ["file1.go", "file2.go"], Branch := "main", Repository := "test-repo",
    PRNumber := some 123, Additions := 10, Deletions := 5, Parents := [] }

/-- A library whose pattern matcher knows the two patterns of the engine test: `test.*`
matches every text that contains `test`, `prod.*` every text that contains `prod`, and
the pattern `(` does not compile. -/
def testRegexLib : Stdlib :=
  { regexpMatchString := fun pattern s =>
      if pattern = "test.*" then some (stringsContains s "test")
      else if pattern = "prod.*" then some (stringsContains s "prod")
      else none,
    unicodeToLower := fun c => c }

/-- The result for one pair as the specification words it: a result exists when the pair is
within the window and its score is positive, and it carries the pair, the score, the match
map and the delta. -/
def pairResult (lib : Stdlib) (e : CorrelationEngine) (event : SnapEvent)
    (commit : EnrichedCommit) : Option CorrelationResult :=
  if isWithinTimeWindow e event commit = true then
    match calculateCorrelation lib e event commit with
    | (matchesMap, some score) =>
      if 0 < score then
        some { Event := event, Commit := commit, Score := score, Matches := matchesMap,
               TimeDelta := calculateTimeDelta e event commit }
      else none
    | (_, none) => none
  else none

/-- The results of all pairs in enumeration order: events in input order, and for each event
the commits in input order. -/
def emittedResults (lib : Stdlib) (e : CorrelationEngine) (events : List SnapEvent)
    (commits : List EnrichedCommit) : List CorrelationResult :=
  events.flatMap (fun ev => commits.filterMap (fun c => pairResult lib e ev c))

/-- The results of each score are in the same order in `out` as in `emitted`: the ordering
of `out` is stable with respect to `emitted`. -/
def StableOrder (out emitted : List CorrelationResult) : Prop :=
  ∀ s : ℚ, out.filter (fun r => decide (r.Score = s)) =
    emitted.filter (fun r => decide (r.Score = s))

/-- A commit with the given hash at the given instant, its other fields empty. -/
def commitNamed (sha : String) (t : Int) : EnrichedCommit :=
  { commitAt t with SHA := sha }

/-- A configuration without rules and weights, with a window of 30 minutes. -/
def tieConfig : SnapConfig :=
  { TimeWindow := 30 * minute, AttributeRules := [], ScoreWeights := fun _ => none }

/-- The last rule of the list whose event key is `key`, if there is one. -/
def lastRuleWith (rules : List AttributeRule) (key : String) : Option AttributeRule :=
  (rules.filter (fun r => decide (r.EventKey = key))).getLast?

/-- Two rules on the event key `user_id`, the first required and matching the author email
of the test commit, the second optional and comparing with the commit hash. -/
def collidingRules : List AttributeRule :=
  [{ EventKey := "user_id", CommitKey := "author_email", MatchType := EXACT, Required := true },
   { EventKey := "user_id", CommitKey := "sha", MatchType := EXACT, Required := false }]

/-- The rule of the engine test followed by an optional rule from the event key `action` to
the commit message. -/
def twoRules : List AttributeRule :=
  [{ EventKey := "user_id", CommitKey := "author_email", MatchType := EXACT, Required := true },
   { EventKey := "action", CommitKey := "message", MatchType := CONTAINS, Required := false }]

/-- The edit distance by the standard recursion, with unit cost for insertion, deletion and
substitution: `d(ε, t) = |t|`, `d(s, ε) = |s|` and
`d(x·s, y·t) = min(d(s, y·t) + 1, d(x·s, t) + 1, d(s, t) + [x ≠ y])`. -/
def editDistance {α : Type} [DecidableEq α] : List α → List α → Nat
  | [], t => t.length
  | x :: s, [] => (x :: s).length
  | x :: s, y :: t =>
    Nat.min (Nat.min (editDistance s (y :: t) + 1) (editDistance (x :: s) t + 1))
      (editDistance s t + if x ≠ y then 1 else 0)
termination_by s t => s.length + t.length

/-- An alignment of `s` with `t` of cost `n`: the two sequences are read from the left, and
each step deletes an element of `s`, inserts an element of `t`, or puts an element of `t`
in the place of an element of `s`, which is free when the two are equal. -/
inductive Alignment {α : Type} [DecidableEq α] : List α → List α → Nat → Prop
  | nil : Alignment [] [] 0
  | delete (x : α) {s t : List α} {n : Nat} : Alignment s t n → Alignment (x :: s) t (n + 1)
  | insert (y : α) {s t : List α} {n : Nat} : Alignment s t n → Alignment s (y :: t) (n + 1)
  | substitute (x y : α) {s t : List α} {n : Nat} :
    Alignment s t n → Alignment (x :: s) (y :: t) (n + if x ≠ y then 1 else 0)

/-- The matrix has `n` rows of `k` elements each. -/
def Dims (matrix : List (List Nat)) (n k : Nat) : Prop :=
  matrix.length = n ∧ ∀ row ∈ matrix, row.length = k

/-- The cells of the matrix that hold their final value when the main loops of
`levenshteinDistance` are about to fill the cell `(i, j)`. -/
def Filled (b1 b2 : List UInt8) (matrix : List (List Nat)) (i j : Nat) : Prop :=
  Dims matrix (b1.length + 1) (b2.length + 1) ∧
    ∀ a b, a ≤ b1.length → b ≤ b2.length → (a = 0 ∨ b = 0 ∨ a < i ∨ (a = i ∧ b < j)) →
      getCell matrix a b = editDistance (b1.take a) (b2.take b)

/-- One single-element edit: an element is inserted, deleted or replaced somewhere in the
sequence. -/
inductive EditStep {α : Type} : List α → List α → Prop
  | insert (l r : List α) (y : α) : EditStep (l ++ r) (l ++ y :: r)
  | delete (l r : List α) (x : α) : EditStep (l ++ x :: r) (l ++ r)
  | substitute (l r : List α) (x y : α) : EditStep (l ++ x :: r) (l ++ y :: r)

/-- A sequence of `n` single-element edits that turns `s` into `t`. -/
inductive EditPath {α : Type} : List α → List α → Nat → Prop
  | refl (s : List α) : EditPath s s 0
  | step {s u t : List α} {n : Nat} : EditStep s u → EditPath u t n → EditPath s t (n + 1)

/-! ## The methods of `MatchType` in `pkg/types/types.go` -/

/-- The method `String` of `MatchType` in `pkg/types/types.go`. -/
def MatchType_String (m : MatchType) : String :=
  if m = EXACT then "exact"
  else if m = CONTAINS then "contains"
  else if m = REGEX then "regex"
  else if m = FUZZY then "fuzzy"
  else "unknown"

/-- The method `MarshalYAML` of `MatchType`: the name of the strategy, never an error. -/
def MatchType_MarshalYAML (m : MatchType) : Except String String :=
  Except.ok (MatchType_String m)

/-- The method `UnmarshalYAML` of `MatchType`. The argument `decoded` is what the callback
`unmarshal(&s)` delivers: the string of the YAML node, or an error, which is passed on with
the receiver unchanged. The result is the new value of the receiver. -/
def MatchType_UnmarshalYAML (_m : MatchType) (decoded : Except String String) :
    Except String MatchType :=
  match decoded with
  | Except.error err => Except.error err
  | Except.ok s =>
    if s = "exact" then Except.ok EXACT
    else if s = "contains" then Except.ok CONTAINS
    else if s = "regex" then Except.ok REGEX
    else if s = "fuzzy" then Except.ok FUZZY
    else Except.ok EXACT

/-- The four strategies. -/
def strategies : List MatchType := [EXACT, CONTAINS, REGEX, FUZZY]

/-! ## `pkg/parser/parser.go` and the library functions it calls -/

/-- Go `unicode.IsSpace`: the white space characters of Unicode. -/
def unicodeIsSpace (c : Char) : Bool :=
  let n := c.toNat
  (9 ≤ n && n ≤ 13) || n = 0x20 || n = 0x85 || n = 0xA0 || n = 0x1680 ||
    (0x2000 ≤ n && n ≤ 0x200A) || n = 0x2028 || n = 0x2029 || n = 0x202F || n = 0x205F ||
    n = 0x3000

/-- Go `strings.TrimSpace`: the string without its leading and trailing white space. -/
def stringsTrimSpace (s : String) : String :=
  ⟨((s.data.dropWhile unicodeIsSpace).reverse.dropWhile unicodeIsSpace).reverse⟩

/-- The pieces of a list of characters between the characters that satisfy `p`. -/
def splitBy (p : Char → Bool) : List Char → List (List Char)
  | [] => [[]]
  | c :: cs =>
    if p c then [] :: splitBy p cs
    else
      match splitBy p cs with
      | w :: ws => (c :: w) :: ws
      | [] => [[c]]

/-- Go `strings.Split s sep` for a separator of one character. -/
def stringsSplit (s : String) (sep : Char) : List String :=
  (splitBy (fun c => c = sep) s.data).map String.mk

/-- Go `strings.Fields`: the non-empty pieces of the string between runs of white space. -/
def stringsFields (s : String) : List String :=
  ((splitBy unicodeIsSpace s.data).filter (fun w => !w.isEmpty)).map String.mk

/-- The value of a run of decimal digits read from the left, `none` if another character
occurs. -/
def parseDigits : List Char → Nat → Option Nat
  | [], acc => some acc
  | c :: cs, acc => if c.isDigit then parseDigits cs (acc * 10 + (c.toNat - 48)) else none

/-- The largest 64-bit signed integer. -/
def maxInt64 : Int := 2 ^ 63 - 1

/-- The smallest 64-bit signed integer. -/
def minInt64 : Int := -(2 ^ 63)

/-- Go `strconv.ParseInt(s, 10, 64)`, which is also `strconv.Atoi` where `int` has 64 bits:
an optional sign followed by at least one decimal digit, and a value that fits 64 bits;
`none` is an error (of syntax or of range). -/
def strconvAtoi (s : String) : Option Int :=
  let signed : Bool × List Char :=
    match s.data with
    | '-' :: cs => (true, cs)
    | '+' :: cs => (false, cs)
    | cs => (false, cs)
  if signed.2.isEmpty then none
  else
    match parseDigits signed.2 0 with
    | none => none
    | some n =>
      let v : Int := if signed.1 then -(n : Int) else (n : Int)
      if minInt64 ≤ v ∧ v ≤ maxInt64 then some v else none

/-- Go `strconv.ParseBool`; `none` is an error. -/
def strconvParseBool (s : String) : Option Bool :=
  if s = "1" ∨ s = "t" ∨ s = "T" ∨ s = "TRUE" ∨ s = "true" ∨ s = "True" then some true
  else if s = "0" ∨ s = "f" ∨ s = "F" ∨ s = "FALSE" ∨ s = "false" ∨ s = "False" then some false
  else none

/-- The function `parseValue`. The argument `parseFloat` stands for `strconv.ParseFloat(s,
64)`, a library function that is not part of the repository: it yields the `%v` text of
the float64 read from `s`, or `none` for an error. A float64 result is carried as that
text. -/
def parseValue (parseFloat : String → Option String) (value : String) : AttrValue :=
  let value := stringsTrimSpace value
  if value = "" then AttrValue.str ""
  else
    match strconvAtoi value with
    | some intVal => AttrValue.int intVal
    | none =>
      match parseFloat value with
      | some floatVal => AttrValue.other floatVal
      | none =>
        match strconvParseBool value with
        | some boolVal => AttrValue.bool boolVal
        | none => AttrValue.str value

/-- A stand-in for `strconv.ParseFloat` that knows three texts, with the `%v` texts of the
float64 values Go reads from them, and rejects every other text. -/
def sampleParseFloat (s : String) : Option String :=
  if s = "3.14" then some "3.14"
  else if s = "1.0" then some "1"
  else if s = "9223372036854775808" then some "9.223372036854776e+18"
  else none

/-- An event as `parseCSVEvents` builds it from one row with the single column `header`:
for a column other than `id` and `timestamp`, the attribute `header` holds `parseValue` of
the cell. -/
def csvEvent (parseFloat : String → Option String) (header cell : String) : SnapEvent :=
  { ID := "", Timestamp := 0,
    Attributes := mapSet (fun _ => none) header (parseValue parseFloat cell),
    Metadata := fun _ => none }

/-- The string made of the Kelvin sign U+212A alone, three bytes in UTF-8. -/
def kelvinSign : String := ⟨[Char.ofNat 0x212A]⟩

/-- Library tables that hold the entry of `unicode.ToLower` for the Kelvin sign, whose
lower case is the ASCII letter `k`; no pattern compiles. -/
def kelvinLib : Stdlib :=
  ⟨fun _ _ => none, fun c => if c = Char.ofNat 0x212A then Char.ofNat 0x6B else c⟩

/-! ## `pkg/config/config.go` and the threshold of `cmd/git-snap/commands/correlate.go` -/

def DefaultConfig : SnapConfig :=
  { TimeWindow := 15 * minute,
    AttributeRules :=
      [{ EventKey := "user_id", CommitKey := "author_email", MatchType := EXACT,
         Required := true }],
    ScoreWeights := mapSet (mapSet (fun _ => none) "temporal" (1 / 2)) "attribute" (1 / 2) }

/-- The default of the flag `threshold` of the command `correlate`. -/
def defaultThreshold : ℚ := 1 / 2

/-- The filter loop of `runCorrelate`: the results whose score is at least the threshold,
in their order. -/
def thresholdFilter (threshold : ℚ) (results : List CorrelationResult) :
    List CorrelationResult :=
  results.foldl (fun filteredResults result =>
    if result.Score ≥ threshold then filteredResults ++ [result] else filteredResults) []

/-- The required fraction: the first value of the local `attributeScore` of
`calculateCorrelation`. -/
def requiredFraction (st : RuleTally) : ℚ :=
  if st.totalRequired > 0 then (st.requiredMatches : ℚ) / (st.totalRequired : ℚ) else 1

/-- The attribute score: the final value of the local `attributeScore` of
`calculateCorrelation`. -/
def attributeScore (st : RuleTally) : ℚ :=
  if st.totalOptional > 0 then
    (requiredFraction st + (st.optionalMatches : ℚ) / (st.totalOptional : ℚ)) / 2
  else requiredFraction st

/-! ## `pkg/git/git.go` -/

/-- The conversion of an integer to a 64-bit signed integer, as the arithmetic of Go `int`
wraps around. -/
def wrapInt64 (v : Int) : Int := (v + 2 ^ 63) % 2 ^ 64 - 2 ^ 63

/-- The digit loop of `strconv.ParseUint` in base 10 for 64 bits: `none` is an error of
syntax; a value that leaves 64 bits stops the loop at once with the largest value. -/
def parseUintDigits : List Char → Nat → Option Nat
  | [], acc => some acc
  | c :: cs, acc =>
    if c.isDigit then
      if 2 ^ 64 ≤ acc * 10 + (c.toNat - 48) then some (2 ^ 64 - 1)
      else parseUintDigits cs (acc * 10 + (c.toNat - 48))
    else none

/-- The value that `strconv.Atoi` returns beside its error, which is what
`additions, _ := strconv.Atoi(s)` keeps: the number read; `0` after an error of syntax; the
nearest 64-bit integer after an error of range. -/
def strconvAtoiValue (s : String) : Int :=
  let signed : Bool × List Char :=
    match s.data with
    | '-' :: cs => (true, cs)
    | '+' :: cs => (false, cs)
    | cs => (false, cs)
  if signed.2.isEmpty then 0
  else
    match parseUintDigits signed.2 0 with
    | none => 0
    | some n =>
      if signed.1 then (if 2 ^ 63 < n then minInt64 else -(n : Int))
      else (if 2 ^ 63 ≤ n then maxInt64 else (n : Int))

/-- Go `time.Unix(sec, 0)` as an instant in nanoseconds. -/
def timeUnix (sec : Int) : Int := sec * 1000000000

/-- The local variables `commits` and `currentCommit` of `parseCommits`. -/
structure ParseState where
  commits : List EnrichedCommit
  currentCommit : Option EnrichedCommit

/-- One iteration of the line loop of `parseCommits`. The arguments `repository` and
`branch` stand for the results of `getRepositoryName` and `getCurrentBranch`, which run
`git`. -/
def parseCommitsStep (repository branch : String) (st : ParseState) (line : String) :
    ParseState :=
  let line := stringsTrimSpace line
  if line = "" then st
  else if stringsContains line "|" && !stringsContains line "\t" then
    let st : ParseState :=
      match st.currentCommit with
      | some c => { st with commits := st.commits ++ [c] }
      | none => st
    let parts := stringsSplit line '|'
    if parts.length < 6 then st
    else
      match strconvAtoi (parts.getD 4 "") with
      | none => st
      | some timestamp =>
        let parents : List String :=
          if parts.length > 6 ∧ parts.getD 6 "" ≠ "" then stringsSplit (parts.getD 6 "") ' '
          else []
        { st with
          currentCommit := some
            { SHA := parts.getD 0 "", Author := parts.getD 1 "", AuthorEmail := parts.getD 2 "",
              Committer := parts.getD 3 "", Timestamp := timeUnix timestamp,
              Message := parts.getD 5 "", Parents := parents, Repository := repository,
              Branch := branch, Files := [], PRNumber := none, Additions := 0,
              Deletions := 0 } }
  else
    match st.currentCommit with
    | some c =>
      let parts := stringsSplit line '\t'
      if parts.length = 3 then
        let additions := strconvAtoiValue (parts.getD 0 "")
        let deletions := strconvAtoiValue (parts.getD 1 "")
        let filename := parts.getD 2 ""
        { st with
          currentCommit := some
            { c with Additions := wrapInt64 (c.Additions + additions),
                     Deletions := wrapInt64 (c.Deletions + deletions),
                     Files := c.Files ++ [filename] } }
      else st
    | none => st

def parseCommits (repository branch : String) (output : String) :
    Except String (List EnrichedCommit) :=
  let lines := stringsSplit output '\n'
  let st := lines.foldl (parseCommitsStep repository branch) ⟨[], none⟩
  match st.currentCommit with
  | some c => Except.ok (st.commits ++ [c])
  | none => Except.ok st.commits

/-- A log of two commits; the author of the second has a vertical bar in the name, so the
fifth field of its header line is not the timestamp. -/
def barAuthorLog : String :=
  "abc|Ann|ann@x.com|Ann|1700000000|first|\n1\t0\ta.go\n\n" ++
    "def|B|ob|bob@x.com|B|ob|1700000100|second|abc\n2\t1\tb.go\n"

/-- The fields of a commit that the examples compare. -/
def commitSummary (c : EnrichedCommit) : String × Int × Int × List String :=
  (c.SHA, c.Additions, c.Deletions, c.Files)

/-! ## `internal/github/client.go` -/

/-- The line loop of `extractPRNumber`; the error is the run-time panic of the index
expression `strings.Fields(parts[1])[0]` on an empty slice. -/
def extractPRNumberLines : List String → Except String (Option Int)
  | [] => Except.ok none
  | line :: lines =>
    if stringsContains line "Merge pull request #" then
      let parts := stringsSplit line '#'
      if parts.length > 1 then
        match stringsFields (parts.getD 1 "") with
        | [] => Except.error "index out of range [0] with length 0"
        | prStr :: _ =>
          match strconvAtoi prStr with
          | some prNum => Except.ok (some prNum)
          | none => extractPRNumberLines lines
      else extractPRNumberLines lines
    else extractPRNumberLines lines

def extractPRNumber (message : String) : Except String (Option Int) :=
  extractPRNumberLines (stringsSplit message '\n')

/-- A `types.CorrelationResult` whose field `Score` is any float64 value: `none` stands for
NaN, as for the score in `calculateCorrelation`. -/
structure FloatResult where
  Event : SnapEvent
  Commit : EnrichedCommit
  Score : Option ℚ
  Matches : String → Option Bool
  TimeDelta : Int

/-- Go `a > b` on float64 values: false when either side is NaN. -/
def floatGt : Option ℚ → Option ℚ → Bool
  | some a, some b => decide (a > b)
  | _, _ => false

/-- Go `a >= b` on float64 values: false when either side is NaN. -/
def floatGe : Option ℚ → Option ℚ → Bool
  | some a, some b => decide (a ≥ b)
  | _, _ => false

/-- One inner iteration of the exchange sort of `sortAndFilterResults`, the comparison
`results[j].Score > results[i].Score` being the argument `gt`. -/
def exchangeStepBy {α : Type} (gt : α → α → Bool) (i : Nat) (results : List α) (j : Nat) :
    List α :=
  match results[i]?, results[j]? with
  | some ri, some rj => if gt rj ri then (results.set i rj).set j ri else results
  | _, _ => results

/-- The inner loop `for j := i + 1; j < len(results); j++` over the comparison `gt`. -/
def exchangePassBy {α : Type} (gt : α → α → Bool) (results : List α) (i : Nat) : List α :=
  (List.range' (i + 1) (results.length - (i + 1))).foldl (exchangeStepBy gt i) results

/-- The two loops of `sortAndFilterResults` over the comparison `gt`. -/
def exchangeSortBy {α : Type} (gt : α → α → Bool) (results : List α) : List α :=
  (List.range results.length).foldl (exchangePassBy gt) results

/-- The function `sortAndFilterResults` on results whose scores are any float64 values. -/
def sortAndFilterFloatResults (results : List FloatResult) : List FloatResult :=
  exchangeSortBy (fun rj ri => floatGt rj.Score ri.Score) results

/-- A result with the given float64 score and empty fields otherwise. -/
def scoredFloatResult (score : Option ℚ) : FloatResult :=
  { Event := eventAt 0, Commit := commitAt 0, Score := score, Matches := fun _ => none,
    TimeDelta := 0 }

/-- A result as a result with a float64 score that is not NaN. -/
def CorrelationResult.toFloatResult (r : CorrelationResult) : FloatResult :=
  { Event := r.Event, Commit := r.Commit, Score := some r.Score, Matches := r.Matches,
    TimeDelta := r.TimeDelta }

/-- The state of the inner loop of the exchange sort over `gt` at position `i`, before
index `m` is visited: `l0` is the list the pass started from. -/
def PassInvBy {α : Type} (gt : α → α → Bool) (i : Nat) (l0 l : List α) (m : Nat) : Prop :=
  l.length = l0.length ∧
  (∀ k, k < i → l[k]? = l0[k]?) ∧
  (∀ k, i < k → k < m → ∀ x y, l[i]? = some x → l[k]? = some y → gt y x = false) ∧
  (∀ k, i ≤ k → k < l.length → ∃ k', i ≤ k' ∧ k' < l0.length ∧ l[k]? = l0[k']?)

/-- The state of the outer loop of the exchange sort over `gt` before position `m` is
visited: no element behind an element in front of `m` is greater than it. -/
def SortedUpToBy {α : Type} (gt : α → α → Bool) (l : List α) (m : Nat) : Prop :=
  ∀ a b, a < m → a < b → ∀ x y, l[a]? = some x → l[b]? = some y → gt y x = false

/-- The string made of the dotless `ı` (U+0131) alone: a lower-case letter, which
`unicode.ToLower` leaves alone. -/
def dotlessI : String := ⟨[Char.ofNat 0x131]⟩

/-- The string made of the long `ſ` (U+017F) alone: a lower-case letter, which
`unicode.ToLower` leaves alone. -/
def longS : String := ⟨[Char.ofNat 0x17F]⟩

/-- Go `unicode.ToUpper` on the letters of the examples: the upper case of the dotless `ı`
is the ASCII letter `I` and the upper case of the long `ſ` is the ASCII letter `S`; ASCII
letters are put in upper case. -/
def sampleToUpper (c : Char) : Char :=
  if c = Char.ofNat 0x131 then 'I' else if c = Char.ofNat 0x17F then 'S' else c.toUpper

/-! ## The exchange sort -/

theorem cons_set_perm {α : Type} (x b : α) :
    ∀ (t : List α) (j : Nat), t[j]? = some b → (b :: t.set j x).Perm (x :: t)
  | [], j, h => by simp at h
  | y :: t, 0, h => by
    simp only [List.getElem?_cons_zero, Option.some.injEq] at h
    subst h
    exact List.Perm.swap _ _ _
  | y :: t, j + 1, h => by
    simp only [List.getElem?_cons_succ] at h
    have ih := cons_set_perm x b t j h
    simp only [List.set_cons_succ]
    exact ((List.Perm.swap y b _).trans (ih.cons y)).trans (List.Perm.swap x y _)

theorem set_set_perm_lt {α : Type} (a b : α) :
    ∀ (l : List α) (i j : Nat), i < j → l[i]? = some a → l[j]? = some b →
      ((l.set i b).set j a).Perm l
  | [], i, j, _, h, _ => by simp at h
  | x :: t, 0, 0, hij, _, _ => by omega
  | x :: t, 0, j + 1, _, hi, hj => by
    simp only [List.getElem?_cons_zero, Option.some.injEq] at hi
    subst hi
    simp only [List.getElem?_cons_succ] at hj
    simpa using cons_set_perm x b t j hj
  | x :: t, i + 1, 0, hij, _, _ => by omega
  | x :: t, i + 1, j + 1, hij, hi, hj => by
    simp only [List.getElem?_cons_succ] at hi hj
    simpa using (set_set_perm_lt a b t i j (by omega) hi hj).cons x

theorem exchangeStep_perm (i j : Nat) (hij : i < j) (l : List CorrelationResult) :
    (exchangeStep i l j).Perm l := by
  unfold exchangeStep
  split
  · rename_i ri rj hi hj
    split
    · exact set_set_perm_lt ri rj l i j hij hi hj
    · exact List.Perm.refl _
  · exact List.Perm.refl _

theorem foldl_exchangeStep_perm (i : Nat) :
    ∀ (js : List Nat) (l : List CorrelationResult), (∀ j ∈ js, i < j) →
      (js.foldl (exchangeStep i) l).Perm l
  | [], l, _ => List.Perm.refl _
  | j :: js, l, h => by
    simp only [List.foldl_cons]
    exact (foldl_exchangeStep_perm i js _ (fun k hk => h k (List.mem_cons_of_mem _ hk))).trans
      (exchangeStep_perm i j (h j (List.mem_cons_self _ _)) l)

theorem exchangePass_perm (l : List CorrelationResult) (i : Nat) : (exchangePass l i).Perm l := by
  unfold exchangePass
  apply foldl_exchangeStep_perm
  intro j hj
  simp only [List.mem_range'_1] at hj
  omega

theorem foldl_exchangePass_perm :
    ∀ (is : List Nat) (l : List CorrelationResult), (is.foldl exchangePass l).Perm l
  | [], l => List.Perm.refl _
  | i :: is, l => by
    simp only [List.foldl_cons]
    exact (foldl_exchangePass_perm is _).trans (exchangePass_perm l i)

theorem sortAndFilterResults_perm (e : CorrelationEngine) (l : List CorrelationResult) :
    (sortAndFilterResults e l).Perm l :=
  foldl_exchangePass_perm _ l


theorem exchangeStep_inv (i m : Nat) (l0 l : List CorrelationResult) (him : i < m)
    (hm : m < l.length) (h : PassInv i l0 l m) : PassInv i l0 (exchangeStep i l m) (m + 1) := by
  obtain ⟨hlen, hpre, hmax, hsuf⟩ := h
  have hi : i < l.length := by omega
  have hgi : l[i]? = some l[i] := List.getElem?_eq_getElem hi
  have hgm : l[m]? = some l[m] := List.getElem?_eq_getElem hm
  unfold exchangeStep
  rw [hgi, hgm]
  simp only
  split
  · rename_i hgt
    have hne : i ≠ m := by omega
    have hget : ∀ k, ((l.set i l[m]).set m l[i])[k]? =
        if k = m then some l[i] else if k = i then some l[m] else l[k]? := by
      intro k
      rw [List.getElem?_set, List.getElem?_set]
      by_cases hkm : m = k
      · subst hkm; simp [hm]
      · by_cases hki : i = k
        · subst hki; simp [hi, hkm, Ne.symm hkm]
        · simp [hkm, hki, Ne.symm hkm, Ne.symm hki]
    refine ⟨by simp [hlen], ?_, ?_, ?_⟩
    · intro k hk
      rw [hget, if_neg (by omega), if_neg (by omega)]
      exact hpre k hk
    · intro k hik hkm x y hx hy
      rw [hget, if_neg (by omega), if_pos rfl] at hx
      cases hx
      rw [hget] at hy
      by_cases hk : k = m
      · rw [if_pos hk] at hy
        cases hy
        exact le_of_lt hgt
      · rw [if_neg hk, if_neg (by omega)] at hy
        exact le_trans (hmax k hik (by omega) _ _ hgi hy) (le_of_lt hgt)
    · intro k hik hkl
      simp only [List.length_set] at hkl
      rw [hget]
      by_cases hk : k = m
      · rw [if_pos hk, ← hgi]
        exact hsuf i (le_refl _) hi
      · rw [if_neg hk]
        by_cases hk2 : k = i
        · rw [if_pos hk2, ← hgm]
          exact hsuf m (by omega) hm
        · rw [if_neg hk2]
          exact hsuf k hik hkl
  · rename_i hgt
    refine ⟨hlen, hpre, ?_, hsuf⟩
    intro k hik hkm x y hx hy
    by_cases hk : k = m
    · subst hk
      rw [hgi] at hx
      rw [hgm] at hy
      cases hx
      cases hy
      exact not_lt.mp hgt
    · exact hmax k hik (by omega) x y hx hy

theorem foldl_exchangeStep_inv (i : Nat) (l0 : List CorrelationResult) :
    ∀ n, i + 1 + n ≤ l0.length →
      PassInv i l0 ((List.range' (i + 1) n).foldl (exchangeStep i) l0) (i + 1 + n)
  | 0, _ => by
    refine ⟨rfl, fun _ _ => rfl, ?_, ?_⟩
    · intro k h1 h2
      omega
    · intro k h1 h2
      exact ⟨k, h1, h2, rfl⟩
  | n + 1, h => by
    rw [List.range'_concat, List.foldl_append]
    simp only [Nat.one_mul, List.foldl_cons, List.foldl_nil]
    have ih := foldl_exchangeStep_inv i l0 n (by omega)
    have := exchangeStep_inv i (i + 1 + n) l0 _ (by omega) (by rw [ih.1]; omega) ih
    simpa [Nat.add_assoc] using this

theorem exchangePass_inv (l : List CorrelationResult) (n : Nat) (hn : n < l.length)
    (h : SortedUpTo l n) :
    (exchangePass l n).length = l.length ∧ SortedUpTo (exchangePass l n) (n + 1) := by
  have hp := foldl_exchangeStep_inv n l (l.length - (n + 1)) (by omega)
  have hidx : n + 1 + (l.length - (n + 1)) = l.length := by omega
  rw [hidx] at hp
  obtain ⟨hlen, hpre, hmax, hsuf⟩ := hp
  refine ⟨hlen, ?_⟩
  intro a b ha hab x y hx hy
  have hb : b < (exchangePass l n).length := by
    by_contra hcon
    rw [List.getElem?_eq_none (by omega)] at hy
    cases hy
  by_cases han : a < n
  · have hx' : l[a]? = some x := by rw [← hpre a han]; exact hx
    by_cases hbn : b < n
    · have hy' : l[b]? = some y := by rw [← hpre b hbn]; exact hy
      exact h a b han hab x y hx' hy'
    · obtain ⟨k', hk1, _, hk3⟩ := hsuf b (by omega) hb
      have hy' : l[k']? = some y := by rw [← hk3]; exact hy
      exact h a k' han (by omega) x y hx' hy'
  · have : a = n := by omega
    subst this
    exact hmax b hab (by unfold exchangePass at hb; omega) x y hx hy

theorem foldl_exchangePass_inv (l0 : List CorrelationResult) :
    ∀ n, n ≤ l0.length →
      ((List.range n).foldl exchangePass l0).length = l0.length ∧
        SortedUpTo ((List.range n).foldl exchangePass l0) n
  | 0, _ => by
    refine ⟨rfl, ?_⟩
    intro a b ha
    omega
  | n + 1, h => by
    rw [List.range_succ, List.foldl_append]
    simp only [List.foldl_cons, List.foldl_nil]
    obtain ⟨ihl, ihs⟩ := foldl_exchangePass_inv l0 n (by omega)
    obtain ⟨h1, h2⟩ := exchangePass_inv _ n (by rw [ihl]; omega) ihs
    exact ⟨by rw [h1, ihl], h2⟩

theorem sortAndFilterResults_sorted (e : CorrelationEngine) (l : List CorrelationResult) :
    (sortAndFilterResults e l).Pairwise (fun r s => r.Score ≥ s.Score) := by
  obtain ⟨_, hs⟩ := foldl_exchangePass_inv l l.length (le_refl _)
  rw [List.pairwise_iff_getElem]
  intro i j hi hj hij
  exact hs i j (by unfold sortAndFilterResults at hi; omega) hij _ _
    (List.getElem?_eq_getElem hi) (List.getElem?_eq_getElem hj)

/-! ## The pair loop of `SnapToCommits` -/

theorem snapPair_append (lib : Stdlib) (e : CorrelationEngine) (event : SnapEvent)
    (results : List CorrelationResult) (commit : EnrichedCommit) :
    snapPair lib e event results commit = results ++ snapPair lib e event [] commit := by
  unfold snapPair
  split
  · simp
  · split
    · split <;> simp
    · simp

theorem foldl_snapPair (lib : Stdlib) (e : CorrelationEngine) (event : SnapEvent) :
    ∀ (commits : List EnrichedCommit) (results : List CorrelationResult),
      commits.foldl (snapPair lib e event) results =
        results ++ commits.flatMap (fun c => snapPair lib e event [] c)
  | [], results => by simp
  | c :: cs, results => by
    rw [List.foldl_cons, foldl_snapPair lib e event cs, snapPair_append]
    simp [List.flatMap_cons, List.append_assoc]

theorem foldl_events (lib : Stdlib) (e : CorrelationEngine) (commits : List EnrichedCommit) :
    ∀ (events : List SnapEvent) (results : List CorrelationResult),
      events.foldl (fun results event => commits.foldl (snapPair lib e event) results) results =
        results ++ events.flatMap (fun ev => commits.flatMap (fun c => snapPair lib e ev [] c))
  | [], results => by simp
  | ev :: evs, results => by
    rw [List.foldl_cons, foldl_events lib e commits evs, foldl_snapPair]
    simp [List.flatMap_cons, List.append_assoc]

theorem mem_snapPair (lib : Stdlib) (e : CorrelationEngine) (event : SnapEvent)
    (commit : EnrichedCommit) (r : CorrelationResult) :
    r ∈ snapPair lib e event [] commit ↔
      isWithinTimeWindow e event commit = true ∧
        ∃ s, (calculateCorrelation lib e event commit).2 = some s ∧ 0 < s ∧
          r = { Event := event, Commit := commit, Score := s,
                Matches := (calculateCorrelation lib e event commit).1,
                TimeDelta := calculateTimeDelta e event commit } := by
  unfold snapPair
  cases hw : isWithinTimeWindow e event commit
  · simp
  · rcases hc : calculateCorrelation lib e event commit with ⟨m, _ | s⟩
    · simp
    · by_cases hs : 0 < s
      · simp [hs]
      · simp [hs]

theorem mem_SnapToCommits (lib : Stdlib) (e : CorrelationEngine) (events : List SnapEvent)
    (commits : List EnrichedCommit) (r : CorrelationResult) :
    r ∈ SnapToCommits lib e events commits ↔
      ∃ ev ∈ events, ∃ c ∈ commits, r ∈ snapPair lib e ev [] c := by
  unfold SnapToCommits
  rw [(sortAndFilterResults_perm e _).mem_iff, foldl_events]
  simp [List.mem_flatMap]

/-! ## Time deltas -/

theorem calculateTimeDelta_eq_abs (e : CorrelationEngine) (event : SnapEvent)
    (commit : EnrichedCommit) :
    calculateTimeDelta e event commit =
      Duration.Abs (Time.Sub event.Timestamp commit.Timestamp) := by
  unfold calculateTimeDelta Time.After Time.Sub Duration.Abs maxDuration minDuration
  simp only [decide_eq_true_eq]
  split_ifs <;> omega

theorem calculateTimeDelta_eq_min (e : CorrelationEngine) (event : SnapEvent)
    (commit : EnrichedCommit) :
    calculateTimeDelta e event commit =
      Min.min |event.Timestamp - commit.Timestamp| maxDuration := by
  unfold calculateTimeDelta Time.After Time.Sub maxDuration minDuration
  simp only [decide_eq_true_eq]
  rcases abs_cases (event.Timestamp - commit.Timestamp) with ⟨h1, h2⟩ | ⟨h1, h2⟩ <;>
    rw [h1] <;> split_ifs <;> omega

theorem calculateTimeDelta_nonneg (e : CorrelationEngine) (event : SnapEvent)
    (commit : EnrichedCommit) : 0 ≤ calculateTimeDelta e event commit := by
  rw [calculateTimeDelta_eq_min]
  exact le_min (abs_nonneg _) (by unfold maxDuration; norm_num)

/-! ## Closed runs of the engine -/

theorem testScore :
    (calculateCorrelation plainLib ⟨testConfig⟩ (testEvent 0) (testCommitA 0)).2 =
      some (5 / 6) := by
  simp [calculateCorrelation, runRules, testConfig, ruleStep, ruleMatches,
    calculateTemporalScore, calculateTimeDelta, Time.After, Time.Sub, testEvent, testCommitA,
    minute, maxDuration, minDuration, mapSet, getEventValue, getCommitValue, matchValues,
    sprintfV, EXACT]
  norm_num

theorem testResult_mem :
    testResult ∈
      SnapToCommits plainLib ⟨testConfig⟩ [testEvent 0] [testCommitA 0, testCommitB 0] := by
  rw [mem_SnapToCommits]
  refine ⟨testEvent 0, List.mem_singleton.mpr rfl, testCommitA 0, List.mem_cons_self _ _, ?_⟩
  rw [mem_snapPair]
  refine ⟨by decide, 5 / 6, testScore, by norm_num, ?_⟩
  unfold testResult
  congr 1

theorem maxWindow_mem :
    ({ Event := eventAt 0, Commit := commitAt year2024, Score := 1 / 2,
       Matches := fun _ => none, TimeDelta := maxDuration } : CorrelationResult) ∈
      SnapToCommits plainLib ⟨maxWindowConfig⟩ [eventAt 0] [commitAt year2024] := by
  rw [mem_SnapToCommits]
  refine ⟨eventAt 0, List.mem_singleton.mpr rfl, commitAt year2024,
    List.mem_singleton.mpr rfl, ?_⟩
  rw [mem_snapPair]
  refine ⟨by decide, 1 / 2, ?_, by norm_num, ?_⟩
  · simp [calculateCorrelation, runRules, maxWindowConfig, calculateTemporalScore,
      calculateTimeDelta, Time.After, Time.Sub, eventAt, commitAt, year2024, maxDuration,
      minDuration]
  · have h1 : (calculateCorrelation plainLib ⟨maxWindowConfig⟩ (eventAt 0)
        (commitAt year2024)).1 = fun _ => none := by
      simp [calculateCorrelation, runRules, maxWindowConfig]
    have h2 : calculateTimeDelta ⟨maxWindowConfig⟩ (eventAt 0) (commitAt year2024) =
        maxDuration := by decide
    rw [h1, h2]

/-! ## Claims -/

/-- C8, as stated, fails: for the zero `time.Time` and an instant in 2024 the delta is the
maximal duration, which is less than the absolute difference of the two timestamps. -/
theorem calculateTimeDelta_saturates :
    calculateTimeDelta ⟨testConfig⟩ (eventAt 0) (commitAt year2024) = maxDuration ∧
      calculateTimeDelta ⟨testConfig⟩ (eventAt 0) (commitAt year2024) ≠
        |(eventAt 0).Timestamp - (commitAt year2024).Timestamp| := by
  constructor
  · decide
  · rw [calculateTimeDelta_eq_min]
    simp [eventAt, commitAt, year2024, maxDuration]

/-- C8, amended: `calculateTimeDelta` returns the absolute value of the difference of the
two timestamps capped at the maximal duration, hence the absolute difference itself
whenever that fits a duration; it is non-negative, unchanged when the two timestamps are
swapped, every result of `SnapToCommits` carries it as `TimeDelta`, and a commit 10 minutes
after (5 minutes before) the event gives 10 (5) minutes. -/
theorem calculateTimeDelta_abs_capped (lib : Stdlib) (e : CorrelationEngine)
    (events : List SnapEvent) (commits : List EnrichedCommit) (event : SnapEvent)
    (commit : EnrichedCommit) :
    calculateTimeDelta e event commit =
        Min.min |event.Timestamp - commit.Timestamp| maxDuration ∧
      (|event.Timestamp - commit.Timestamp| ≤ maxDuration →
        calculateTimeDelta e event commit = |event.Timestamp - commit.Timestamp|) ∧
      0 ≤ calculateTimeDelta e event commit ∧
      calculateTimeDelta e { event with Timestamp := commit.Timestamp }
          { commit with Timestamp := event.Timestamp } = calculateTimeDelta e event commit ∧
      (∀ r ∈ SnapToCommits lib e events commits,
        r.TimeDelta = calculateTimeDelta e r.Event r.Commit) ∧
      (∀ baseTime : Int,
        calculateTimeDelta e (eventAt baseTime) (commitAt (baseTime + 10 * minute)) =
            10 * minute ∧
          calculateTimeDelta e (eventAt baseTime) (commitAt (baseTime - 5 * minute)) =
            5 * minute) := by
  refine ⟨calculateTimeDelta_eq_min e event commit, ?_, calculateTimeDelta_nonneg e event commit,
    ?_, ?_, ?_⟩
  · intro h
    rw [calculateTimeDelta_eq_min, min_eq_left h]
  · rw [calculateTimeDelta_eq_min, calculateTimeDelta_eq_min, abs_sub_comm]
  · intro r hr
    rw [mem_SnapToCommits] at hr
    obtain ⟨ev, _, c, _, hmem⟩ := hr
    rw [mem_snapPair] at hmem
    obtain ⟨_, s, _, _, rfl⟩ := hmem
    rfl
  · intro baseTime
    unfold calculateTimeDelta Time.After Time.Sub eventAt commitAt minute maxDuration
      minDuration
    simp only [decide_eq_true_eq]
    constructor <;> split_ifs <;> omega

/-- C8, amended, at the data of the engine test: the delta of the test event and its first
commit is their absolute difference, and the test result carries it. -/
theorem calculateTimeDelta_abs_capped_witness :
    calculateTimeDelta ⟨testConfig⟩ (testEvent 0) (testCommitA 0) =
        |(testEvent 0).Timestamp - (testCommitA 0).Timestamp| ∧
      testResult.TimeDelta = calculateTimeDelta ⟨testConfig⟩ testResult.Event testResult.Commit :=
  ⟨(calculateTimeDelta_abs_capped plainLib ⟨testConfig⟩ [testEvent 0]
      [testCommitA 0, testCommitB 0] (testEvent 0) (testCommitA 0)).2.1 (by decide),
   (calculateTimeDelta_abs_capped plainLib ⟨testConfig⟩ [testEvent 0]
      [testCommitA 0, testCommitB 0] (testEvent 0) (testCommitA 0)).2.2.2.2.1 testResult
      testResult_mem⟩

/-- C1, as stated, fails when the window is the maximal duration: the zero `time.Time` and
an instant in 2024 are further apart than the window, their delta saturates at the window,
and `SnapToCommits` returns a result for the pair. -/
theorem SnapToCommits_window_saturated :
    maxWindowConfig.TimeWindow < |(eventAt 0).Timestamp - (commitAt year2024).Timestamp| ∧
      ∃ r ∈ SnapToCommits plainLib ⟨maxWindowConfig⟩ [eventAt 0] [commitAt year2024],
        r.Event.Timestamp = (eventAt 0).Timestamp ∧
          r.Commit.Timestamp = (commitAt year2024).Timestamp :=
  ⟨by decide, _, maxWindow_mem, rfl, rfl⟩

/-- C1, amended: `SnapToCommits` returns no result for a pair whose delta, the absolute
timestamp difference capped at the maximal duration, is greater than the window, whatever
the rules, attributes and weights; for a window below the maximal duration this is every
pair whose absolute timestamp difference is greater than the window; and when the delta of
every pair exceeds the window the result list is empty. -/
theorem SnapToCommits_within_window (lib : Stdlib) (e : CorrelationEngine)
    (events : List SnapEvent) (commits : List EnrichedCommit) :
    (∀ r ∈ SnapToCommits lib e events commits,
        calculateTimeDelta e r.Event r.Commit ≤ e.config.TimeWindow) ∧
      (e.config.TimeWindow < maxDuration →
        ∀ r ∈ SnapToCommits lib e events commits,
          |r.Event.Timestamp - r.Commit.Timestamp| ≤ e.config.TimeWindow) ∧
      ((∀ ev ∈ events, ∀ c ∈ commits, e.config.TimeWindow < calculateTimeDelta e ev c) →
        SnapToCommits lib e events commits = []) := by
  have key : ∀ r ∈ SnapToCommits lib e events commits,
      (∃ ev ∈ events, ∃ c ∈ commits, r.Event = ev ∧ r.Commit = c) ∧
        calculateTimeDelta e r.Event r.Commit ≤ e.config.TimeWindow := by
    intro r hr
    rw [mem_SnapToCommits] at hr
    obtain ⟨ev, hev, c, hc, hmem⟩ := hr
    rw [mem_snapPair] at hmem
    obtain ⟨hw, s, _, _, rfl⟩ := hmem
    refine ⟨⟨ev, hev, c, hc, rfl, rfl⟩, ?_⟩
    simpa [isWithinTimeWindow] using hw
  refine ⟨fun r hr => (key r hr).2, ?_, ?_⟩
  · intro hmax r hr
    have h := (key r hr).2
    rw [calculateTimeDelta_eq_min] at h
    rcases min_le_iff.mp h with h | h
    · exact h
    · omega
  · intro hall
    apply List.eq_nil_iff_forall_not_mem.mpr
    intro r hr
    obtain ⟨⟨ev, hev, c, hc, h1, h2⟩, hle⟩ := key r hr
    have := hall ev hev c hc
    rw [← h1, ← h2] at this
    omega

/-- C1, amended, at the data of the engine test (window 30 minutes): the test result lies
within the window, and two commits 40 and 50 minutes after the event give no result. -/
theorem SnapToCommits_within_window_witness :
    calculateTimeDelta ⟨testConfig⟩ testResult.Event testResult.Commit ≤ 30 * minute ∧
      |testResult.Event.Timestamp - testResult.Commit.Timestamp| ≤ 30 * minute ∧
      SnapToCommits plainLib ⟨testConfig⟩ [testEvent 0]
        [commitAt (40 * minute), commitAt (50 * minute)] = [] :=
  ⟨(SnapToCommits_within_window plainLib ⟨testConfig⟩ [testEvent 0]
      [testCommitA 0, testCommitB 0]).1 testResult testResult_mem,
   (SnapToCommits_within_window plainLib ⟨testConfig⟩ [testEvent 0]
      [testCommitA 0, testCommitB 0]).2.1 (by decide) testResult testResult_mem,
   (SnapToCommits_within_window plainLib ⟨testConfig⟩ [testEvent 0]
      [commitAt (40 * minute), commitAt (50 * minute)]).2.2 (by decide)⟩

/-- C9: for a positive window `calculateTemporalScore` is `max(0, 1 - delta/window)`; it is
`1` for delta `0`, it is `0` for every delta at least the window, and a pair with a larger
delta never has a larger score. -/
theorem calculateTemporalScore_formula (e : CorrelationEngine) (hw : 0 < e.config.TimeWindow)
    (event event' : SnapEvent) (commit commit' : EnrichedCommit) :
    calculateTemporalScore e event commit =
        some (Max.max 0
          (1 - (calculateTimeDelta e event commit : ℚ) / (e.config.TimeWindow : ℚ))) ∧
      (calculateTimeDelta e event commit = 0 → calculateTemporalScore e event commit = some 1) ∧
      (e.config.TimeWindow ≤ calculateTimeDelta e event commit →
        calculateTemporalScore e event commit = some 0) ∧
      (calculateTimeDelta e event commit ≤ calculateTimeDelta e event' commit' →
        ∃ s s', calculateTemporalScore e event commit = some s ∧
          calculateTemporalScore e event' commit' = some s' ∧ s' ≤ s) := by
  have hne : e.config.TimeWindow ≠ 0 := by omega
  have hq : (0 : ℚ) < (e.config.TimeWindow : ℚ) := by exact_mod_cast hw
  have hform : ∀ (ev : SnapEvent) (c : EnrichedCommit), calculateTemporalScore e ev c =
      some (Max.max 0 (1 - (calculateTimeDelta e ev c : ℚ) / (e.config.TimeWindow : ℚ))) := by
    intro ev c
    simp [calculateTemporalScore, hne]
  refine ⟨hform event commit, ?_, ?_, ?_⟩
  · intro h0
    rw [hform, h0]
    simp
  · intro hle
    rw [hform]
    have h1 : (1 : ℚ) ≤ (calculateTimeDelta e event commit : ℚ) / (e.config.TimeWindow : ℚ) := by
      rw [le_div_iff₀ hq, one_mul]
      exact_mod_cast hle
    rw [max_eq_left (by linarith)]
  · intro hle
    refine ⟨_, _, hform event commit, hform event' commit', ?_⟩
    have h1 : (calculateTimeDelta e event commit : ℚ) / (e.config.TimeWindow : ℚ) ≤
        (calculateTimeDelta e event' commit' : ℚ) / (e.config.TimeWindow : ℚ) := by
      apply div_le_div_of_nonneg_right _ (le_of_lt hq)
      exact_mod_cast hle
    exact max_le_max (le_refl _) (by linarith)

/-- C9 at the window of the engine test (30 minutes): a commit at the instant of the event
scores `1`, one 30 minutes later scores `0`, and the score at 10 minutes is at least the
score at 20 minutes. -/
theorem calculateTemporalScore_formula_witness :
    calculateTemporalScore ⟨testConfig⟩ (eventAt 0) (commitAt 0) = some 1 ∧
      calculateTemporalScore ⟨testConfig⟩ (eventAt 0) (commitAt (30 * minute)) = some 0 ∧
      ∃ s s', calculateTemporalScore ⟨testConfig⟩ (eventAt 0) (commitAt (10 * minute)) = some s ∧
        calculateTemporalScore ⟨testConfig⟩ (eventAt 0) (commitAt (20 * minute)) = some s' ∧
          s' ≤ s :=
  ⟨(calculateTemporalScore_formula ⟨testConfig⟩ (by decide) (eventAt 0) (eventAt 0)
      (commitAt 0) (commitAt 0)).2.1 (by decide),
   (calculateTemporalScore_formula ⟨testConfig⟩ (by decide) (eventAt 0) (eventAt 0)
      (commitAt (30 * minute)) (commitAt 0)).2.2.1 (by decide),
   (calculateTemporalScore_formula ⟨testConfig⟩ (by decide) (eventAt 0) (eventAt 0)
      (commitAt (10 * minute)) (commitAt (20 * minute))).2.2.2 (by decide)⟩

theorem getCommitValue_unknown (e : CorrelationEngine) (commit : EnrichedCommit) (key : String)
    (h : key ∉ commitKeys) : getCommitValue e commit key = "" := by
  simp only [commitKeys, List.mem_cons, List.mem_singleton, List.not_mem_nil, or_false,
    not_or] at h
  obtain ⟨h1, h2, h3, h4, h5, h6, h7, h8, h9, h10, h11⟩ := h
  simp [getCommitValue, h1, h2, h3, h4, h5, h6, h7, h8, h9, h10, h11]

theorem matchValues_empty (lib : Stdlib) (e : CorrelationEngine) (eventValue commitValue : String)
    (matchType : MatchType) (h : eventValue = "" ∨ commitValue = "") :
    matchValues lib e eventValue commitValue matchType = false := by
  unfold matchValues
  rw [if_pos h]

/-- C10: whatever the strategy, `matchValues` is false when the event value or the commit
value is empty; `matchValues("", "", FUZZY)` is false although `fuzzyMatch("", "")` is true;
and a rule whose event attribute is missing or whose commit key is unknown does not match. -/
theorem matchValues_empty_false (lib : Stdlib) (e : CorrelationEngine) :
    (∀ (matchType : MatchType) (eventValue commitValue : String),
        eventValue = "" ∨ commitValue = "" →
          matchValues lib e eventValue commitValue matchType = false) ∧
      matchValues lib e "" "" FUZZY = false ∧
      fuzzyMatch lib e "" "" = true ∧
      (∀ (event : SnapEvent) (commit : EnrichedCommit) (rule : AttributeRule),
        event.Attributes rule.EventKey = none ∨ rule.CommitKey ∉ commitKeys →
          ruleMatches lib e event commit rule = false) := by
  refine ⟨fun mt ev cv h => matchValues_empty lib e ev cv mt h,
    matchValues_empty lib e "" "" FUZZY (Or.inl rfl), ?_, ?_⟩
  · simp [fuzzyMatch, stringsToLower, levenshteinDistance, goBytes, GitSnap.max]
  · intro event commit rule h
    unfold ruleMatches
    apply matchValues_empty
    rcases h with h | h
    · left
      simp [getEventValue, h]
    · right
      exact getCommitValue_unknown e commit _ h

/-- C10 at closed inputs: an EXACT comparison with an empty commit value fails, and the
rule of the engine test does not match an event without attributes, nor does a rule on the
unknown commit key `email` match the test event. -/
theorem matchValues_empty_false_witness :
    matchValues plainLib ⟨testConfig⟩ "john" "" EXACT = false ∧
      ruleMatches plainLib ⟨testConfig⟩ (eventAt 0) (testCommitA 0)
        ⟨"user_id", "author_email", EXACT, true⟩ = false ∧
      ruleMatches plainLib ⟨testConfig⟩ (testEvent 0) (testCommitA 0)
        ⟨"user_id", "email", EXACT, true⟩ = false :=
  ⟨(matchValues_empty_false plainLib ⟨testConfig⟩).1 EXACT "john" "" (Or.inr rfl),
   (matchValues_empty_false plainLib ⟨testConfig⟩).2.2.2 (eventAt 0) (testCommitA 0)
      ⟨"user_id", "author_email", EXACT, true⟩ (Or.inl rfl),
   (matchValues_empty_false plainLib ⟨testConfig⟩).2.2.2 (testEvent 0) (testCommitA 0)
      ⟨"user_id", "email", EXACT, true⟩ (Or.inr (by decide))⟩

/-! ## The rule loop of `calculateCorrelation` -/

theorem foldl_ruleStep_counts (lib : Stdlib) (e : CorrelationEngine) (event : SnapEvent)
    (commit : EnrichedCommit) :
    ∀ (rules : List AttributeRule) (st : RuleTally),
      (rules.foldl (ruleStep lib e event commit) st).totalRequired =
          st.totalRequired + rules.countP (fun r => r.Required) ∧
        (rules.foldl (ruleStep lib e event commit) st).requiredMatches =
          st.requiredMatches +
            rules.countP (fun r => r.Required && ruleMatches lib e event commit r) ∧
        (rules.foldl (ruleStep lib e event commit) st).totalOptional =
          st.totalOptional + rules.countP (fun r => !r.Required) ∧
        (rules.foldl (ruleStep lib e event commit) st).optionalMatches =
          st.optionalMatches +
            rules.countP (fun r => !r.Required && ruleMatches lib e event commit r)
  | [], st => by simp
  | rule :: rules, st => by
    obtain ⟨h1, h2, h3, h4⟩ :=
      foldl_ruleStep_counts lib e event commit rules (ruleStep lib e event commit st rule)
    rw [List.foldl_cons, h1, h2, h3, h4]
    simp only [List.countP_cons]
    unfold ruleStep
    cases hr : rule.Required <;> cases hm : ruleMatches lib e event commit rule <;>
      simp <;> omega

theorem runRules_counts (lib : Stdlib) (e : CorrelationEngine) (event : SnapEvent)
    (commit : EnrichedCommit) :
    (runRules lib e event commit).totalRequired =
        e.config.AttributeRules.countP (fun r => r.Required) ∧
      (runRules lib e event commit).requiredMatches =
        e.config.AttributeRules.countP
          (fun r => r.Required && ruleMatches lib e event commit r) ∧
      (runRules lib e event commit).totalOptional =
        e.config.AttributeRules.countP (fun r => !r.Required) ∧
      (runRules lib e event commit).optionalMatches =
        e.config.AttributeRules.countP
          (fun r => !r.Required && ruleMatches lib e event commit r) := by
  have := foldl_ruleStep_counts lib e event commit e.config.AttributeRules
    { matchesMap := fun _ => none, requiredMatches := 0, totalRequired := 0,
      optionalMatches := 0, totalOptional := 0 }
  simpa [runRules] using this

theorem countP_and_le {α : Type} (p q : α → Bool) (l : List α) :
    l.countP (fun x => p x && q x) ≤ l.countP p := by
  apply List.countP_mono_left
  intro x _ h
  simp only [Bool.and_eq_true] at h
  exact h.1

theorem countP_and_lt {α : Type} (p q : α → Bool) :
    ∀ (l : List α), (∃ x ∈ l, p x = true ∧ q x = false) →
      l.countP (fun x => p x && q x) < l.countP p
  | [], h => by simp at h
  | y :: l, h => by
    simp only [List.countP_cons]
    by_cases hy : p y = true ∧ q y = false
    · have := countP_and_le p q l
      simp [hy.1, hy.2]
      omega
    · have hl : ∃ x ∈ l, p x = true ∧ q x = false := by
        obtain ⟨x, hx, hpx⟩ := h
        rcases List.mem_cons.mp hx with rfl | hx
        · exact absurd hpx hy
        · exact ⟨x, hx, hpx⟩
      have := countP_and_lt p q l hl
      cases hp : p y <;> cases hq : q y <;> simp_all

theorem countP_and_eq {α : Type} (p q : α → Bool) (l : List α)
    (h : ∀ x ∈ l, p x = true → q x = true) :
    l.countP (fun x => p x && q x) = l.countP p := by
  apply List.countP_congr
  intro x hx
  constructor
  · intro hpq
    simp only [Bool.and_eq_true] at hpq
    exact hpq.1
  · intro hp
    simp [hp, h x hx hp]

/-- The required-rule gate of `calculateCorrelation` fails exactly when some required rule
does not match. -/
theorem gate_fails_iff (lib : Stdlib) (e : CorrelationEngine) (event : SnapEvent)
    (commit : EnrichedCommit) :
    ((runRules lib e event commit).totalRequired > 0 ∧
        (runRules lib e event commit).requiredMatches <
          (runRules lib e event commit).totalRequired) ↔
      ∃ rule ∈ e.config.AttributeRules,
        rule.Required = true ∧ ruleMatches lib e event commit rule = false := by
  obtain ⟨h1, h2, _, _⟩ := runRules_counts lib e event commit
  rw [h1, h2]
  constructor
  · rintro ⟨_, hlt⟩
    by_contra hcon
    have : ∀ x ∈ e.config.AttributeRules, x.Required = true →
        ruleMatches lib e event commit x = true := by
      intro x hx hxr
      by_contra hm
      exact hcon ⟨x, hx, hxr, by simpa using hm⟩
    have heq : e.config.AttributeRules.countP
        (fun r => r.Required && ruleMatches lib e event commit r) =
        e.config.AttributeRules.countP (fun r => r.Required) :=
      countP_and_eq (fun r : AttributeRule => r.Required)
        (fun r => ruleMatches lib e event commit r) _ this
    omega
  · intro h
    have hlt : e.config.AttributeRules.countP
        (fun r => r.Required && ruleMatches lib e event commit r) <
        e.config.AttributeRules.countP (fun r => r.Required) :=
      countP_and_lt (fun r : AttributeRule => r.Required)
        (fun r => ruleMatches lib e event commit r) e.config.AttributeRules h
    exact ⟨by omega, hlt⟩

/-- C2: when some required rule does not match a pair, `calculateCorrelation` gives the
pair score `0` and `SnapToCommits` returns no result for it, whatever the timestamps, the
other rules and the weights. -/
theorem required_rule_gate (lib : Stdlib) (e : CorrelationEngine) (event : SnapEvent)
    (commit : EnrichedCommit)
    (h : ∃ rule ∈ e.config.AttributeRules,
      rule.Required = true ∧ ruleMatches lib e event commit rule = false) :
    (calculateCorrelation lib e event commit).2 = some 0 ∧
      ∀ (events : List SnapEvent) (commits : List EnrichedCommit),
        ∀ r ∈ SnapToCommits lib e events commits, ¬ (r.Event = event ∧ r.Commit = commit) := by
  have hscore : (calculateCorrelation lib e event commit).2 = some 0 := by
    unfold calculateCorrelation
    simp only
    rw [if_pos ((gate_fails_iff lib e event commit).mpr h)]
  refine ⟨hscore, ?_⟩
  intro events commits r hr hpair
  rw [mem_SnapToCommits] at hr
  obtain ⟨ev, _, c, _, hmem⟩ := hr
  rw [mem_snapPair] at hmem
  obtain ⟨_, s, hs, hpos, rfl⟩ := hmem
  obtain ⟨h1, h2⟩ := hpair
  simp only at h1 h2
  subst h1 h2
  rw [hscore] at hs
  cases hs
  exact lt_irrefl _ hpos

/-- C2 at the data of the engine test: the second commit has another author email, so its
score is `0` and no result for it is returned. -/
theorem required_rule_gate_witness :
    (calculateCorrelation plainLib ⟨testConfig⟩ (testEvent 0) (testCommitB 0)).2 = some 0 ∧
      ∀ r ∈ SnapToCommits plainLib ⟨testConfig⟩ [testEvent 0] [testCommitA 0, testCommitB 0],
        ¬ (r.Event = testEvent 0 ∧ r.Commit = testCommitB 0) :=
  ⟨(required_rule_gate plainLib ⟨testConfig⟩ (testEvent 0) (testCommitB 0)
      ⟨⟨"user_id", "author_email", EXACT, true⟩, by simp [testConfig], rfl, by decide⟩).1,
   (required_rule_gate plainLib ⟨testConfig⟩ (testEvent 0) (testCommitB 0)
      ⟨⟨"user_id", "author_email", EXACT, true⟩, by simp [testConfig], rfl, by decide⟩).2
      [testEvent 0] [testCommitA 0, testCommitB 0]⟩

theorem resolved_weight (weights : String → Option ℚ) (name : String) :
    (if (weights name).getD 0 = 0 then (1 / 2 : ℚ) else (weights name).getD 0) =
      specWeight weights name := by
  unfold specWeight
  cases weights name <;> simp

theorem score_of_gate_fail (lib : Stdlib) (e : CorrelationEngine) (event : SnapEvent)
    (commit : EnrichedCommit)
    (h : ∃ rule ∈ e.config.AttributeRules,
      rule.Required = true ∧ ruleMatches lib e event commit rule = false) :
    (calculateCorrelation lib e event commit).2 = some 0 := by
  unfold calculateCorrelation
  simp only
  rw [if_pos ((gate_fails_iff lib e event commit).mpr h)]

theorem score_of_gate_pass (lib : Stdlib) (e : CorrelationEngine) (event : SnapEvent)
    (commit : EnrichedCommit) (hw : e.config.TimeWindow ≠ 0)
    (h : ∀ rule ∈ e.config.AttributeRules,
      rule.Required = true → ruleMatches lib e event commit rule = true) :
    (calculateCorrelation lib e event commit).2 = some (specScore lib e event commit) := by
  have hgate : ¬ ((runRules lib e event commit).totalRequired > 0 ∧
      (runRules lib e event commit).requiredMatches <
        (runRules lib e event commit).totalRequired) := by
    rw [gate_fails_iff]
    rintro ⟨rule, hr, hreq, hm⟩
    rw [h rule hr hreq] at hm
    cases hm
  obtain ⟨h1, h2, h3, h4⟩ := runRules_counts lib e event commit
  unfold calculateCorrelation
  simp only
  rw [if_neg hgate, resolved_weight, resolved_weight, h1, h2, h3, h4]
  simp only [calculateTemporalScore, hw, if_false, Option.map_some', specScore,
    specTemporalScore, specAttributeScore, Nat.pos_iff_ne_zero, ne_eq, ite_not]

/-- C6: for a pair within a positive window that passes the required-rule gate, the score
of `calculateCorrelation` is `temporalScore·temporalWeight + attributeScore·attributeWeight`
with the temporal score, required fraction and attribute score of the specification. -/
theorem calculateCorrelation_score (lib : Stdlib) (e : CorrelationEngine) (event : SnapEvent)
    (commit : EnrichedCommit) (hw : 0 < e.config.TimeWindow)
    (_hin : calculateTimeDelta e event commit ≤ e.config.TimeWindow)
    (hgate : ∀ rule ∈ e.config.AttributeRules,
      rule.Required = true → ruleMatches lib e event commit rule = true) :
    (calculateCorrelation lib e event commit).2 = some (specScore lib e event commit) :=
  score_of_gate_pass lib e event commit (by omega) hgate

/-- C6 at the data of the engine test: the score of the test event and its first commit is
the score of the specification, `(1 - 10/30)·0.5 + 1·0.5`. -/
theorem calculateCorrelation_score_witness :
    (calculateCorrelation plainLib ⟨testConfig⟩ (testEvent 0) (testCommitA 0)).2 =
      some (specScore plainLib ⟨testConfig⟩ (testEvent 0) (testCommitA 0)) :=
  calculateCorrelation_score plainLib ⟨testConfig⟩ (testEvent 0) (testCommitA 0) (by decide)
    (by decide) (by decide)

/-! ## Weights -/

theorem ruleStep_engine (lib : Stdlib) (e e' : CorrelationEngine) (event : SnapEvent)
    (commit : EnrichedCommit) :
    ruleStep lib e event commit = ruleStep lib e' event commit := rfl

theorem calculateCorrelation_weights (lib : Stdlib) (cfg : SnapConfig) (event : SnapEvent)
    (commit : EnrichedCommit) (w w' : String → Option ℚ)
    (ht : specWeight w "temporal" = specWeight w' "temporal")
    (ha : specWeight w "attribute" = specWeight w' "attribute") :
    calculateCorrelation lib ⟨{ cfg with ScoreWeights := w }⟩ event commit =
      calculateCorrelation lib ⟨{ cfg with ScoreWeights := w' }⟩ event commit := by
  have hrun : runRules lib ⟨{ cfg with ScoreWeights := w }⟩ event commit =
      runRules lib ⟨{ cfg with ScoreWeights := w' }⟩ event commit := by
    unfold runRules
    rw [ruleStep_engine lib _ ⟨{ cfg with ScoreWeights := w' }⟩]
  have htemp : calculateTemporalScore ⟨{ cfg with ScoreWeights := w }⟩ event commit =
      calculateTemporalScore ⟨{ cfg with ScoreWeights := w' }⟩ event commit := rfl
  unfold calculateCorrelation
  simp only
  rw [resolved_weight, resolved_weight, resolved_weight, resolved_weight, hrun, htemp, ht, ha]

/-- C7: the score of `calculateCorrelation` is the same whether the weight `temporal` is
absent, `0` or `0.5`, likewise for the weight `attribute`, and an entry of `ScoreWeights`
under any other key does not change the score. -/
theorem score_weight_defaults (lib : Stdlib) (cfg : SnapConfig) (event : SnapEvent)
    (commit : EnrichedCommit) (k : String) (v : ℚ) :
    ((calculateCorrelation lib
          ⟨{ cfg with ScoreWeights := mapDelete cfg.ScoreWeights "temporal" }⟩ event commit).2 =
        (calculateCorrelation lib
          ⟨{ cfg with ScoreWeights := mapSet cfg.ScoreWeights "temporal" 0 }⟩ event commit).2 ∧
      (calculateCorrelation lib
          ⟨{ cfg with ScoreWeights := mapSet cfg.ScoreWeights "temporal" 0 }⟩ event commit).2 =
        (calculateCorrelation lib
          ⟨{ cfg with ScoreWeights := mapSet cfg.ScoreWeights "temporal" (1 / 2) }⟩
          event commit).2) ∧
      ((calculateCorrelation lib
          ⟨{ cfg with ScoreWeights := mapDelete cfg.ScoreWeights "attribute" }⟩ event commit).2 =
        (calculateCorrelation lib
          ⟨{ cfg with ScoreWeights := mapSet cfg.ScoreWeights "attribute" 0 }⟩ event commit).2 ∧
      (calculateCorrelation lib
          ⟨{ cfg with ScoreWeights := mapSet cfg.ScoreWeights "attribute" 0 }⟩ event commit).2 =
        (calculateCorrelation lib
          ⟨{ cfg with ScoreWeights := mapSet cfg.ScoreWeights "attribute" (1 / 2) }⟩
          event commit).2) ∧
      (k ≠ "temporal" → k ≠ "attribute" →
        (calculateCorrelation lib
            ⟨{ cfg with ScoreWeights := mapSet cfg.ScoreWeights k v }⟩ event commit).2 =
          (calculateCorrelation lib ⟨cfg⟩ event commit).2 ∧
        (calculateCorrelation lib
            ⟨{ cfg with ScoreWeights := mapDelete cfg.ScoreWeights k }⟩ event commit).2 =
          (calculateCorrelation lib ⟨cfg⟩ event commit).2) := by
  refine ⟨⟨?_, ?_⟩, ⟨?_, ?_⟩, ?_⟩
  · rw [calculateCorrelation_weights] <;> simp [specWeight, mapSet, mapDelete]
  · rw [calculateCorrelation_weights] <;> simp [specWeight, mapSet, mapDelete]
  · rw [calculateCorrelation_weights] <;> simp [specWeight, mapSet, mapDelete]
  · rw [calculateCorrelation_weights] <;> simp [specWeight, mapSet, mapDelete]
  · intro hk1 hk2
    have hself : calculateCorrelation lib ⟨cfg⟩ event commit =
        calculateCorrelation lib ⟨{ cfg with ScoreWeights := cfg.ScoreWeights }⟩ event commit :=
      rfl
    rw [hself]
    constructor
    · rw [calculateCorrelation_weights] <;> simp [specWeight, mapSet, Ne.symm hk1, Ne.symm hk2]
    · rw [calculateCorrelation_weights] <;>
        simp [specWeight, mapDelete, Ne.symm hk1, Ne.symm hk2]

/-- C7 at the data of the engine test: an entry under the key `other` leaves the score of
the test pair as it is, whether it is set or removed. -/
theorem score_weight_defaults_witness :
    (calculateCorrelation plainLib
        ⟨{ testConfig with ScoreWeights := mapSet testConfig.ScoreWeights "other" 7 }⟩
        (testEvent 0) (testCommitA 0)).2 =
      (calculateCorrelation plainLib ⟨testConfig⟩ (testEvent 0) (testCommitA 0)).2 ∧
    (calculateCorrelation plainLib
        ⟨{ testConfig with ScoreWeights := mapDelete testConfig.ScoreWeights "other" }⟩
        (testEvent 0) (testCommitA 0)).2 =
      (calculateCorrelation plainLib ⟨testConfig⟩ (testEvent 0) (testCommitA 0)).2 :=
  (score_weight_defaults plainLib testConfig (testEvent 0) (testCommitA 0) "other" 7).2.2
    (by decide) (by decide)

/-! ## Bounds on the score -/

theorem specTemporalScore_bounds (delta window : Int) (hd : 0 ≤ delta) (hw : 0 < window) :
    0 ≤ specTemporalScore delta window ∧ specTemporalScore delta window ≤ 1 := by
  unfold specTemporalScore
  have hq : (0 : ℚ) < (window : ℚ) := by exact_mod_cast hw
  have hdq : (0 : ℚ) ≤ (delta : ℚ) := by exact_mod_cast hd
  have : (0 : ℚ) ≤ (delta : ℚ) / (window : ℚ) := div_nonneg hdq (le_of_lt hq)
  exact ⟨le_max_left _ _, max_le (by norm_num) (by linarith)⟩

theorem fraction_bounds (a b : Nat) (h : a ≤ b) :
    (0 : ℚ) ≤ (a : ℚ) / (b : ℚ) ∧ (a : ℚ) / (b : ℚ) ≤ 1 := by
  have ha : (0 : ℚ) ≤ (a : ℚ) := Nat.cast_nonneg a
  have hb : (0 : ℚ) ≤ (b : ℚ) := Nat.cast_nonneg b
  have hab : (a : ℚ) ≤ (b : ℚ) := by exact_mod_cast h
  exact ⟨div_nonneg ha hb, div_le_one_of_le₀ hab hb⟩

theorem specAttributeScore_bounds (rm tr om tt : Nat) (h1 : rm ≤ tr) (h2 : om ≤ tt) :
    0 ≤ specAttributeScore rm tr om tt ∧ specAttributeScore rm tr om tt ≤ 1 := by
  obtain ⟨a1, a2⟩ := fraction_bounds rm tr h1
  obtain ⟨b1, b2⟩ := fraction_bounds om tt h2
  unfold specAttributeScore
  simp only
  split_ifs <;> constructor <;> linarith

theorem specScore_bounds (lib : Stdlib) (e : CorrelationEngine) (event : SnapEvent)
    (commit : EnrichedCommit) (hw : 0 < e.config.TimeWindow)
    (ht : 0 ≤ specWeight e.config.ScoreWeights "temporal")
    (ha : 0 ≤ specWeight e.config.ScoreWeights "attribute")
    (hsum : specWeight e.config.ScoreWeights "temporal" +
      specWeight e.config.ScoreWeights "attribute" = 1) :
    0 ≤ specScore lib e event commit ∧ specScore lib e event commit ≤ 1 := by
  obtain ⟨t1, t2⟩ := specTemporalScore_bounds (calculateTimeDelta e event commit)
    e.config.TimeWindow (calculateTimeDelta_nonneg e event commit) hw
  obtain ⟨a1, a2⟩ := specAttributeScore_bounds
    (e.config.AttributeRules.countP (fun r => r.Required && ruleMatches lib e event commit r))
    (e.config.AttributeRules.countP (fun r => r.Required))
    (e.config.AttributeRules.countP (fun r => !r.Required && ruleMatches lib e event commit r))
    (e.config.AttributeRules.countP (fun r => !r.Required))
    (countP_and_le (fun r : AttributeRule => r.Required)
      (fun r => ruleMatches lib e event commit r) _)
    (countP_and_le (fun r : AttributeRule => !r.Required)
      (fun r => ruleMatches lib e event commit r) _)
  unfold specScore
  simp only
  constructor
  · exact add_nonneg (mul_nonneg t1 ht) (mul_nonneg a1 ha)
  · nlinarith [mul_le_of_le_one_left ht t2, mul_le_of_le_one_left ha a2]

theorem mem_SnapToCommits_score (lib : Stdlib) (e : CorrelationEngine)
    (events : List SnapEvent) (commits : List EnrichedCommit) (r : CorrelationResult)
    (hr : r ∈ SnapToCommits lib e events commits) :
    r.Event ∈ events ∧ r.Commit ∈ commits ∧
      isWithinTimeWindow e r.Event r.Commit = true ∧
      (calculateCorrelation lib e r.Event r.Commit).2 = some r.Score ∧ 0 < r.Score ∧
      ∀ rule ∈ e.config.AttributeRules,
        rule.Required = true → ruleMatches lib e r.Event r.Commit rule = true := by
  rw [mem_SnapToCommits] at hr
  obtain ⟨ev, hev, c, hc, hmem⟩ := hr
  rw [mem_snapPair] at hmem
  obtain ⟨hwin, s, hs, hpos, rfl⟩ := hmem
  refine ⟨hev, hc, hwin, hs, hpos, ?_⟩
  intro rule hrule hreq
  by_contra hm
  have := score_of_gate_fail lib e ev c ⟨rule, hrule, hreq, by simpa using hm⟩
  rw [this] at hs
  cases hs
  exact lt_irrefl _ hpos

/-- C4, as stated, fails: with the non-negative weights `1` for `temporal` and `0` for
`attribute`, which sum to `1`, and a positive window, `SnapToCommits` returns a result of
score `3/2` for an event and a commit at the same instant. -/
theorem score_above_one :
    0 < skewedConfig.TimeWindow ∧
      skewedConfig.ScoreWeights "temporal" = some 1 ∧
      skewedConfig.ScoreWeights "attribute" = some 0 ∧
      ∃ r ∈ SnapToCommits plainLib ⟨skewedConfig⟩ [eventAt 0] [commitAt 0],
        r.Score = 3 / 2 ∧ ¬ r.Score ≤ 1 := by
  refine ⟨by decide, by decide, by decide,
    { Event := eventAt 0, Commit := commitAt 0, Score := 3 / 2,
      Matches := (calculateCorrelation plainLib ⟨skewedConfig⟩ (eventAt 0) (commitAt 0)).1,
      TimeDelta := calculateTimeDelta ⟨skewedConfig⟩ (eventAt 0) (commitAt 0) }, ?_, rfl,
    by norm_num⟩
  rw [mem_SnapToCommits]
  refine ⟨eventAt 0, List.mem_singleton.mpr rfl, commitAt 0, List.mem_singleton.mpr rfl, ?_⟩
  rw [mem_snapPair]
  refine ⟨by decide, 3 / 2, ?_, by norm_num, rfl⟩
  simp [calculateCorrelation, runRules, skewedConfig, calculateTemporalScore,
    calculateTimeDelta, Time.After, Time.Sub, eventAt, commitAt, minute, maxDuration,
    minDuration, mapSet]
  norm_num

/-- C4, amended: for a positive window and configured weights `temporal` and `attribute`
that are positive and sum to `1`, every result of `SnapToCommits` has its score in
`[0, 1]`. -/
theorem score_in_unit_interval (lib : Stdlib) (e : CorrelationEngine)
    (events : List SnapEvent) (commits : List EnrichedCommit)
    (hw : 0 < e.config.TimeWindow)
    (ht : 0 < (e.config.ScoreWeights "temporal").getD 0)
    (ha : 0 < (e.config.ScoreWeights "attribute").getD 0)
    (hsum : (e.config.ScoreWeights "temporal").getD 0 +
      (e.config.ScoreWeights "attribute").getD 0 = 1) :
    ∀ r ∈ SnapToCommits lib e events commits, 0 ≤ r.Score ∧ r.Score ≤ 1 := by
  intro r hr
  obtain ⟨_, _, _, hs, _, hgate⟩ := mem_SnapToCommits_score lib e events commits r hr
  rw [score_of_gate_pass lib e r.Event r.Commit (by omega) hgate] at hs
  have hs' : specScore lib e r.Event r.Commit = r.Score := Option.some.inj hs
  have hrt : specWeight e.config.ScoreWeights "temporal" =
      (e.config.ScoreWeights "temporal").getD 0 := by
    rw [← resolved_weight, if_neg (ne_of_gt ht)]
  have hra : specWeight e.config.ScoreWeights "attribute" =
      (e.config.ScoreWeights "attribute").getD 0 := by
    rw [← resolved_weight, if_neg (ne_of_gt ha)]
  rw [← hs']
  exact specScore_bounds lib e r.Event r.Commit hw (by rw [hrt]; exact le_of_lt ht)
    (by rw [hra]; exact le_of_lt ha) (by rw [hrt, hra]; exact hsum)

/-- C4, amended, at the data of the engine test (weights `0.5` and `0.5`): the score of the
test result lies in `[0, 1]`. -/
theorem score_in_unit_interval_witness : 0 ≤ testResult.Score ∧ testResult.Score ≤ 1 :=
  score_in_unit_interval plainLib ⟨testConfig⟩ [testEvent 0] [testCommitA 0, testCommitB 0]
    (by decide) (by simp [testConfig, mapSet]) (by simp [testConfig, mapSet])
    (by simp [testConfig, mapSet]; norm_num) testResult testResult_mem

theorem matchValues_exact (lib : Stdlib) (e : CorrelationEngine) (a b : String) :
    matchValues lib e a b EXACT = true ↔ a ≠ "" ∧ a = b := by
  unfold matchValues
  by_cases ha : a = ""
  · simp [ha]
  · by_cases hb : b = ""
    · simp [ha, hb]
    · simp [ha, hb]

/-- C5: with a positive window, weights `0.5` and `0.5` and the single required EXACT rule
from event key `k` to commit key `f`, `SnapToCommits` returns a result for a pair of its
inputs exactly when the delta of the pair is at most the window and the text of the event
attribute `k` is non-empty and equal to the commit field `f`; every result has a positive
score; and on the data of the engine test the one result is the commit `abc123`. -/
theorem single_required_exact_rule (lib : Stdlib) (e : CorrelationEngine)
    (events : List SnapEvent) (commits : List EnrichedCommit) (k f : String)
    (hw : 0 < e.config.TimeWindow)
    (hrules : e.config.AttributeRules =
      [{ EventKey := k, CommitKey := f, MatchType := EXACT, Required := true }])
    (ht : e.config.ScoreWeights "temporal" = some (1 / 2))
    (ha : e.config.ScoreWeights "attribute" = some (1 / 2)) :
    (∀ ev ∈ events, ∀ c ∈ commits,
        (∃ r ∈ SnapToCommits lib e events commits, r.Event = ev ∧ r.Commit = c) ↔
          (calculateTimeDelta e ev c ≤ e.config.TimeWindow ∧ getEventValue e ev k ≠ "" ∧
            getEventValue e ev k = getCommitValue e c f)) ∧
      (∀ r ∈ SnapToCommits lib e events commits, 0 < r.Score) ∧
      (SnapToCommits plainLib ⟨testConfig⟩ [testEvent 0] [testCommitA 0, testCommitB 0]).map
        (fun r => r.Commit.SHA) = ["abc123"] := by
  refine ⟨?_, ?_, ?_⟩
  · intro ev hev c hc
    constructor
    · rintro ⟨r, hr, rfl, rfl⟩
      obtain ⟨_, _, hwin, _, _, hgate⟩ := mem_SnapToCommits_score lib e events commits r hr
      have hm := hgate _ (by rw [hrules]; exact List.mem_singleton.mpr rfl) rfl
      unfold ruleMatches at hm
      simp only at hm
      rw [matchValues_exact] at hm
      exact ⟨by simpa [isWithinTimeWindow] using hwin, hm.1, hm.2⟩
    · rintro ⟨hdelta, hne, heq⟩
      have hm : ∀ rule ∈ e.config.AttributeRules,
          rule.Required = true → ruleMatches lib e ev c rule = true := by
        intro rule hrule _
        rw [hrules] at hrule
        rw [List.mem_singleton.mp hrule]
        unfold ruleMatches
        simp only
        rw [matchValues_exact]
        exact ⟨hne, heq⟩
      have hscore := score_of_gate_pass lib e ev c (by omega) hm
      have hpos : 0 < specScore lib e ev c := by
        obtain ⟨t1, _⟩ := specTemporalScore_bounds (calculateTimeDelta e ev c)
          e.config.TimeWindow (calculateTimeDelta_nonneg e ev c) hw
        have hm' : ruleMatches lib e ev c
            { EventKey := k, CommitKey := f, MatchType := EXACT, Required := true } = true :=
          hm _ (by rw [hrules]; exact List.mem_singleton.mpr rfl) rfl
        unfold specScore
        simp only [hrules, specWeight, ht, ha, specAttributeScore, List.countP_cons,
          List.countP_nil, hm']
        norm_num
        linarith
      refine ⟨{ Event := ev, Commit := c, Score := specScore lib e ev c,
                Matches := (calculateCorrelation lib e ev c).1,
                TimeDelta := calculateTimeDelta e ev c }, ?_, rfl, rfl⟩
      rw [mem_SnapToCommits]
      refine ⟨ev, hev, c, hc, ?_⟩
      rw [mem_snapPair]
      exact ⟨by simpa [isWithinTimeWindow] using hdelta, _, hscore, hpos, rfl⟩
  · intro r hr
    exact (mem_SnapToCommits_score lib e events commits r hr).2.2.2.2.1
  · have hB : (calculateCorrelation plainLib ⟨testConfig⟩ (testEvent 0) (testCommitB 0)).2 =
        some 0 :=
      score_of_gate_fail plainLib ⟨testConfig⟩ (testEvent 0) (testCommitB 0)
        ⟨⟨"user_id", "author_email", EXACT, true⟩, by simp [testConfig], rfl, by decide⟩
    have hA := testScore
    have hwA : isWithinTimeWindow ⟨testConfig⟩ (testEvent 0) (testCommitA 0) = true := by
      decide
    have hwB : isWithinTimeWindow ⟨testConfig⟩ (testEvent 0) (testCommitB 0) = true := by
      decide
    rcases hcA : calculateCorrelation plainLib ⟨testConfig⟩ (testEvent 0) (testCommitA 0)
      with ⟨mA, sA⟩
    rcases hcB : calculateCorrelation plainLib ⟨testConfig⟩ (testEvent 0) (testCommitB 0)
      with ⟨mB, sB⟩
    rw [hcA] at hA
    rw [hcB] at hB
    simp only at hA hB
    subst hA hB
    have hpA : snapPair plainLib ⟨testConfig⟩ (testEvent 0) [] (testCommitA 0) =
        [{ Event := testEvent 0, Commit := testCommitA 0, Score := 5 / 6, Matches := mA,
           TimeDelta := calculateTimeDelta ⟨testConfig⟩ (testEvent 0) (testCommitA 0) }] := by
      simp only [snapPair, hwA, hcA]
      norm_num
    have hpB : ∀ results, snapPair plainLib ⟨testConfig⟩ (testEvent 0) results (testCommitB 0) =
        results := by
      intro results
      simp [snapPair, hwB, hcB]
    unfold SnapToCommits
    simp only [List.foldl_cons, List.foldl_nil]
    rw [hpA, hpB]
    simp [sortAndFilterResults, exchangePass, testCommitA, List.range_succ]

/-- C5 at the data of the engine test: a result for the test event and its second commit
exists exactly when the pair is within the window and the attribute `user_id` is non-empty
and equal to the author email, and the score of the test result is positive. -/
theorem single_required_exact_rule_witness :
    ((∃ r ∈ SnapToCommits plainLib ⟨testConfig⟩ [testEvent 0] [testCommitA 0, testCommitB 0],
          r.Event = testEvent 0 ∧ r.Commit = testCommitB 0) ↔
        (calculateTimeDelta ⟨testConfig⟩ (testEvent 0) (testCommitB 0) ≤ testConfig.TimeWindow ∧
          getEventValue ⟨testConfig⟩ (testEvent 0) "user_id" ≠ "" ∧
          getEventValue ⟨testConfig⟩ (testEvent 0) "user_id" =
            getCommitValue ⟨testConfig⟩ (testCommitB 0) "author_email")) ∧
      0 < testResult.Score :=
  ⟨(single_required_exact_rule plainLib ⟨testConfig⟩ [testEvent 0]
      [testCommitA 0, testCommitB 0] "user_id" "author_email" (by decide) rfl
      (by simp [testConfig, mapSet]) (by simp [testConfig, mapSet])).1 (testEvent 0)
      (List.mem_singleton.mpr rfl) (testCommitB 0)
      (List.mem_cons_of_mem _ (List.mem_singleton.mpr rfl)),
   (single_required_exact_rule plainLib ⟨testConfig⟩ [testEvent 0]
      [testCommitA 0, testCommitB 0] "user_id" "author_email" (by decide) rfl
      (by simp [testConfig, mapSet]) (by simp [testConfig, mapSet])).2.1 testResult
      testResult_mem⟩

/-! ## Strings -/

theorem toNat_ofNat_small (n : Nat) (h : n < 128) : (Char.ofNat n).toNat = n := by
  have hv : n.isValidChar := Or.inl (by omega)
  simp only [Char.ofNat, hv, dif_pos, Char.toNat, Char.ofNatAux]
  rfl

theorem lowerRune_toUpper (lib : Stdlib) (c : Char) :
    (if c.toUpper.toNat < 128 then c.toUpper.toLower else lib.unicodeToLower c.toUpper) =
      (if c.toNat < 128 then c.toLower else lib.unicodeToLower c) := by
  unfold Char.toUpper
  simp only
  split_ifs with h1 h2 h3 h4
  · have hn : (Char.ofNat (c.toNat - 32)).toNat = c.toNat - 32 :=
      toNat_ofNat_small _ (by omega)
    unfold Char.toLower
    simp only [hn]
    rw [if_pos (by omega), if_neg (by omega)]
    have : c.toNat - 32 + 32 = c.toNat := by omega
    rw [this, Char.ofNat_toNat]
  · omega
  · exfalso
    exact h2 (by rw [toNat_ofNat_small _ (by omega)]; omega)
  · omega
  · rfl
  · rfl

theorem lowerRune_toLower (lib : Stdlib) (c : Char) :
    (if c.toLower.toNat < 128 then c.toLower.toLower else lib.unicodeToLower c.toLower) =
      (if c.toNat < 128 then c.toLower else lib.unicodeToLower c) := by
  by_cases h : c.toNat ≥ 65 ∧ c.toNat ≤ 90
  · have hl : c.toLower = Char.ofNat (c.toNat + 32) := by
      unfold Char.toLower
      simp only
      rw [if_pos h]
    have hn : (Char.ofNat (c.toNat + 32)).toNat = c.toNat + 32 :=
      toNat_ofNat_small _ (by omega)
    rw [hl, hn, if_pos (by omega), if_pos (by omega)]
    unfold Char.toLower
    simp only [hn]
    rw [if_neg (by omega)]
  · have hl : c.toLower = c := by
      unfold Char.toLower
      simp only
      rw [if_neg h]
    rw [hl, hl]

theorem stringsToLower_caseVariant (lib : Stdlib) (s s' : String) (h : caseVariant s s') :
    stringsToLower lib s' = stringsToLower lib s := by
  have key : ∀ l l' : List Char,
      List.Forall₂ (fun c c' => c' = c ∨ c' = c.toUpper ∨ c' = c.toLower) l l' →
        l'.map (fun c => if c.toNat < 128 then c.toLower else lib.unicodeToLower c) =
          l.map (fun c => if c.toNat < 128 then c.toLower else lib.unicodeToLower c) := by
    intro l l' hl
    induction hl with
    | nil => rfl
    | cons hc _ ih =>
      simp only [List.map_cons, ih]
      congr 1
      rcases hc with rfl | rfl | rfl
      · rfl
      · exact lowerRune_toUpper lib _
      · exact lowerRune_toLower lib _
  unfold stringsToLower
  rw [key s.data s'.data h]

theorem stringsToLower_eq_empty (lib : Stdlib) (s : String) :
    stringsToLower lib s = "" ↔ s = "" := by
  unfold stringsToLower
  constructor
  · intro h
    have h' := congrArg String.data h
    simp only [List.map_eq_nil_iff] at h'
    exact String.ext h'
  · intro h
    subst h
    rfl

theorem matchValues_contains (lib : Stdlib) (e : CorrelationEngine) (ev cv : String)
    (hev : ev ≠ "") (hcv : cv ≠ "") :
    matchValues lib e ev cv CONTAINS =
      stringsContains (stringsToLower lib cv) (stringsToLower lib ev) := by
  unfold matchValues
  rw [if_neg (by simp [hev, hcv]), if_neg (by decide), if_pos rfl]

theorem matchValues_contains_lower (lib : Stdlib) (e : CorrelationEngine)
    (ev ev' cv cv' : String) (h1 : stringsToLower lib ev' = stringsToLower lib ev)
    (h2 : stringsToLower lib cv' = stringsToLower lib cv) :
    matchValues lib e ev' cv' CONTAINS = matchValues lib e ev cv CONTAINS := by
  have hev : ev' = "" ↔ ev = "" := by
    rw [← stringsToLower_eq_empty lib ev', h1, stringsToLower_eq_empty]
  have hcv : cv' = "" ↔ cv = "" := by
    rw [← stringsToLower_eq_empty lib cv', h2, stringsToLower_eq_empty]
  by_cases he : ev = ""
  · rw [matchValues_empty lib e ev cv _ (Or.inl he),
      matchValues_empty lib e ev' cv' _ (Or.inl (hev.mpr he))]
  · by_cases hc : cv = ""
    · rw [matchValues_empty lib e ev cv _ (Or.inr hc),
        matchValues_empty lib e ev' cv' _ (Or.inr (hcv.mpr hc))]
    · rw [matchValues_contains lib e ev cv he hc,
        matchValues_contains lib e ev' cv' (fun h => he (hev.mp h)) (fun h => hc (hcv.mp h)),
        h1, h2]

/-- C11, amended: for non-empty values the CONTAINS strategy holds exactly when the
lower-cased event value occurs as a substring (of bytes) of the lower-cased commit value; the
outcome is the same for arguments with the same lower-cased forms, in particular after
changing the case of ASCII letters in either argument; and the event value is the needle:
`john` is found in `JOHN.DOE@EX.COM`, not the other way round. -/
theorem contains_case_insensitive (lib : Stdlib) (e : CorrelationEngine) :
    (∀ ev cv : String, ev ≠ "" → cv ≠ "" →
        (matchValues lib e ev cv CONTAINS = true ↔
          goBytes (stringsToLower lib ev) <:+: goBytes (stringsToLower lib cv))) ∧
      (∀ ev ev' cv cv' : String, stringsToLower lib ev' = stringsToLower lib ev →
        stringsToLower lib cv' = stringsToLower lib cv →
          matchValues lib e ev' cv' CONTAINS = matchValues lib e ev cv CONTAINS) ∧
      (∀ ev ev' cv cv' : String, caseVariant ev ev' → caseVariant cv cv' →
        matchValues lib e ev' cv' CONTAINS = matchValues lib e ev cv CONTAINS) ∧
      matchValues lib e "john" "JOHN.DOE@EX.COM" CONTAINS = true ∧
      matchValues lib e "JOHN.DOE@EX.COM" "john" CONTAINS = false := by
  refine ⟨?_, ?_, ?_, by rfl, by rfl⟩
  · intro ev cv hev hcv
    rw [matchValues_contains lib e ev cv hev hcv]
    simp [stringsContains]
  · intro ev ev' cv cv' h1 h2
    exact matchValues_contains_lower lib e ev ev' cv cv' h1 h2
  · intro ev ev' cv cv' h1 h2
    exact matchValues_contains_lower lib e ev ev' cv cv'
      (stringsToLower_caseVariant lib ev ev' h1) (stringsToLower_caseVariant lib cv cv' h2)

/-- C11, amended, at closed inputs: `john` is contained in `john.doe@example.com` as the lower-cased
forms say, and writing the needle as `JoHn` and the commit value in upper case gives the
same outcome. -/
theorem contains_case_insensitive_witness :
    (matchValues plainLib ⟨testConfig⟩ "john" "john.doe@example.com" CONTAINS = true ↔
        goBytes (stringsToLower plainLib "john") <:+:
          goBytes (stringsToLower plainLib "john.doe@example.com")) ∧
      matchValues plainLib ⟨testConfig⟩ "JoHn" "JOHN.DOE@EXAMPLE.COM" CONTAINS =
        matchValues plainLib ⟨testConfig⟩ "john" "john.doe@example.com" CONTAINS ∧
      matchValues plainLib ⟨testConfig⟩ "JoHn" "john.doe@example.com" CONTAINS =
        matchValues plainLib ⟨testConfig⟩ "john" "john.doe@example.com" CONTAINS :=
  ⟨(contains_case_insensitive plainLib ⟨testConfig⟩).1 "john" "john.doe@example.com"
      (by decide) (by decide),
   (contains_case_insensitive plainLib ⟨testConfig⟩).2.1 "john" "JoHn" "john.doe@example.com"
      "JOHN.DOE@EXAMPLE.COM" (by decide) (by decide),
   (contains_case_insensitive plainLib ⟨testConfig⟩).2.2.1 "john" "JoHn" "john.doe@example.com"
      "john.doe@example.com"
      (List.Forall₂.cons (Or.inr (Or.inl (by decide))) (List.Forall₂.cons (Or.inl rfl)
        (List.Forall₂.cons (Or.inr (Or.inl (by decide)))
          (List.Forall₂.cons (Or.inl rfl) List.Forall₂.nil))))
      (List.forall₂_same.mpr (fun _ _ => Or.inl rfl))⟩

/-- C15: `getCommitValue` returns the fields SHA, Author, AuthorEmail, Committer, Message,
Repository and Branch unchanged under their keys, the decimal text of Additions and
Deletions, the decimal text of the PR number or the empty string when it is absent, the
file names joined with a comma, and the empty string for every other key; the values of
the engine test come out as expected. -/
theorem getCommitValue_table (e : CorrelationEngine) (commit : EnrichedCommit) :
    getCommitValue e commit "sha" = commit.SHA ∧
      getCommitValue e commit "author" = commit.Author ∧
      getCommitValue e commit "author_email" = commit.AuthorEmail ∧
      getCommitValue e commit "committer" = commit.Committer ∧
      getCommitValue e commit "message" = commit.Message ∧
      getCommitValue e commit "repository" = commit.Repository ∧
      getCommitValue e commit "branch" = commit.Branch ∧
      getCommitValue e commit "additions" = strconvItoa commit.Additions ∧
      getCommitValue e commit "deletions" = strconvItoa commit.Deletions ∧
      (∀ n : Int, commit.PRNumber = some n →
        getCommitValue e commit "pr_number" = strconvItoa n) ∧
      (commit.PRNumber = none → getCommitValue e commit "pr_number" = "") ∧
      getCommitValue e commit "files" = stringsJoin commit.Files "," ∧
      (∀ key : String, key ∉ commitKeys → getCommitValue e commit key = "") ∧
      ["sha", "author", "author_email", "message", "repository", "branch", "pr_number",
          "additions", "deletions", "files", "unknown_key"].map
          (getCommitValue e testCommitValues) =
        ["abc123", "John Doe", "john.doe@example.com", "Test commit", "test-repo", "main",
          "123", "10", "5", "file1.go,file2.go", ""] := by
  refine ⟨rfl, rfl, rfl, rfl, rfl, rfl, rfl, rfl, rfl, ?_, ?_, rfl, ?_, by rfl⟩
  · intro n hn
    simp [getCommitValue, hn]
  · intro hn
    simp [getCommitValue, hn]
  · intro key hkey
    exact getCommitValue_unknown e commit key hkey

/-- C15 at closed inputs: the commit of the engine test has the PR number 123, whose text is
`123`; a commit without PR number gives the empty string; the key `email` is unknown. -/
theorem getCommitValue_table_witness :
    getCommitValue ⟨testConfig⟩ testCommitValues "pr_number" = strconvItoa 123 ∧
      getCommitValue ⟨testConfig⟩ (testCommitA 0) "pr_number" = "" ∧
      getCommitValue ⟨testConfig⟩ testCommitValues "email" = "" :=
  ⟨(getCommitValue_table ⟨testConfig⟩ testCommitValues).2.2.2.2.2.2.2.2.2.1 123 rfl,
   (getCommitValue_table ⟨testConfig⟩ (testCommitA 0)).2.2.2.2.2.2.2.2.2.2.1 rfl,
   (getCommitValue_table ⟨testConfig⟩ testCommitValues).2.2.2.2.2.2.2.2.2.2.2.2.1 "email"
      (by decide)⟩

/-- C18: the REGEX strategy never fails: for non-empty values the outcome is false when
the event value does not compile as a pattern, and otherwise it is what
`regexp.MatchString` reports, true exactly when the pattern matches somewhere in the commit
value; so with a library in which `test.*` matches `test-repo` and `prod.*` does not, the
outcomes are true and false. -/
theorem regex_total (lib : Stdlib) (e : CorrelationEngine) :
    (∀ ev cv : String, ev ≠ "" → cv ≠ "" →
        (lib.regexpMatchString ev cv = none → matchValues lib e ev cv REGEX = false) ∧
          (∀ matched : Bool, lib.regexpMatchString ev cv = some matched →
            matchValues lib e ev cv REGEX = matched)) ∧
      (lib.regexpMatchString "test.*" "test-repo" = some true →
        matchValues lib e "test.*" "test-repo" REGEX = true) ∧
      (lib.regexpMatchString "prod.*" "test-repo" = some false →
        matchValues lib e "prod.*" "test-repo" REGEX = false) := by
  have key : ∀ ev cv : String, ev ≠ "" → cv ≠ "" →
      matchValues lib e ev cv REGEX =
        (match lib.regexpMatchString ev cv with
          | some matched => matched
          | none => false) := by
    intro ev cv hev hcv
    unfold matchValues
    rw [if_neg (by simp [hev, hcv]), if_neg (by decide), if_neg (by decide), if_pos rfl]
  refine ⟨?_, ?_, ?_⟩
  · intro ev cv hev hcv
    rw [key ev cv hev hcv]
    constructor
    · intro h
      rw [h]
    · intro matched h
      rw [h]
  · intro h
    rw [key _ _ (by decide) (by decide), h]
  · intro h
    rw [key _ _ (by decide) (by decide), h]

/-- C18 with a pattern matcher that knows the two patterns of the engine test: the pattern
`(` does not compile and gives false, `test.*` matches `test-repo` and `prod.*` does not. -/
theorem regex_total_witness :
    matchValues testRegexLib ⟨testConfig⟩ "(" "test-repo" REGEX = false ∧
      matchValues testRegexLib ⟨testConfig⟩ "test.*" "test-repo" REGEX = true ∧
      matchValues testRegexLib ⟨testConfig⟩ "prod.*" "test-repo" REGEX = false :=
  ⟨((regex_total testRegexLib ⟨testConfig⟩).1 "(" "test-repo" (by decide) (by decide)).1
      (by decide),
   (regex_total testRegexLib ⟨testConfig⟩).2.1 (by decide),
   (regex_total testRegexLib ⟨testConfig⟩).2.2 (by decide)⟩

/-! ## The emitted results -/

theorem snapPair_eq_pairResult (lib : Stdlib) (e : CorrelationEngine) (event : SnapEvent)
    (commit : EnrichedCommit) :
    snapPair lib e event [] commit = (pairResult lib e event commit).toList := by
  unfold snapPair pairResult
  cases hw : isWithinTimeWindow e event commit
  · simp
  · rcases hc : calculateCorrelation lib e event commit with ⟨m, _ | s⟩
    · simp
    · by_cases hs : 0 < s
      · simp [hs]
      · simp [hs]

theorem flatMap_toList {α β : Type} (f : α → Option β) :
    ∀ l : List α, l.flatMap (fun a => (f a).toList) = l.filterMap f
  | [] => rfl
  | a :: l => by
    rw [List.flatMap_cons, flatMap_toList f l, List.filterMap_cons]
    cases f a <;> rfl

theorem SnapToCommits_eq_sort (lib : Stdlib) (e : CorrelationEngine) (events : List SnapEvent)
    (commits : List EnrichedCommit) :
    SnapToCommits lib e events commits =
      sortAndFilterResults e (emittedResults lib e events commits) := by
  unfold SnapToCommits emittedResults
  simp only
  rw [foldl_events, List.nil_append]
  congr 1
  apply List.flatMap_congr
  intro ev _
  rw [← flatMap_toList]
  apply List.flatMap_congr
  intro c _
  exact snapPair_eq_pairResult lib e ev c

/-- C17: `sortAndFilterResults` returns a permutation of its input, of the same length, so
nothing is dropped, duplicated or altered; and `SnapToCommits` returns, up to order, one
result for each pair that is within the window and has a positive score, and nothing
else. -/
theorem sort_is_permutation (lib : Stdlib) (e : CorrelationEngine) (events : List SnapEvent)
    (commits : List EnrichedCommit) (results : List CorrelationResult) :
    (sortAndFilterResults e results).Perm results ∧
      (sortAndFilterResults e results).length = results.length ∧
      (SnapToCommits lib e events commits).Perm (emittedResults lib e events commits) ∧
      (∀ r : CorrelationResult, r ∈ SnapToCommits lib e events commits ↔
        ∃ ev ∈ events, ∃ c ∈ commits, isWithinTimeWindow e ev c = true ∧
          ∃ s, (calculateCorrelation lib e ev c).2 = some s ∧ 0 < s ∧
            r = { Event := ev, Commit := c, Score := s,
                  Matches := (calculateCorrelation lib e ev c).1,
                  TimeDelta := calculateTimeDelta e ev c }) := by
  refine ⟨sortAndFilterResults_perm e results, (sortAndFilterResults_perm e results).length_eq,
    ?_, ?_⟩
  · rw [SnapToCommits_eq_sort]
    exact sortAndFilterResults_perm e _
  · intro r
    rw [mem_SnapToCommits]
    constructor
    · rintro ⟨ev, hev, c, hc, hmem⟩
      exact ⟨ev, hev, c, hc, (mem_snapPair lib e ev c r).mp hmem⟩
    · rintro ⟨ev, hev, c, hc, hrest⟩
      exact ⟨ev, hev, c, hc, (mem_snapPair lib e ev c r).mpr hrest⟩

/-! ## Ties -/

theorem exchangeStep_sorted (l : List CorrelationResult)
    (h : l.Pairwise (fun r s => r.Score ≥ s.Score)) (i j : Nat) (hij : i < j) :
    exchangeStep i l j = l := by
  unfold exchangeStep
  split
  · rename_i ri rj hi hj
    obtain ⟨hil, hi'⟩ := List.getElem?_eq_some_iff.mp hi
    obtain ⟨hjl, hj'⟩ := List.getElem?_eq_some_iff.mp hj
    have := (List.pairwise_iff_getElem.mp h) i j hil hjl hij
    rw [hi', hj'] at this
    rw [if_neg (not_lt.mpr this)]
  · rfl

theorem foldl_exchangeStep_sorted (l : List CorrelationResult)
    (h : l.Pairwise (fun r s => r.Score ≥ s.Score)) (i : Nat) :
    ∀ js : List Nat, (∀ j ∈ js, i < j) → js.foldl (exchangeStep i) l = l
  | [], _ => rfl
  | j :: js, hjs => by
    rw [List.foldl_cons, exchangeStep_sorted l h i j (hjs j (List.mem_cons_self _ _))]
    exact foldl_exchangeStep_sorted l h i js (fun k hk => hjs k (List.mem_cons_of_mem _ hk))

theorem exchangePass_sorted (l : List CorrelationResult)
    (h : l.Pairwise (fun r s => r.Score ≥ s.Score)) (i : Nat) : exchangePass l i = l := by
  unfold exchangePass
  apply foldl_exchangeStep_sorted l h
  intro j hj
  simp only [List.mem_range'_1] at hj
  omega

theorem sortAndFilterResults_sorted_id (e : CorrelationEngine) (l : List CorrelationResult)
    (h : l.Pairwise (fun r s => r.Score ≥ s.Score)) : sortAndFilterResults e l = l := by
  unfold sortAndFilterResults
  generalize List.range l.length = is
  induction is with
  | nil => rfl
  | cons i is ih => rw [List.foldl_cons, exchangePass_sorted l h i, ih]

theorem tie_pairResult (sha : String) (t : Int) (h0 : 0 ≤ t) (h30 : t ≤ 30 * minute) :
    pairResult plainLib ⟨tieConfig⟩ (eventAt 0) (commitNamed sha t) =
      some { Event := eventAt 0, Commit := commitNamed sha t,
             Score := (1 - (t : ℚ) / ((30 * minute : Int) : ℚ)) * (1 / 2) + 1 / 2,
             Matches := fun _ => none, TimeDelta := t } := by
  have hd : ∀ e' : CorrelationEngine,
      calculateTimeDelta e' (eventAt 0) (commitNamed sha t) = t := by
    intro e'
    unfold calculateTimeDelta Time.After Time.Sub eventAt commitNamed commitAt maxDuration
      minDuration
    unfold minute at h30
    simp only [decide_eq_true_eq]
    split_ifs <;> omega
  have hq : (t : ℚ) / ((30 * minute : Int) : ℚ) ≤ 1 := by
    have h1 : (t : ℚ) ≤ ((30 * minute : Int) : ℚ) := by exact_mod_cast h30
    have h2 : (0 : ℚ) < ((30 * minute : Int) : ℚ) := by
      have : (0 : Int) < 30 * minute := by decide
      exact_mod_cast this
    exact (div_le_one h2).mpr h1
  have hw : isWithinTimeWindow ⟨tieConfig⟩ (eventAt 0) (commitNamed sha t) = true := by
    simp only [isWithinTimeWindow, hd, tieConfig, decide_eq_true_eq]
    exact h30
  have hc : calculateCorrelation plainLib ⟨tieConfig⟩ (eventAt 0) (commitNamed sha t) =
      (fun _ => none,
        some ((1 - (t : ℚ) / ((30 * minute : Int) : ℚ)) * (1 / 2) + 1 / 2)) := by
    have hne : (30 * minute : Int) ≠ 0 := by decide
    simp only [calculateCorrelation, runRules, calculateTemporalScore, hd, tieConfig,
      List.foldl_nil, hne, if_false]
    simp only [max_eq_right (sub_nonneg.mpr hq)]
    simp
  unfold pairResult
  rw [if_pos hw, hc]
  simp only [hd]
  rw [if_pos (by linarith)]

theorem tie_run :
    SnapToCommits plainLib ⟨tieConfig⟩ [eventAt 0]
        [commitNamed "a" (10 * minute), commitNamed "b" (10 * minute), commitNamed "c" 0] =
      [{ Event := eventAt 0, Commit := commitNamed "c" 0, Score := 1,
         Matches := fun _ => none, TimeDelta := 0 },
       { Event := eventAt 0, Commit := commitNamed "b" (10 * minute), Score := 5 / 6,
         Matches := fun _ => none, TimeDelta := 10 * minute },
       { Event := eventAt 0, Commit := commitNamed "a" (10 * minute), Score := 5 / 6,
         Matches := fun _ => none, TimeDelta := 10 * minute }] ∧
    emittedResults plainLib ⟨tieConfig⟩ [eventAt 0]
        [commitNamed "a" (10 * minute), commitNamed "b" (10 * minute), commitNamed "c" 0] =
      [{ Event := eventAt 0, Commit := commitNamed "a" (10 * minute), Score := 5 / 6,
         Matches := fun _ => none, TimeDelta := 10 * minute },
       { Event := eventAt 0, Commit := commitNamed "b" (10 * minute), Score := 5 / 6,
         Matches := fun _ => none, TimeDelta := 10 * minute },
       { Event := eventAt 0, Commit := commitNamed "c" 0, Score := 1,
         Matches := fun _ => none, TimeDelta := 0 }] := by
  have hem : emittedResults plainLib ⟨tieConfig⟩ [eventAt 0]
      [commitNamed "a" (10 * minute), commitNamed "b" (10 * minute), commitNamed "c" 0] =
      [{ Event := eventAt 0, Commit := commitNamed "a" (10 * minute), Score := 5 / 6,
         Matches := fun _ => none, TimeDelta := 10 * minute },
       { Event := eventAt 0, Commit := commitNamed "b" (10 * minute), Score := 5 / 6,
         Matches := fun _ => none, TimeDelta := 10 * minute },
       { Event := eventAt 0, Commit := commitNamed "c" 0, Score := 1,
         Matches := fun _ => none, TimeDelta := 0 }] := by
    unfold emittedResults
    simp only [List.flatMap_cons, List.flatMap_nil, List.append_nil, List.filterMap_cons,
      List.filterMap_nil]
    rw [tie_pairResult "a" _ (by decide) (by decide), tie_pairResult "b" _ (by decide) (by decide),
      tie_pairResult "c" 0 (by decide) (by decide)]
    simp only [minute]
    norm_num
  refine ⟨?_, hem⟩
  rw [SnapToCommits_eq_sort, hem]
  norm_num [sortAndFilterResults, exchangePass, exchangeStep, List.range_succ,
    List.range'_succ]

theorem tie_sorted_emitted :
    emittedResults plainLib ⟨tieConfig⟩ [eventAt 0]
        [commitNamed "c" 0, commitNamed "a" (10 * minute), commitNamed "b" (10 * minute)] =
      [{ Event := eventAt 0, Commit := commitNamed "c" 0, Score := 1,
         Matches := fun _ => none, TimeDelta := 0 },
       { Event := eventAt 0, Commit := commitNamed "a" (10 * minute), Score := 5 / 6,
         Matches := fun _ => none, TimeDelta := 10 * minute },
       { Event := eventAt 0, Commit := commitNamed "b" (10 * minute), Score := 5 / 6,
         Matches := fun _ => none, TimeDelta := 10 * minute }] := by
  unfold emittedResults
  simp only [List.flatMap_cons, List.flatMap_nil, List.append_nil, List.filterMap_cons,
    List.filterMap_nil]
  rw [tie_pairResult "a" _ (by decide) (by decide), tie_pairResult "b" _ (by decide) (by decide),
    tie_pairResult "c" 0 (by decide) (by decide)]
  simp only [minute]
  norm_num

/-- C16, as stated, fails: an event and the commits `a`, `b` (both 10 minutes later) and `c`
(at the instant of the event) give the results `a`, `b`, `c` in enumeration order with
scores `5/6`, `5/6`, `1`; the exchange sort swaps `a` with `c`, and the output has `b` in
front of `a` although their scores are equal. -/
theorem SnapToCommits_not_stable :
    (SnapToCommits plainLib ⟨tieConfig⟩ [eventAt 0]
        [commitNamed "a" (10 * minute), commitNamed "b" (10 * minute), commitNamed "c" 0]).map
        (fun r => (r.Commit.SHA, r.Score)) = [("c", 1), ("b", 5 / 6), ("a", 5 / 6)] ∧
      (emittedResults plainLib ⟨tieConfig⟩ [eventAt 0]
        [commitNamed "a" (10 * minute), commitNamed "b" (10 * minute), commitNamed "c" 0]).map
        (fun r => (r.Commit.SHA, r.Score)) = [("a", 5 / 6), ("b", 5 / 6), ("c", 1)] ∧
      ¬ StableOrder
        (SnapToCommits plainLib ⟨tieConfig⟩ [eventAt 0]
          [commitNamed "a" (10 * minute), commitNamed "b" (10 * minute), commitNamed "c" 0])
        (emittedResults plainLib ⟨tieConfig⟩ [eventAt 0]
          [commitNamed "a" (10 * minute), commitNamed "b" (10 * minute), commitNamed "c" 0]) := by
  obtain ⟨h1, h2⟩ := tie_run
  rw [h1, h2]
  refine ⟨by simp [commitNamed], by simp [commitNamed], ?_⟩
  intro hst
  have h := congrArg (List.map (fun r : CorrelationResult => r.Commit.SHA)) (hst (5 / 6))
  norm_num [List.filter, commitNamed] at h
  exact absurd h.1 (by decide)

/-- C16, amended: the exchange sort is not stable in general, but results are never moved
when the emitted results are already in non-increasing order of score: then `SnapToCommits`
returns them in enumeration order, so results with equal score keep that order. -/
theorem ties_keep_order_when_sorted (lib : Stdlib) (e : CorrelationEngine)
    (events : List SnapEvent) (commits : List EnrichedCommit)
    (h : (emittedResults lib e events commits).Pairwise (fun r s => r.Score ≥ s.Score)) :
    SnapToCommits lib e events commits = emittedResults lib e events commits ∧
      StableOrder (SnapToCommits lib e events commits) (emittedResults lib e events commits) := by
  have heq : SnapToCommits lib e events commits = emittedResults lib e events commits := by
    rw [SnapToCommits_eq_sort]
    exact sortAndFilterResults_sorted_id e _ h
  refine ⟨heq, ?_⟩
  intro s
  rw [heq]

/-- C16, amended, at closed inputs: with the commit `c` listed first the emitted scores `1`,
`5/6`, `5/6` are in non-increasing order, and the output is the emitted list, `a` in front
of `b`. -/
theorem ties_keep_order_when_sorted_witness :
    SnapToCommits plainLib ⟨tieConfig⟩ [eventAt 0]
        [commitNamed "c" 0, commitNamed "a" (10 * minute), commitNamed "b" (10 * minute)] =
      emittedResults plainLib ⟨tieConfig⟩ [eventAt 0]
        [commitNamed "c" 0, commitNamed "a" (10 * minute), commitNamed "b" (10 * minute)] ∧
    StableOrder
      (SnapToCommits plainLib ⟨tieConfig⟩ [eventAt 0]
        [commitNamed "c" 0, commitNamed "a" (10 * minute), commitNamed "b" (10 * minute)])
      (emittedResults plainLib ⟨tieConfig⟩ [eventAt 0]
        [commitNamed "c" 0, commitNamed "a" (10 * minute), commitNamed "b" (10 * minute)]) :=
  ties_keep_order_when_sorted plainLib ⟨tieConfig⟩ [eventAt 0]
    [commitNamed "c" 0, commitNamed "a" (10 * minute), commitNamed "b" (10 * minute)]
    (by rw [tie_sorted_emitted]; norm_num)

/-! ## The match map -/

theorem foldl_ruleStep_map (lib : Stdlib) (e : CorrelationEngine) (event : SnapEvent)
    (commit : EnrichedCommit) (key : String) :
    ∀ (rules : List AttributeRule) (st : RuleTally),
      (rules.foldl (ruleStep lib e event commit) st).matchesMap key =
        match lastRuleWith rules key with
        | some rule => some (ruleMatches lib e event commit rule)
        | none => st.matchesMap key
  | [], st => rfl
  | rule :: rules, st => by
    rw [List.foldl_cons, foldl_ruleStep_map lib e event commit key rules]
    have hstep : (ruleStep lib e event commit st rule).matchesMap key =
        if key = rule.EventKey then some (ruleMatches lib e event commit rule)
        else st.matchesMap key := by
      unfold ruleStep mapSet
      cases hr : rule.Required <;> cases hm : ruleMatches lib e event commit rule <;>
        simp
    unfold lastRuleWith
    rw [List.filter_cons]
    by_cases hk : rule.EventKey = key
    · simp only [hk, decide_True, if_true, List.getLast?_cons]
      cases hl : (rules.filter (fun r => decide (r.EventKey = key))).getLast?
      · simp [hstep, hk]
      · simp
    · have hk' : ¬ key = rule.EventKey := fun h => hk h.symm
      simp only [hk, decide_False, Bool.false_eq_true, if_false]
      cases hl : (rules.filter (fun r => decide (r.EventKey = key))).getLast?
      · simp [hstep, hk']
      · simp

theorem calculateCorrelation_fst (lib : Stdlib) (e : CorrelationEngine) (event : SnapEvent)
    (commit : EnrichedCommit) :
    (calculateCorrelation lib e event commit).1 = (runRules lib e event commit).matchesMap := by
  unfold calculateCorrelation
  simp only
  split_ifs <;> rfl

theorem calculateCorrelation_map (lib : Stdlib) (e : CorrelationEngine) (event : SnapEvent)
    (commit : EnrichedCommit) (key : String) :
    (calculateCorrelation lib e event commit).1 key =
      (lastRuleWith e.config.AttributeRules key).map (ruleMatches lib e event commit) := by
  rw [calculateCorrelation_fst]
  unfold runRules
  rw [foldl_ruleStep_map]
  cases lastRuleWith e.config.AttributeRules key <;> rfl

theorem lastRuleWith_isSome (rules : List AttributeRule) (key : String) :
    lastRuleWith rules key ≠ none ↔ ∃ rule ∈ rules, rule.EventKey = key := by
  unfold lastRuleWith
  rw [ne_eq, List.getLast?_eq_none_iff, List.filter_eq_nil_iff]
  simp

/-- C19: the match map of `calculateCorrelation` stores under a key the outcome of the last
rule with that event key; its keys are exactly the event keys of the rules; every rule
counts toward the totals of the rule loop whether or not its map entry is overwritten; and
the same map is returned, with score `0`, when a required rule fails. -/
theorem match_map_last_rule (lib : Stdlib) (e : CorrelationEngine) (event : SnapEvent)
    (commit : EnrichedCommit) :
    (∀ key : String, (calculateCorrelation lib e event commit).1 key =
        (lastRuleWith e.config.AttributeRules key).map (ruleMatches lib e event commit)) ∧
      (∀ key : String, (calculateCorrelation lib e event commit).1 key ≠ none ↔
        ∃ rule ∈ e.config.AttributeRules, rule.EventKey = key) ∧
      ((runRules lib e event commit).totalRequired =
          e.config.AttributeRules.countP (fun r => r.Required) ∧
        (runRules lib e event commit).requiredMatches =
          e.config.AttributeRules.countP
            (fun r => r.Required && ruleMatches lib e event commit r) ∧
        (runRules lib e event commit).totalOptional =
          e.config.AttributeRules.countP (fun r => !r.Required) ∧
        (runRules lib e event commit).optionalMatches =
          e.config.AttributeRules.countP
            (fun r => !r.Required && ruleMatches lib e event commit r)) ∧
      ((∃ rule ∈ e.config.AttributeRules,
          rule.Required = true ∧ ruleMatches lib e event commit rule = false) →
        (calculateCorrelation lib e event commit).2 = some 0 ∧
          (calculateCorrelation lib e event commit).1 =
            (runRules lib e event commit).matchesMap) := by
  refine ⟨calculateCorrelation_map lib e event commit, ?_, runRules_counts lib e event commit,
    ?_⟩
  · intro key
    rw [calculateCorrelation_map, ← lastRuleWith_isSome]
    cases lastRuleWith e.config.AttributeRules key <;> simp
  · intro h
    exact ⟨score_of_gate_fail lib e event commit h, calculateCorrelation_fst lib e event commit⟩

/-- C19 at closed inputs: the rule of the engine test fails on the second test commit, the
score is `0` and the map is the one the rule loop built; with two rules on the key
`user_id` the map holds the outcome of the second one (false) although the first one
matches and is counted. -/
theorem match_map_last_rule_witness :
    ((calculateCorrelation plainLib ⟨testConfig⟩ (testEvent 0) (testCommitB 0)).2 = some 0 ∧
        (calculateCorrelation plainLib ⟨testConfig⟩ (testEvent 0) (testCommitB 0)).1 =
          (runRules plainLib ⟨testConfig⟩ (testEvent 0) (testCommitB 0)).matchesMap) ∧
      (calculateCorrelation plainLib ⟨{ testConfig with AttributeRules := collidingRules }⟩
          (testEvent 0) (testCommitA 0)).1 "user_id" = some false ∧
      (runRules plainLib ⟨{ testConfig with AttributeRules := collidingRules }⟩
          (testEvent 0) (testCommitA 0)).requiredMatches = 1 :=
  ⟨(match_map_last_rule plainLib ⟨testConfig⟩ (testEvent 0) (testCommitB 0)).2.2.2
      ⟨⟨"user_id", "author_email", EXACT, true⟩, by simp [testConfig], rfl, by decide⟩,
   ((match_map_last_rule plainLib ⟨{ testConfig with AttributeRules := collidingRules }⟩
      (testEvent 0) (testCommitA 0)).1 "user_id").trans (by decide),
   ((match_map_last_rule plainLib ⟨{ testConfig with AttributeRules := collidingRules }⟩
      (testEvent 0) (testCommitA 0)).2.2.1.2.1).trans (by decide)⟩

/-! ## Rule order -/

theorem calculateCorrelation_snd_perm (lib : Stdlib) (e e' : CorrelationEngine)
    (event : SnapEvent) (commit : EnrichedCommit)
    (hw : e'.config.TimeWindow = e.config.TimeWindow)
    (hsw : e'.config.ScoreWeights = e.config.ScoreWeights)
    (hperm : e'.config.AttributeRules.Perm e.config.AttributeRules) :
    (calculateCorrelation lib e' event commit).2 = (calculateCorrelation lib e event commit).2 := by
  obtain ⟨h1, h2, h3, h4⟩ := runRules_counts lib e event commit
  obtain ⟨h1', h2', h3', h4'⟩ := runRules_counts lib e' event commit
  have hm : ruleMatches lib e' event commit = ruleMatches lib e event commit := rfl
  rw [hm] at h2' h4'
  rw [hperm.countP_eq] at h1' h2' h3' h4'
  have ht : calculateTemporalScore e' event commit = calculateTemporalScore e event commit := by
    unfold calculateTemporalScore
    rw [hw]
    rfl
  unfold calculateCorrelation
  simp only [h1, h2, h3, h4, h1', h2', h3', h4', hsw, ht]
  split_ifs <;> rfl

theorem lastRuleWith_perm (rules rules' : List AttributeRule) (key : String)
    (hperm : rules'.Perm rules) (hnodup : (rules.map (fun r => r.EventKey)).Nodup) :
    lastRuleWith rules' key = lastRuleWith rules key := by
  unfold lastRuleWith
  have hp := hperm.filter (fun r => decide (r.EventKey = key))
  have hsub : ((rules.filter (fun r => decide (r.EventKey = key))).map
      (fun r => r.EventKey)).Nodup :=
    hnodup.sublist ((List.filter_sublist rules).map _)
  have hall : ∀ r ∈ rules.filter (fun r => decide (r.EventKey = key)), r.EventKey = key := by
    intro r hr
    simpa using (List.mem_filter.mp hr).2
  rcases hl : rules.filter (fun r => decide (r.EventKey = key)) with _ | ⟨a, _ | ⟨b, t⟩⟩
  · rw [hl] at hp
    rw [hp.eq_nil, hl]
  · rw [hl] at hp
    rw [List.perm_singleton.mp hp, hl]
  · rw [hl] at hsub hall
    have ha := hall a (List.mem_cons_self _ _)
    have hb := hall b (List.mem_cons_of_mem _ (List.mem_cons_self _ _))
    simp only [List.map_cons, List.nodup_cons, List.mem_cons] at hsub
    exact absurd (Or.inl (ha.trans hb.symm)) hsub.1

/-- C20: for every permutation of the rule list the score of `calculateCorrelation` is the
same; when no two rules share an event key the match map is the same too, and then
`SnapToCommits` returns the same list; in any case `SnapToCommits` returns results for the
same pairs with the same scores. -/
theorem rule_order_irrelevant (lib : Stdlib) (cfg : SnapConfig) (rules' : List AttributeRule)
    (events : List SnapEvent) (commits : List EnrichedCommit)
    (hperm : rules'.Perm cfg.AttributeRules) :
    (∀ (event : SnapEvent) (commit : EnrichedCommit),
        (calculateCorrelation lib ⟨{ cfg with AttributeRules := rules' }⟩ event commit).2 =
          (calculateCorrelation lib ⟨cfg⟩ event commit).2) ∧
      ((cfg.AttributeRules.map (fun r => r.EventKey)).Nodup →
        (∀ (event : SnapEvent) (commit : EnrichedCommit),
          calculateCorrelation lib ⟨{ cfg with AttributeRules := rules' }⟩ event commit =
            calculateCorrelation lib ⟨cfg⟩ event commit) ∧
        SnapToCommits lib ⟨{ cfg with AttributeRules := rules' }⟩ events commits =
          SnapToCommits lib ⟨cfg⟩ events commits) ∧
      (∀ (event : SnapEvent) (commit : EnrichedCommit) (score : ℚ),
        (∃ r ∈ SnapToCommits lib ⟨{ cfg with AttributeRules := rules' }⟩ events commits,
            r.Event = event ∧ r.Commit = commit ∧ r.Score = score) ↔
          ∃ r ∈ SnapToCommits lib ⟨cfg⟩ events commits,
            r.Event = event ∧ r.Commit = commit ∧ r.Score = score) := by
  have hscore : ∀ (event : SnapEvent) (commit : EnrichedCommit),
      (calculateCorrelation lib ⟨{ cfg with AttributeRules := rules' }⟩ event commit).2 =
        (calculateCorrelation lib ⟨cfg⟩ event commit).2 := fun event commit =>
    calculateCorrelation_snd_perm lib ⟨cfg⟩ ⟨{ cfg with AttributeRules := rules' }⟩ event commit
      rfl rfl hperm
  have hrev : ∀ (event : SnapEvent) (commit : EnrichedCommit),
      (calculateCorrelation lib ⟨cfg⟩ event commit).2 =
        (calculateCorrelation lib ⟨{ cfg with AttributeRules := rules' }⟩ event commit).2 :=
    fun event commit => (hscore event commit).symm
  have hside : ∀ (e e' : CorrelationEngine),
      e'.config.TimeWindow = e.config.TimeWindow →
      (∀ (event : SnapEvent) (commit : EnrichedCommit),
        (calculateCorrelation lib e' event commit).2 =
          (calculateCorrelation lib e event commit).2) →
      ∀ (event : SnapEvent) (commit : EnrichedCommit) (score : ℚ),
        (∃ r ∈ SnapToCommits lib e' events commits,
            r.Event = event ∧ r.Commit = commit ∧ r.Score = score) →
          ∃ r ∈ SnapToCommits lib e events commits,
            r.Event = event ∧ r.Commit = commit ∧ r.Score = score := by
    intro e e' hw hs event commit score
    rintro ⟨r, hr, rfl, rfl, rfl⟩
    rw [mem_SnapToCommits] at hr
    obtain ⟨ev, hev, c, hc, hmem⟩ := hr
    rw [mem_snapPair] at hmem
    obtain ⟨hwin, s, hsc, hpos, rfl⟩ := hmem
    refine ⟨{ Event := ev, Commit := c, Score := s,
              Matches := (calculateCorrelation lib e ev c).1,
              TimeDelta := calculateTimeDelta e ev c }, ?_, rfl, rfl, rfl⟩
    rw [mem_SnapToCommits]
    refine ⟨ev, hev, c, hc, ?_⟩
    rw [mem_snapPair]
    refine ⟨?_, s, ?_, hpos, rfl⟩
    · unfold isWithinTimeWindow at hwin ⊢
      rw [← hw]
      exact hwin
    · rw [← hs ev c]
      exact hsc
  refine ⟨hscore, ?_, ?_⟩
  · intro hnodup
    have hcalc : ∀ (event : SnapEvent) (commit : EnrichedCommit),
        calculateCorrelation lib ⟨{ cfg with AttributeRules := rules' }⟩ event commit =
          calculateCorrelation lib ⟨cfg⟩ event commit := by
      intro event commit
      apply Prod.ext
      · funext key
        rw [calculateCorrelation_map, calculateCorrelation_map]
        simp only
        rw [lastRuleWith_perm cfg.AttributeRules rules' key hperm hnodup]
        rfl
      · exact hscore event commit
    refine ⟨hcalc, ?_⟩
    have hpair : ∀ (ev : SnapEvent) (c : EnrichedCommit),
        snapPair lib ⟨{ cfg with AttributeRules := rules' }⟩ ev [] c =
          snapPair lib ⟨cfg⟩ ev [] c := by
      intro ev c
      unfold snapPair
      rw [hcalc ev c]
      rfl
    unfold SnapToCommits
    simp only
    rw [foldl_events, foldl_events]
    simp only [hpair]
    rfl
  · intro event commit score
    exact ⟨hside ⟨cfg⟩ ⟨{ cfg with AttributeRules := rules' }⟩ rfl hscore event commit score,
      hside ⟨{ cfg with AttributeRules := rules' }⟩ ⟨cfg⟩ rfl hrev event commit score⟩

/-- C20 at closed inputs: with the two rules of `twoRules` in reverse order the test pair has
the same score and the same match map, and the result for the test pair is found with the
same score. -/
theorem rule_order_irrelevant_witness :
    (calculateCorrelation plainLib
          ⟨{ { testConfig with AttributeRules := twoRules } with
              AttributeRules := twoRules.reverse }⟩ (testEvent 0) (testCommitA 0)).2 =
        (calculateCorrelation plainLib ⟨{ testConfig with AttributeRules := twoRules }⟩
          (testEvent 0) (testCommitA 0)).2 ∧
      calculateCorrelation plainLib
          ⟨{ { testConfig with AttributeRules := twoRules } with
              AttributeRules := twoRules.reverse }⟩ (testEvent 0) (testCommitA 0) =
        calculateCorrelation plainLib ⟨{ testConfig with AttributeRules := twoRules }⟩
          (testEvent 0) (testCommitA 0) :=
  ⟨(rule_order_irrelevant plainLib { testConfig with AttributeRules := twoRules }
      twoRules.reverse [testEvent 0] [testCommitA 0] (List.reverse_perm _)).1 (testEvent 0)
      (testCommitA 0),
   ((rule_order_irrelevant plainLib { testConfig with AttributeRules := twoRules }
      twoRules.reverse [testEvent 0] [testCommitA 0] (List.reverse_perm _)).2.1
      (by decide)).1 (testEvent 0) (testCommitA 0)⟩

/-! ## Edit distance -/

theorem editDistance_nil_left {α : Type} [DecidableEq α] (t : List α) :
    editDistance [] t = t.length := by
  rw [editDistance]

theorem editDistance_nil_right {α : Type} [DecidableEq α] (s : List α) :
    editDistance s [] = s.length := by
  cases s with
  | nil => rw [editDistance]
  | cons x s => rw [editDistance]

theorem editDistance_cons_cons {α : Type} [DecidableEq α] (x y : α) (s t : List α) :
    editDistance (x :: s) (y :: t) =
      Nat.min (Nat.min (editDistance s (y :: t) + 1) (editDistance (x :: s) t + 1))
        (editDistance s t + if x ≠ y then 1 else 0) := by
  rw [editDistance]

theorem editDistance_delete_le {α : Type} [DecidableEq α] (x : α) (s t : List α) :
    editDistance (x :: s) t ≤ editDistance s t + 1 := by
  cases t with
  | nil => simp [editDistance_nil_right]
  | cons y t =>
    rw [editDistance_cons_cons]
    exact le_trans (Nat.min_le_left _ _) (Nat.min_le_left _ _)

theorem editDistance_insert_le {α : Type} [DecidableEq α] (y : α) (s t : List α) :
    editDistance s (y :: t) ≤ editDistance s t + 1 := by
  cases s with
  | nil => simp [editDistance_nil_left]
  | cons x s =>
    rw [editDistance_cons_cons]
    exact le_trans (Nat.min_le_left _ _) (Nat.min_le_right _ _)

theorem editDistance_substitute_le {α : Type} [DecidableEq α] (x y : α) (s t : List α) :
    editDistance (x :: s) (y :: t) ≤ editDistance s t + if x ≠ y then 1 else 0 := by
  rw [editDistance_cons_cons]
  exact Nat.min_le_right _ _

theorem editDistance_le_of_alignment {α : Type} [DecidableEq α] {s t : List α} {n : Nat}
    (h : Alignment s t n) : editDistance s t ≤ n := by
  induction h with
  | nil => simp [editDistance_nil_left]
  | delete x _ ih => exact le_trans (editDistance_delete_le x _ _) (Nat.add_le_add_right ih 1)
  | insert y _ ih => exact le_trans (editDistance_insert_le y _ _) (Nat.add_le_add_right ih 1)
  | substitute x y _ ih =>
    exact le_trans (editDistance_substitute_le x y _ _) (Nat.add_le_add_right ih _)

theorem alignment_nil_left {α : Type} [DecidableEq α] :
    ∀ t : List α, Alignment [] t t.length
  | [] => Alignment.nil
  | y :: t => Alignment.insert y (alignment_nil_left t)

theorem alignment_nil_right {α : Type} [DecidableEq α] :
    ∀ s : List α, Alignment s [] s.length
  | [] => Alignment.nil
  | x :: s => Alignment.delete x (alignment_nil_right s)

theorem alignment_editDistance {α : Type} [DecidableEq α] :
    ∀ (s t : List α), Alignment s t (editDistance s t)
  | [], t => by
    rw [editDistance_nil_left]
    exact alignment_nil_left t
  | x :: s, [] => by
    rw [editDistance_nil_right]
    exact alignment_nil_right (x :: s)
  | x :: s, y :: t => by
    rw [editDistance_cons_cons]
    have h1 := Alignment.delete x (alignment_editDistance s (y :: t))
    have h2 := Alignment.insert y (alignment_editDistance (x :: s) t)
    have h3 := Alignment.substitute x y (alignment_editDistance s t)
    rcases Nat.le_total (Nat.min (editDistance s (y :: t) + 1) (editDistance (x :: s) t + 1))
      (editDistance s t + if x ≠ y then 1 else 0) with h | h
    · rw [show Nat.min (Nat.min (editDistance s (y :: t) + 1) (editDistance (x :: s) t + 1))
          (editDistance s t + if x ≠ y then 1 else 0) =
          Nat.min (editDistance s (y :: t) + 1) (editDistance (x :: s) t + 1) from
        Nat.min_eq_left h]
      rcases Nat.le_total (editDistance s (y :: t) + 1) (editDistance (x :: s) t + 1) with h' | h'
      · rw [show Nat.min (editDistance s (y :: t) + 1) (editDistance (x :: s) t + 1) =
          editDistance s (y :: t) + 1 from Nat.min_eq_left h']
        exact h1
      · rw [show Nat.min (editDistance s (y :: t) + 1) (editDistance (x :: s) t + 1) =
          editDistance (x :: s) t + 1 from Nat.min_eq_right h']
        exact h2
    · rw [show Nat.min (Nat.min (editDistance s (y :: t) + 1) (editDistance (x :: s) t + 1))
          (editDistance s t + if x ≠ y then 1 else 0) =
          editDistance s t + if x ≠ y then 1 else 0 from Nat.min_eq_right h]
      exact h3
termination_by s t => s.length + t.length

theorem alignment_snoc_delete {α : Type} [DecidableEq α] (x : α) {s t : List α} {n : Nat}
    (h : Alignment s t n) : Alignment (s ++ [x]) t (n + 1) := by
  induction h with
  | nil => exact Alignment.delete x Alignment.nil
  | delete a _ ih => exact Alignment.delete a ih
  | insert b _ ih => exact Alignment.insert b ih
  | substitute a b _ ih =>
    rw [Nat.add_right_comm]
    exact Alignment.substitute a b ih

theorem alignment_snoc_insert {α : Type} [DecidableEq α] (y : α) {s t : List α} {n : Nat}
    (h : Alignment s t n) : Alignment s (t ++ [y]) (n + 1) := by
  induction h with
  | nil => exact Alignment.insert y Alignment.nil
  | delete a _ ih => exact Alignment.delete a ih
  | insert b _ ih => exact Alignment.insert b ih
  | substitute a b _ ih =>
    rw [Nat.add_right_comm]
    exact Alignment.substitute a b ih

theorem alignment_snoc_substitute {α : Type} [DecidableEq α] (x y : α) {s t : List α} {n : Nat}
    (h : Alignment s t n) :
    Alignment (s ++ [x]) (t ++ [y]) (n + if x ≠ y then 1 else 0) := by
  induction h with
  | nil =>
    have := Alignment.substitute x y (Alignment.nil (α := α))
    simpa using this
  | delete a _ ih =>
    rw [Nat.add_right_comm]
    exact Alignment.delete a ih
  | insert b _ ih =>
    rw [Nat.add_right_comm]
    exact Alignment.insert b ih
  | substitute a b _ ih =>
    rw [Nat.add_right_comm]
    exact Alignment.substitute a b ih

theorem alignment_reverse {α : Type} [DecidableEq α] {s t : List α} {n : Nat}
    (h : Alignment s t n) : Alignment s.reverse t.reverse n := by
  induction h with
  | nil => exact Alignment.nil
  | delete x _ ih =>
    rw [List.reverse_cons]
    exact alignment_snoc_delete x ih
  | insert y _ ih =>
    rw [List.reverse_cons]
    exact alignment_snoc_insert y ih
  | substitute x y _ ih =>
    rw [List.reverse_cons, List.reverse_cons]
    exact alignment_snoc_substitute x y ih

theorem editDistance_reverse {α : Type} [DecidableEq α] (s t : List α) :
    editDistance s.reverse t.reverse = editDistance s t := by
  apply Nat.le_antisymm
  · exact editDistance_le_of_alignment (alignment_reverse (alignment_editDistance s t))
  · have := editDistance_le_of_alignment
      (alignment_reverse (alignment_editDistance s.reverse t.reverse))
    simpa using this

theorem editDistance_snoc_snoc {α : Type} [DecidableEq α] (x y : α) (s t : List α) :
    editDistance (s ++ [x]) (t ++ [y]) =
      Nat.min (Nat.min (editDistance s (t ++ [y]) + 1) (editDistance (s ++ [x]) t + 1))
        (editDistance s t + if x ≠ y then 1 else 0) := by
  rw [← editDistance_reverse (s ++ [x]) (t ++ [y]), ← editDistance_reverse s (t ++ [y]),
    ← editDistance_reverse (s ++ [x]) t, ← editDistance_reverse s t]
  simp only [List.reverse_append, List.reverse_cons, List.reverse_nil, List.nil_append,
    List.singleton_append]
  exact editDistance_cons_cons x y s.reverse t.reverse

/-! ## The matrix of `levenshteinDistance` -/

theorem min_eq_natMin (a b : Nat) : GitSnap.min a b = Nat.min a b := by
  unfold GitSnap.min
  split_ifs with h
  · exact (Nat.min_eq_left (Nat.le_of_lt h)).symm
  · exact (Nat.min_eq_right (Nat.le_of_not_lt h)).symm

theorem dims_replicate (n k : Nat) : Dims (List.replicate n (List.replicate k 0)) n k := by
  refine ⟨List.length_replicate _ _, ?_⟩
  intro row hrow
  rw [List.eq_of_mem_replicate hrow, List.length_replicate]

theorem dims_setCell (matrix : List (List Nat)) (n k i j v : Nat) (h : Dims matrix n k)
    (hi : i < n) : Dims (setCell matrix i j v) n k := by
  obtain ⟨hlen, hrows⟩ := h
  unfold setCell
  refine ⟨by rw [List.length_set, hlen], ?_⟩
  intro row hrow
  rcases List.mem_or_eq_of_mem_set hrow with hmem | heq
  · exact hrows row hmem
  · rw [heq, List.length_set]
    apply hrows
    rw [List.getD_eq_getElem _ _ (by omega)]
    exact List.getElem_mem _

theorem getCell_setCell (matrix : List (List Nat)) (n k i j v a b : Nat) (h : Dims matrix n k)
    (hi : i < n) (hj : j < k) :
    getCell (setCell matrix i j v) a b = if a = i ∧ b = j then v else getCell matrix a b := by
  obtain ⟨hlen, hrows⟩ := h
  have hrow : (matrix.getD i []).length = k := by
    apply hrows
    rw [List.getD_eq_getElem _ _ (by omega)]
    exact List.getElem_mem _
  unfold getCell setCell
  simp only [List.getD_eq_getElem?_getD]
  by_cases ha : a = i
  · subst ha
    rw [List.getElem?_set_self (by omega)]
    simp only [Option.getD_some]
    by_cases hb : b = j
    · subst hb
      rw [List.getElem?_set_self (by rw [← List.getD_eq_getElem?_getD, hrow]; exact hj)]
      simp
    · rw [List.getElem?_set_ne (fun h => hb h.symm)]
      simp [hb]
  · rw [List.getElem?_set_ne (fun h => ha h.symm)]
    simp [ha]

theorem foldl_range'_inv {σ : Type} (P : Nat → σ → Prop) (f : σ → Nat → σ) :
    ∀ (n s : Nat) (init : σ), P s init →
      (∀ j st, s ≤ j → j < s + n → P j st → P (j + 1) (f st j)) →
        P (s + n) ((List.range' s n).foldl f init)
  | 0, s, init, h, _ => by simpa using h
  | n + 1, s, init, h, hstep => by
    rw [List.range'_succ, List.foldl_cons]
    have := foldl_range'_inv P f n (s + 1) (f init s) (hstep s init (le_refl _) (by omega) h)
      (fun j st hj1 hj2 hP => hstep j st (by omega) (by omega) hP)
    rw [show s + (n + 1) = s + 1 + n by omega]
    exact this

theorem editDistance_take_zero_left (b1 b2 : List UInt8) (b : Nat) (hb : b ≤ b2.length) :
    editDistance (b1.take 0) (b2.take b) = b := by
  rw [List.take_zero, editDistance_nil_left, List.length_take]
  omega

theorem editDistance_take_zero_right (b1 b2 : List UInt8) (a : Nat) (ha : a ≤ b1.length) :
    editDistance (b1.take a) (b2.take 0) = a := by
  rw [List.take_zero, editDistance_nil_right, List.length_take]
  omega

theorem editDistance_take_succ (b1 b2 : List UInt8) (a b : Nat) (ha : a < b1.length)
    (hb : b < b2.length) :
    editDistance (b1.take (a + 1)) (b2.take (b + 1)) =
      Nat.min
        (Nat.min (editDistance (b1.take a) (b2.take (b + 1)) + 1)
          (editDistance (b1.take (a + 1)) (b2.take b) + 1))
        (editDistance (b1.take a) (b2.take b) + if b1[a]? ≠ b2[b]? then 1 else 0) := by
  have h1 : b1.take (a + 1) = b1.take a ++ [b1[a]] := by
    rw [List.take_succ, List.getElem?_eq_getElem ha]
    rfl
  have h2 : b2.take (b + 1) = b2.take b ++ [b2[b]] := by
    rw [List.take_succ, List.getElem?_eq_getElem hb]
    rfl
  rw [h1, h2, editDistance_snoc_snoc, List.getElem?_eq_getElem ha, List.getElem?_eq_getElem hb]
  simp only [ne_eq, Option.some.injEq]

theorem filled_init (b1 b2 : List UInt8) :
    Filled b1 b2
      ((List.range (b2.length + 1)).foldl (fun m j => setCell m 0 j j)
        ((List.range (b1.length + 1)).foldl (fun m i => setCell m i 0 i)
          (List.replicate (b1.length + 1) (List.replicate (b2.length + 1) 0)))) 1 1 := by
  have hcol := foldl_range'_inv
    (fun i m => Dims m (b1.length + 1) (b2.length + 1) ∧ ∀ a, a < i → getCell m a 0 = a)
    (fun m i => setCell m i 0 i) (b1.length + 1) 0
    (List.replicate (b1.length + 1) (List.replicate (b2.length + 1) 0))
    ⟨dims_replicate _ _, fun a ha => by omega⟩
    (by
      intro j st _ hj ⟨hd, hc⟩
      refine ⟨dims_setCell st _ _ j 0 j hd (by omega), ?_⟩
      intro a ha
      rw [getCell_setCell st _ _ j 0 j a 0 hd (by omega) (by omega)]
      by_cases haj : a = j
      · simp [haj]
      · rw [if_neg (by simp [haj])]
        exact hc a (by omega))
  rw [← List.range_eq_range'] at hcol
  obtain ⟨hd1, hc1⟩ := hcol
  have hrow := foldl_range'_inv
    (fun j m => Dims m (b1.length + 1) (b2.length + 1) ∧
      (∀ a, a ≤ b1.length → getCell m a 0 = a) ∧ ∀ b, b < j → getCell m 0 b = b)
    (fun m j => setCell m 0 j j) (b2.length + 1) 0
    ((List.range (b1.length + 1)).foldl (fun m i => setCell m i 0 i)
      (List.replicate (b1.length + 1) (List.replicate (b2.length + 1) 0)))
    ⟨hd1, fun a ha => hc1 a (by omega), fun b hb => by omega⟩
    (by
      intro j st _ hj ⟨hd, hc, hr⟩
      refine ⟨dims_setCell st _ _ 0 j j hd (by omega), ?_, ?_⟩
      · intro a ha
        rw [getCell_setCell st _ _ 0 j j a 0 hd (by omega) (by omega)]
        by_cases h0 : a = 0 ∧ 0 = j
        · rw [if_pos h0]
          omega
        · rw [if_neg h0]
          exact hc a ha
      · intro b hb
        rw [getCell_setCell st _ _ 0 j j 0 b hd (by omega) (by omega)]
        by_cases hbj : b = j
        · simp [hbj]
        · rw [if_neg (by simp [hbj])]
          exact hr b (by omega))
  rw [← List.range_eq_range'] at hrow
  obtain ⟨hd2, hc2, hr2⟩ := hrow
  refine ⟨hd2, ?_⟩
  intro a b ha hb hab
  have h0 : a = 0 ∨ b = 0 := by omega
  rcases h0 with h0 | h0
  · subst h0
    rw [hr2 b (by omega), editDistance_take_zero_left b1 b2 b hb]
  · subst h0
    rw [hc2 a ha, editDistance_take_zero_right b1 b2 a ha]

theorem filled_step (b1 b2 : List UInt8) (matrix : List (List Nat)) (i j : Nat)
    (hi1 : 1 ≤ i) (hi : i ≤ b1.length) (hj1 : 1 ≤ j) (hj : j ≤ b2.length)
    (h : Filled b1 b2 matrix i j) :
    Filled b1 b2
      (setCell matrix i j
        (GitSnap.min
          (GitSnap.min (getCell matrix (i - 1) j + 1) (getCell matrix i (j - 1) + 1))
          (getCell matrix (i - 1) (j - 1) + if b1[i - 1]? ≠ b2[j - 1]? then 1 else 0)))
      i (j + 1) := by
  obtain ⟨hd, hf⟩ := h
  refine ⟨dims_setCell matrix _ _ i j _ hd (by omega), ?_⟩
  intro a b ha hb hab
  rw [getCell_setCell matrix _ _ i j _ a b hd (by omega) (by omega)]
  by_cases hc : a = i ∧ b = j
  · rw [if_pos hc]
    obtain ⟨rfl, rfl⟩ := hc
    rw [hf (a - 1) b (by omega) hb (by omega), hf a (b - 1) ha (by omega) (by omega),
      hf (a - 1) (b - 1) (by omega) (by omega) (by omega), min_eq_natMin, min_eq_natMin]
    have := editDistance_take_succ b1 b2 (a - 1) (b - 1) (by omega) (by omega)
    rw [show a - 1 + 1 = a by omega, show b - 1 + 1 = b by omega] at this
    exact this.symm
  · rw [if_neg hc]
    exact hf a b ha hb (by omega)

theorem levenshtein_matrix (b1 b2 : List UInt8) :
    getCell
        ((List.range' 1 b1.length).foldl (fun m i =>
          (List.range' 1 b2.length).foldl (fun m j =>
            let cost := if b1[i - 1]? ≠ b2[j - 1]? then 1 else 0
            setCell m i j
              (GitSnap.min (GitSnap.min (getCell m (i - 1) j + 1) (getCell m i (j - 1) + 1))
                (getCell m (i - 1) (j - 1) + cost))) m)
          ((List.range (b2.length + 1)).foldl (fun m j => setCell m 0 j j)
            ((List.range (b1.length + 1)).foldl (fun m i => setCell m i 0 i)
              (List.replicate (b1.length + 1) (List.replicate (b2.length + 1) 0)))))
        b1.length b2.length =
      editDistance b1 b2 := by
  have houter := foldl_range'_inv (fun i m => Filled b1 b2 m i 1)
    (fun m i =>
      (List.range' 1 b2.length).foldl (fun m j =>
        let cost := if b1[i - 1]? ≠ b2[j - 1]? then 1 else 0
        setCell m i j
          (GitSnap.min (GitSnap.min (getCell m (i - 1) j + 1) (getCell m i (j - 1) + 1))
            (getCell m (i - 1) (j - 1) + cost))) m)
    b1.length 1 _ (filled_init b1 b2)
    (by
      intro i st hi1 hi hst
      have hinner := foldl_range'_inv (fun j m => Filled b1 b2 m i j)
        (fun m j =>
          let cost := if b1[i - 1]? ≠ b2[j - 1]? then 1 else 0
          setCell m i j
            (GitSnap.min (GitSnap.min (getCell m (i - 1) j + 1) (getCell m i (j - 1) + 1))
              (getCell m (i - 1) (j - 1) + cost)))
        b2.length 1 st hst
        (fun j m hj1 hj hm => filled_step b1 b2 m i j hi1 (by omega) hj1 (by omega) hm)
      obtain ⟨hd, hf⟩ := hinner
      refine ⟨hd, ?_⟩
      intro a b ha hb hab
      exact hf a b ha hb (by omega))
  obtain ⟨_, hf⟩ := houter
  rw [hf b1.length b2.length (le_refl _) (le_refl _) (by omega), List.take_length,
    List.take_length]

theorem levenshteinDistance_eq_editDistance (e : CorrelationEngine) (s1 s2 : String) :
    levenshteinDistance e s1 s2 = editDistance (goBytes s1) (goBytes s2) := by
  unfold levenshteinDistance
  simp only
  split_ifs with h1 h2
  · rw [List.length_eq_zero.mp h1, editDistance_nil_left]
  · rw [List.length_eq_zero.mp h2, editDistance_nil_right]
  · exact levenshtein_matrix (goBytes s1) (goBytes s2)

/-! ## Edit distance and sequences of edits -/

theorem editDistance_self {α : Type} [DecidableEq α] :
    ∀ s : List α, editDistance s s = 0
  | [] => by rw [editDistance_nil_left]; rfl
  | x :: s => by
    have h := editDistance_substitute_le x x s s
    rw [editDistance_self s] at h
    simpa using h

theorem le_min3_add_one (d a b c : Nat) (ha : d ≤ a + 1) (hb : d ≤ b + 1) (hc : d ≤ c + 1) :
    d ≤ Nat.min (Nat.min a b) c + 1 := by
  simp only [Nat.min_def]
  split_ifs <;> omega

theorem editDistance_le_cons_left {α : Type} [DecidableEq α] (y : α) (r : List α) :
    ∀ t : List α, editDistance r t ≤ editDistance (y :: r) t + 1
  | [] => by
    rw [editDistance_nil_right, editDistance_nil_right, List.length_cons]
    omega
  | b :: t => by
    rw [editDistance_cons_cons]
    apply le_min3_add_one
    · omega
    · have h1 := editDistance_insert_le b r t
      have h2 := editDistance_le_cons_left y r t
      omega
    · have h1 := editDistance_insert_le b r t
      omega

theorem editDistance_replace_head {α : Type} [DecidableEq α] (x y : α) (r : List α) :
    ∀ t : List α, editDistance (x :: r) t ≤ editDistance (y :: r) t + 1
  | [] => by
    rw [editDistance_nil_right, editDistance_nil_right, List.length_cons, List.length_cons]
    omega
  | b :: t => by
    rw [editDistance_cons_cons y b]
    apply le_min3_add_one
    · have h1 := editDistance_delete_le x r (b :: t)
      omega
    · have h1 := editDistance_insert_le b (x :: r) t
      have h2 := editDistance_replace_head x y r t
      omega
    · have h1 := editDistance_substitute_le x b r t
      have h2 : (if x ≠ b then 1 else 0) ≤ 1 := by split_ifs <;> omega
      omega

theorem editDistance_cons_context {α : Type} [DecidableEq α] (a : α) (s u : List α)
    (h : ∀ t : List α, editDistance s t ≤ editDistance u t + 1) :
    ∀ t : List α, editDistance (a :: s) t ≤ editDistance (a :: u) t + 1
  | [] => by
    have h0 := h []
    rw [editDistance_nil_right, editDistance_nil_right] at h0
    rw [editDistance_nil_right, editDistance_nil_right, List.length_cons, List.length_cons]
    omega
  | b :: t => by
    rw [editDistance_cons_cons a b u]
    apply le_min3_add_one
    · have h1 := editDistance_delete_le a s (b :: t)
      have h2 := h (b :: t)
      omega
    · have h1 := editDistance_insert_le b (a :: s) t
      have h2 := editDistance_cons_context a s u h t
      omega
    · have h1 := editDistance_substitute_le a b s t
      have h2 := h t
      omega

theorem editDistance_append_context {α : Type} [DecidableEq α] (s u : List α)
    (h : ∀ t : List α, editDistance s t ≤ editDistance u t + 1) :
    ∀ (l t : List α), editDistance (l ++ s) t ≤ editDistance (l ++ u) t + 1
  | [], t => h t
  | a :: l, t =>
    editDistance_cons_context a (l ++ s) (l ++ u) (editDistance_append_context s u h l) t

theorem editDistance_step {α : Type} [DecidableEq α] {s u : List α} (h : EditStep s u)
    (t : List α) : editDistance s t ≤ editDistance u t + 1 := by
  cases h with
  | insert l r y =>
    exact editDistance_append_context r (y :: r) (editDistance_le_cons_left y r) l t
  | delete l r x =>
    exact editDistance_append_context (x :: r) r (editDistance_delete_le x r) l t
  | substitute l r x y =>
    exact editDistance_append_context (x :: r) (y :: r) (editDistance_replace_head x y r) l t

theorem editDistance_le_of_path {α : Type} [DecidableEq α] {s t : List α} {n : Nat}
    (h : EditPath s t n) : editDistance s t ≤ n := by
  induction h with
  | refl s => rw [editDistance_self]
  | @step s u t n hstep _ ih =>
    have := editDistance_step hstep t
    omega

theorem editStep_cons {α : Type} (a : α) {s u : List α} (h : EditStep s u) :
    EditStep (a :: s) (a :: u) := by
  cases h with
  | insert l r y => exact EditStep.insert (a :: l) r y
  | delete l r x => exact EditStep.delete (a :: l) r x
  | substitute l r x y => exact EditStep.substitute (a :: l) r x y

theorem editPath_cons {α : Type} (a : α) {s t : List α} {n : Nat} (h : EditPath s t n) :
    EditPath (a :: s) (a :: t) n := by
  induction h with
  | refl s => exact EditPath.refl _
  | step hstep _ ih => exact EditPath.step (editStep_cons a hstep) ih

theorem editPath_of_alignment {α : Type} [DecidableEq α] {s t : List α} {n : Nat}
    (h : Alignment s t n) : EditPath s t n := by
  induction h with
  | nil => exact EditPath.refl _
  | delete x _ ih => exact EditPath.step (EditStep.delete [] _ x) ih
  | insert y _ ih => exact EditPath.step (EditStep.insert [] _ y) (editPath_cons y ih)
  | substitute x y _ ih =>
    by_cases hxy : x = y
    · subst hxy
      simpa using editPath_cons x ih
    · rw [if_pos hxy]
      exact EditPath.step (EditStep.substitute [] _ x y) (editPath_cons y ih)

/-- C12: `levenshteinDistance` is the edit distance of the two byte sequences as the
standard recursion defines it, and that is the least number of single-byte insertions,
deletions and substitutions that turn the first sequence into the second. -/
theorem levenshtein_is_edit_distance (e : CorrelationEngine) (a b : String) :
    levenshteinDistance e a b = editDistance (goBytes a) (goBytes b) ∧
      EditPath (goBytes a) (goBytes b) (levenshteinDistance e a b) ∧
      ∀ n : Nat, EditPath (goBytes a) (goBytes b) n → levenshteinDistance e a b ≤ n := by
  rw [levenshteinDistance_eq_editDistance]
  exact ⟨rfl, editPath_of_alignment (alignment_editDistance _ _),
    fun n h => editDistance_le_of_path h⟩

/-- C12 at closed inputs: deleting the first byte turns `ab` into `b`, so the distance of
`ab` and `b` is at most one. -/
theorem levenshtein_is_edit_distance_witness :
    levenshteinDistance ⟨testConfig⟩ "ab" "b" ≤ 1 :=
  (levenshtein_is_edit_distance ⟨testConfig⟩ "ab" "b").2.2 1
    (EditPath.step (EditStep.delete [] [98] 97) (EditPath.refl _))

/-- C13: the distance of a string to itself is `0`, the distance between the empty string
and a string is the length of that string in bytes, either way round, and the distance of
`kitten` and `sitting` is `3`; the other cases of the engine test come out as well. -/
theorem levenshtein_basic_values (e : CorrelationEngine) (s : String) :
    levenshteinDistance e s s = 0 ∧
      levenshteinDistance e "" s = (goBytes s).length ∧
      levenshteinDistance e s "" = (goBytes s).length ∧
      levenshteinDistance e "kitten" "sitting" = 3 ∧
      levenshteinDistance e "" "" = 0 ∧
      levenshteinDistance e "a" "" = 1 ∧
      levenshteinDistance e "" "a" = 1 ∧
      levenshteinDistance e "abc" "abc" = 0 ∧
      levenshteinDistance e "abc" "ab" = 1 ∧
      levenshteinDistance e "abc" "axc" = 1 := by
  refine ⟨?_, ?_, ?_, by rfl, by rfl, by rfl, by rfl, by rfl, by rfl, by rfl⟩
  · rw [levenshteinDistance_eq_editDistance, editDistance_self]
  · rw [levenshteinDistance_eq_editDistance]
    exact editDistance_nil_left _
  · rw [levenshteinDistance_eq_editDistance]
    exact editDistance_nil_right _

/-! ## The fuzzy strategy -/

theorem max_eq_natMax (a b : Nat) : GitSnap.max a b = Nat.max a b := by
  unfold GitSnap.max
  simp only [Nat.max_def]
  split_ifs <;> omega

theorem goBytes_eq_nil (s : String) : goBytes s = [] ↔ s = "" := by
  unfold goBytes
  constructor
  · intro h
    apply String.ext
    cases hd : s.data with
    | nil => rfl
    | cons c l =>
      rw [hd, List.flatMap_cons] at h
      have hlen := congrArg List.length h
      rw [List.length_append, String.length_utf8EncodeChar] at hlen
      have := Char.utf8Size_pos c
      simp only [List.length_nil] at hlen
      omega
  · intro h
    subst h
    rfl

theorem fuzzyMatch_iff (lib : Stdlib) (e : CorrelationEngine) (a b : String) :
    fuzzyMatch lib e a b = true ↔
      10 * levenshteinDistance e (stringsToLower lib a) (stringsToLower lib b) ≤
        3 * Nat.max (goBytes (stringsToLower lib a)).length
          (goBytes (stringsToLower lib b)).length := by
  unfold fuzzyMatch
  simp only [max_eq_natMax]
  by_cases hm : Nat.max (goBytes (stringsToLower lib a)).length
      (goBytes (stringsToLower lib b)).length = 0
  · have h1 : (goBytes (stringsToLower lib a)).length = 0 := by
      have hm' := hm
      simp only [Nat.max_def] at hm'
      split_ifs at hm' <;> omega
    have h2 : (goBytes (stringsToLower lib b)).length = 0 := by
      have hm' := hm
      simp only [Nat.max_def] at hm'
      split_ifs at hm' <;> omega
    have hl : levenshteinDistance e (stringsToLower lib a) (stringsToLower lib b) = 0 := by
      rw [levenshteinDistance_eq_editDistance, List.length_eq_zero.mp h1,
        List.length_eq_zero.mp h2]
      exact editDistance_nil_left _
    simp [hm, hl]
  · have hq : (0 : ℚ) < ((Nat.max (goBytes (stringsToLower lib a)).length
        (goBytes (stringsToLower lib b)).length : Nat) : ℚ) := by
      exact_mod_cast Nat.pos_of_ne_zero hm
    have hne : ((Nat.max (goBytes (stringsToLower lib a)).length
        (goBytes (stringsToLower lib b)).length : Nat) : ℚ) ≠ 0 := ne_of_gt hq
    rw [if_neg hne]
    simp only [ge_iff_le, decide_eq_true_eq]
    rw [le_sub_iff_add_le, ← le_sub_iff_add_le', div_le_iff₀ hq]
    constructor
    · intro h
      have h' : (10 : ℚ) * (levenshteinDistance e (stringsToLower lib a)
          (stringsToLower lib b) : ℚ) ≤ 3 * ((Nat.max (goBytes (stringsToLower lib a)).length
          (goBytes (stringsToLower lib b)).length : Nat) : ℚ) := by linarith
      exact_mod_cast h'
    · intro h
      have h' : (10 : ℚ) * (levenshteinDistance e (stringsToLower lib a)
          (stringsToLower lib b) : ℚ) ≤ 3 * ((Nat.max (goBytes (stringsToLower lib a)).length
          (goBytes (stringsToLower lib b)).length : Nat) : ℚ) := by exact_mod_cast h
      linarith

theorem fuzzyMatch_of_values (lib : Stdlib) (e : CorrelationEngine) (a b a' b' : String)
    (d m : Nat) (ha : stringsToLower lib a = a') (hb : stringsToLower lib b = b')
    (hd : levenshteinDistance e a' b' = d)
    (hm : Nat.max (goBytes a').length (goBytes b').length = m) :
    fuzzyMatch lib e a b = decide (10 * d ≤ 3 * m) := by
  have h := fuzzyMatch_iff lib e a b
  rw [ha, hb, hd, hm] at h
  by_cases hle : 10 * d ≤ 3 * m
  · rw [decide_eq_true hle]
    exact h.mpr hle
  · rw [decide_eq_false hle, ← Bool.not_eq_true]
    exact fun hf => hle (h.mp hf)

/-- C14: `fuzzyMatch` holds exactly when the lower-cased strings are both empty or the
similarity `1 - distance / max length` of the lower-cased strings is at least `0.7`, that
is when `10·distance ≤ 3·max length`; the five cases of the engine test come out as
expected. -/
theorem fuzzyMatch_threshold (lib : Stdlib) (e : CorrelationEngine) (a b : String) :
    (fuzzyMatch lib e a b = true ↔
        (stringsToLower lib a = "" ∧ stringsToLower lib b = "") ∨
          (0 < Nat.max (goBytes (stringsToLower lib a)).length
              (goBytes (stringsToLower lib b)).length ∧
            (7 / 10 : ℚ) ≤
              1 - (levenshteinDistance e (stringsToLower lib a) (stringsToLower lib b) : ℚ) /
                ((Nat.max (goBytes (stringsToLower lib a)).length
                  (goBytes (stringsToLower lib b)).length : Nat) : ℚ))) ∧
      (fuzzyMatch lib e a b = true ↔
        10 * levenshteinDistance e (stringsToLower lib a) (stringsToLower lib b) ≤
          3 * Nat.max (goBytes (stringsToLower lib a)).length
            (goBytes (stringsToLower lib b)).length) ∧
      fuzzyMatch lib e "" "" = true ∧
      fuzzyMatch lib e "john" "jon" = true ∧
      fuzzyMatch lib e "john" "johny" = true ∧
      fuzzyMatch lib e "john" "john" = true ∧
      fuzzyMatch lib e "john" "xyz" = false ∧
      fuzzyMatch lib e "a" "b" = false := by
  refine ⟨?_, fuzzyMatch_iff lib e a b,
    (fuzzyMatch_of_values lib e "" "" "" "" 0 0 (by rfl) (by rfl) (by rfl) (by rfl)).trans
      (by decide),
    (fuzzyMatch_of_values lib e "john" "jon" "john" "jon" 1 4 (by rfl) (by rfl) (by rfl)
      (by rfl)).trans (by decide),
    (fuzzyMatch_of_values lib e "john" "johny" "john" "johny" 1 5 (by rfl) (by rfl) (by rfl)
      (by rfl)).trans (by decide),
    (fuzzyMatch_of_values lib e "john" "john" "john" "john" 0 4 (by rfl) (by rfl) (by rfl)
      (by rfl)).trans (by decide),
    (fuzzyMatch_of_values lib e "john" "xyz" "john" "xyz" 4 4 (by rfl) (by rfl) (by rfl)
      (by rfl)).trans (by decide),
    (fuzzyMatch_of_values lib e "a" "b" "a" "b" 1 1 (by rfl) (by rfl) (by rfl)
      (by rfl)).trans (by decide)⟩
  rw [fuzzyMatch_iff]
  by_cases hm : Nat.max (goBytes (stringsToLower lib a)).length
      (goBytes (stringsToLower lib b)).length = 0
  · have hm' := hm
    simp only [Nat.max_def] at hm'
    have h1 : (goBytes (stringsToLower lib a)).length = 0 := by
      split_ifs at hm' <;> omega
    have h2 : (goBytes (stringsToLower lib b)).length = 0 := by
      split_ifs at hm' <;> omega
    have hl : levenshteinDistance e (stringsToLower lib a) (stringsToLower lib b) = 0 := by
      rw [levenshteinDistance_eq_editDistance, List.length_eq_zero.mp h1,
        List.length_eq_zero.mp h2]
      exact editDistance_nil_left _
    rw [hm, hl]
    constructor
    · intro _
      exact Or.inl ⟨(goBytes_eq_nil _).mp (List.length_eq_zero.mp h1),
        (goBytes_eq_nil _).mp (List.length_eq_zero.mp h2)⟩
    · intro _
      exact le_refl _
  · have hpos : 0 < Nat.max (goBytes (stringsToLower lib a)).length
        (goBytes (stringsToLower lib b)).length := Nat.pos_of_ne_zero hm
    have hq : (0 : ℚ) < ((Nat.max (goBytes (stringsToLower lib a)).length
        (goBytes (stringsToLower lib b)).length : Nat) : ℚ) := by exact_mod_cast hpos
    have hnot : ¬ (stringsToLower lib a = "" ∧ stringsToLower lib b = "") := by
      rintro ⟨ha, hb⟩
      apply hm
      rw [ha, hb]
      rfl
    have hkey : (7 / 10 : ℚ) ≤
        1 - (levenshteinDistance e (stringsToLower lib a) (stringsToLower lib b) : ℚ) /
          ((Nat.max (goBytes (stringsToLower lib a)).length
            (goBytes (stringsToLower lib b)).length : Nat) : ℚ) ↔
        10 * levenshteinDistance e (stringsToLower lib a) (stringsToLower lib b) ≤
          3 * Nat.max (goBytes (stringsToLower lib a)).length
            (goBytes (stringsToLower lib b)).length := by
      rw [le_sub_iff_add_le, ← le_sub_iff_add_le', div_le_iff₀ hq]
      constructor
      · intro h
        have h' : (10 : ℚ) * (levenshteinDistance e (stringsToLower lib a)
            (stringsToLower lib b) : ℚ) ≤
            3 * ((Nat.max (goBytes (stringsToLower lib a)).length
              (goBytes (stringsToLower lib b)).length : Nat) : ℚ) := by linarith
        exact_mod_cast h'
      · intro h
        have h' : (10 : ℚ) * (levenshteinDistance e (stringsToLower lib a)
            (stringsToLower lib b) : ℚ) ≤
            3 * ((Nat.max (goBytes (stringsToLower lib a)).length
              (goBytes (stringsToLower lib b)).length : Nat) : ℚ) := by exact_mod_cast h
        linarith
    constructor
    · intro h
      exact Or.inr ⟨hpos, hkey.mpr h⟩
    · rintro (h | ⟨_, h⟩)
      · exact absurd h hnot
      · exact hkey.mp h

/-! ## Match types -/

/-- C21: `String` names the four strategies `exact`, `contains`, `regex` and `fuzzy` and
gives `unknown` for every other value; `UnmarshalYAML` applied to the name of one of the
four strategies yields that strategy, and it decodes every other string, `unknown`
included, to EXACT without an error. -/
theorem matchType_names (m m0 : MatchType) (s : String) :
    MatchType_String EXACT = "exact" ∧
      MatchType_String CONTAINS = "contains" ∧
      MatchType_String REGEX = "regex" ∧
      MatchType_String FUZZY = "fuzzy" ∧
      (m ∉ strategies → MatchType_String m = "unknown") ∧
      MatchType_String 999 = "unknown" ∧
      (m ∈ strategies →
        MatchType_UnmarshalYAML m0 (Except.ok (MatchType_String m)) = Except.ok m) ∧
      (s ∉ strategies.map MatchType_String →
        MatchType_UnmarshalYAML m0 (Except.ok s) = Except.ok EXACT) ∧
      MatchType_UnmarshalYAML m0 (Except.ok "unknown") = Except.ok EXACT := by
  refine ⟨rfl, rfl, rfl, rfl, ?_, rfl, ?_, ?_, rfl⟩
  · intro h
    simp only [strategies, List.mem_cons, List.mem_singleton, List.not_mem_nil, or_false,
      not_or] at h
    obtain ⟨h1, h2, h3, h4⟩ := h
    simp [MatchType_String, h1, h2, h3, h4]
  · intro h
    simp only [strategies, List.mem_cons, List.mem_singleton, List.not_mem_nil, or_false] at h
    rcases h with rfl | rfl | rfl | rfl <;> rfl
  · intro h
    have h' : s ≠ "exact" ∧ s ≠ "contains" ∧ s ≠ "regex" ∧ s ≠ "fuzzy" := by
      refine ⟨?_, ?_, ?_, ?_⟩ <;> intro hs <;> apply h <;> rw [hs] <;> decide
    obtain ⟨h1, h2, h3, h4⟩ := h'
    simp [MatchType_UnmarshalYAML, h1, h2, h3, h4]

/-- C21 at closed inputs: the value 7 is named `unknown`, the name of REGEX decodes to
REGEX, and the name `similar` decodes to EXACT. -/
theorem matchType_names_witness :
    MatchType_String 7 = "unknown" ∧
      MatchType_UnmarshalYAML FUZZY (Except.ok (MatchType_String REGEX)) = Except.ok REGEX ∧
      MatchType_UnmarshalYAML FUZZY (Except.ok "similar") = Except.ok EXACT :=
  ⟨(matchType_names 7 FUZZY "similar").2.2.2.2.1 (by decide),
   (matchType_names REGEX FUZZY "similar").2.2.2.2.2.2.1 (by decide),
   (matchType_names 7 FUZZY "similar").2.2.2.2.2.2.2.1 (by decide)⟩

/-! ## `parseValue` -/

theorem strconvAtoi_empty : strconvAtoi "" = none := by rfl

theorem parseValue_cases (parseFloat : String → Option String) (s : String) :
    (stringsTrimSpace s = "" → parseValue parseFloat s = AttrValue.str "") ∧
      (∀ n : Int, strconvAtoi (stringsTrimSpace s) = some n →
        parseValue parseFloat s = AttrValue.int n) ∧
      (stringsTrimSpace s ≠ "" → strconvAtoi (stringsTrimSpace s) = none →
        ∀ f : String, parseFloat (stringsTrimSpace s) = some f →
          parseValue parseFloat s = AttrValue.other f) ∧
      (stringsTrimSpace s ≠ "" → strconvAtoi (stringsTrimSpace s) = none →
        parseFloat (stringsTrimSpace s) = none →
          ∀ b : Bool, strconvParseBool (stringsTrimSpace s) = some b →
            parseValue parseFloat s = AttrValue.bool b) ∧
      (stringsTrimSpace s ≠ "" → strconvAtoi (stringsTrimSpace s) = none →
        parseFloat (stringsTrimSpace s) = none →
          strconvParseBool (stringsTrimSpace s) = none →
            parseValue parseFloat s = AttrValue.str (stringsTrimSpace s)) := by
  refine ⟨?_, ?_, ?_, ?_, ?_⟩
  · intro h
    simp [parseValue, h]
  · intro n h
    have hne : stringsTrimSpace s ≠ "" := by
      intro h0
      rw [h0, strconvAtoi_empty] at h
      cases h
    simp [parseValue, hne, h]
  · intro hne h1 f h2
    simp [parseValue, hne, h1, h2]
  · intro hne h1 h2 b h3
    simp [parseValue, hne, h1, h2, h3]
  · intro hne h1 h2 h3
    simp [parseValue, hne, h1, h2, h3]

/-- C22, as stated, fails: the decimal integer literal `9223372036854775808` does not fit
a 64-bit integer, `strconv.Atoi` reports a range error, and `parseValue` returns the float
that `strconv.ParseFloat` reads, not the integer. -/
theorem parseValue_big_literal :
    strconvAtoi "9223372036854775808" = none ∧
      parseValue sampleParseFloat "9223372036854775808" =
        AttrValue.other "9.223372036854776e+18" ∧
      parseValue sampleParseFloat "9223372036854775808" ≠
        AttrValue.int 9223372036854775808 := by
  refine ⟨by rfl, by rfl, ?_⟩
  intro h
  have h' : parseValue sampleParseFloat "9223372036854775808" =
      AttrValue.other "9.223372036854776e+18" := by rfl
  rw [h'] at h
  cases h

/-- C22, amended: `parseValue` trims the white space around the text and returns the empty
string if nothing is left; the integer if the text is an optionally signed run of decimal
digits whose value fits a 64-bit integer, which is when `strconv.Atoi` succeeds; otherwise
the float if `strconv.ParseFloat` reads one; otherwise the boolean if `strconv.ParseBool`
reads one; otherwise the trimmed text. The integer comes first, so `1` and `0` are
integers; the cases of the parser test come out as expected. -/
theorem parseValue_precedence (parseFloat : String → Option String) (s : String) :
    (stringsTrimSpace s = "" → parseValue parseFloat s = AttrValue.str "") ∧
      (∀ n : Int, strconvAtoi (stringsTrimSpace s) = some n →
        parseValue parseFloat s = AttrValue.int n) ∧
      (stringsTrimSpace s ≠ "" → strconvAtoi (stringsTrimSpace s) = none →
        ∀ f : String, parseFloat (stringsTrimSpace s) = some f →
          parseValue parseFloat s = AttrValue.other f) ∧
      (stringsTrimSpace s ≠ "" → strconvAtoi (stringsTrimSpace s) = none →
        parseFloat (stringsTrimSpace s) = none →
          ∀ b : Bool, strconvParseBool (stringsTrimSpace s) = some b →
            parseValue parseFloat s = AttrValue.bool b) ∧
      (stringsTrimSpace s ≠ "" → strconvAtoi (stringsTrimSpace s) = none →
        parseFloat (stringsTrimSpace s) = none →
          strconvParseBool (stringsTrimSpace s) = none →
            parseValue parseFloat s = AttrValue.str (stringsTrimSpace s)) ∧
      parseValue parseFloat "42" = AttrValue.int 42 ∧
      parseValue parseFloat "1" = AttrValue.int 1 ∧
      parseValue parseFloat "0" = AttrValue.int 0 ∧
      parseValue parseFloat "-7" = AttrValue.int (-7) ∧
      parseValue parseFloat "9223372036854775807" = AttrValue.int 9223372036854775807 ∧
      parseValue parseFloat "" = AttrValue.str "" ∧
      (parseFloat "3.14" = some "3.14" → parseValue parseFloat "3.14" = AttrValue.other "3.14") ∧
      (parseFloat "true" = none → parseValue parseFloat "true" = AttrValue.bool true) ∧
      (parseFloat "false" = none → parseValue parseFloat "false" = AttrValue.bool false) ∧
      (parseFloat "hello" = none → parseValue parseFloat "hello" = AttrValue.str "hello") ∧
      (parseFloat "trimmed" = none →
        parseValue parseFloat " trimmed " = AttrValue.str "trimmed") := by
  obtain ⟨h1, h2, h3, h4, h5⟩ := parseValue_cases parseFloat s
  refine ⟨h1, h2, h3, h4, h5, ?_, ?_, ?_, ?_, ?_, ?_, ?_, ?_, ?_, ?_, ?_⟩
  · exact (parseValue_cases parseFloat "42").2.1 42 (by rfl)
  · exact (parseValue_cases parseFloat "1").2.1 1 (by rfl)
  · exact (parseValue_cases parseFloat "0").2.1 0 (by rfl)
  · exact (parseValue_cases parseFloat "-7").2.1 (-7) (by rfl)
  · exact (parseValue_cases parseFloat "9223372036854775807").2.1 9223372036854775807 (by rfl)
  · exact (parseValue_cases parseFloat "").1 (by rfl)
  · intro h
    exact (parseValue_cases parseFloat "3.14").2.2.1 (by decide) (by rfl) "3.14" h
  · intro h
    exact (parseValue_cases parseFloat "true").2.2.2.1 (by decide) (by rfl) h true (by rfl)
  · intro h
    exact (parseValue_cases parseFloat "false").2.2.2.1 (by decide) (by rfl) h false (by rfl)
  · intro h
    exact (parseValue_cases parseFloat "hello").2.2.2.2 (by decide) (by rfl) h (by rfl)
  · intro h
    exact (parseValue_cases parseFloat " trimmed ").2.2.2.2 (by decide) (by rfl) h (by rfl)

/-- C22, amended, at closed inputs, with a stand-in for `strconv.ParseFloat` that knows
`3.14`: the texts ` 42 `, `3.14`, `True` and `hello` give an integer, a float, a boolean
and a string. -/
theorem parseValue_precedence_witness :
    parseValue sampleParseFloat " 42 " = AttrValue.int 42 ∧
      parseValue sampleParseFloat "3.14" = AttrValue.other "3.14" ∧
      parseValue sampleParseFloat "True" = AttrValue.bool true ∧
      parseValue sampleParseFloat "hello" = AttrValue.str "hello" :=
  ⟨(parseValue_precedence sampleParseFloat " 42 ").2.1 42 (by rfl),
   (parseValue_precedence sampleParseFloat "3.14").2.2.1 (by decide) (by rfl) "3.14" (by rfl),
   (parseValue_precedence sampleParseFloat "True").2.2.2.1 (by decide) (by rfl) (by rfl) true
      (by rfl),
   (parseValue_precedence sampleParseFloat "hello").2.2.2.2.1 (by decide) (by rfl) (by rfl)
      (by rfl)⟩

/-- C26, as stated, fails: the cell `007` is read as the integer 7, whose text is `7`, and
the cells `TRUE` and `t` are read as the boolean true, whose text is `true`; the cell
`1.0` is read as a float whose text is `1`. An EXACT rule compares these texts, so the
cell `007` does not match a commit field `007`. -/
theorem csv_text_not_preserved :
    sprintfV (parseValue sampleParseFloat "007") = "7" ∧
      sprintfV (parseValue sampleParseFloat "TRUE") = "true" ∧
      sprintfV (parseValue sampleParseFloat "t") = "true" ∧
      sprintfV (parseValue sampleParseFloat "1.0") = "1" ∧
      sprintfV (parseValue sampleParseFloat "007") ≠ stringsTrimSpace "007" ∧
      getEventValue ⟨testConfig⟩ (csvEvent sampleParseFloat "user_id" "007") "user_id" = "7" ∧
      matchValues plainLib ⟨testConfig⟩
        (getEventValue ⟨testConfig⟩ (csvEvent sampleParseFloat "user_id" "007") "user_id")
        "007" EXACT = false := by
  refine ⟨by rfl, by rfl, by rfl, by rfl, by decide, by rfl, by rfl⟩

/-- C26, amended: the text the engine compares for a CSV cell is the default text of the
value `parseValue` reads from it. That is the trimmed cell text when nothing is left after
trimming or when the text is read neither as an integer nor as a float nor as a boolean;
for an integer it is the decimal text of the value, for a boolean `true` or `false`, for a
float the text of the float; so it is the trimmed cell text only when that text is already
the default text of its value, as with `42`, `-7`, `true` and `hello`. -/
theorem csv_text_canonical (parseFloat : String → Option String) (s : String) :
    (stringsTrimSpace s = "" → sprintfV (parseValue parseFloat s) = stringsTrimSpace s) ∧
      (strconvAtoi (stringsTrimSpace s) = none → parseFloat (stringsTrimSpace s) = none →
        strconvParseBool (stringsTrimSpace s) = none →
          sprintfV (parseValue parseFloat s) = stringsTrimSpace s) ∧
      (∀ n : Int, strconvAtoi (stringsTrimSpace s) = some n →
        sprintfV (parseValue parseFloat s) = strconvItoa n ∧
          (sprintfV (parseValue parseFloat s) = stringsTrimSpace s ↔
            stringsTrimSpace s = strconvItoa n)) ∧
      (stringsTrimSpace s ≠ "" → strconvAtoi (stringsTrimSpace s) = none →
        ∀ f : String, parseFloat (stringsTrimSpace s) = some f →
          sprintfV (parseValue parseFloat s) = f) ∧
      (stringsTrimSpace s ≠ "" → strconvAtoi (stringsTrimSpace s) = none →
        parseFloat (stringsTrimSpace s) = none →
          ∀ b : Bool, strconvParseBool (stringsTrimSpace s) = some b →
            sprintfV (parseValue parseFloat s) = (if b then "true" else "false")) ∧
      sprintfV (parseValue parseFloat "42") = "42" ∧
      sprintfV (parseValue parseFloat " -7 ") = "-7" ∧
      sprintfV (parseValue parseFloat "007") = "7" ∧
      sprintfV (parseValue parseFloat "+7") = "7" ∧
      (parseFloat "true" = none → sprintfV (parseValue parseFloat "true") = "true") ∧
      (parseFloat "TRUE" = none → sprintfV (parseValue parseFloat "TRUE") = "true") ∧
      (parseFloat "t" = none → sprintfV (parseValue parseFloat "t") = "true") ∧
      (parseFloat "hello" = none → sprintfV (parseValue parseFloat "hello") = "hello") := by
  obtain ⟨h1, h2, h3, h4, h5⟩ := parseValue_cases parseFloat s
  have hint : ∀ (t : String) (n : Int), strconvAtoi (stringsTrimSpace t) = some n →
      sprintfV (parseValue parseFloat t) = strconvItoa n := by
    intro t n h
    rw [(parseValue_cases parseFloat t).2.1 n h]
    rfl
  have hbool : ∀ (t : String) (b : Bool), stringsTrimSpace t ≠ "" →
      strconvAtoi (stringsTrimSpace t) = none → parseFloat (stringsTrimSpace t) = none →
      strconvParseBool (stringsTrimSpace t) = some b →
      sprintfV (parseValue parseFloat t) = (if b then "true" else "false") := by
    intro t b hne ha hf hb
    rw [(parseValue_cases parseFloat t).2.2.2.1 hne ha hf b hb]
    rfl
  refine ⟨?_, ?_, ?_, ?_, ?_, (hint "42" 42 (by rfl)).trans (by decide),
    (hint " -7 " (-7) (by rfl)).trans (by decide), (hint "007" 7 (by rfl)).trans (by decide),
    (hint "+7" 7 (by rfl)).trans (by decide), ?_, ?_, ?_, ?_⟩
  · intro h
    rw [h1 h, h]
    rfl
  · intro ha hf hb
    by_cases hne : stringsTrimSpace s = ""
    · rw [h1 hne, hne]
      rfl
    · rw [h5 hne ha hf hb]
      rfl
  · intro n hn
    have := hint s n hn
    exact ⟨this, by rw [this]; exact eq_comm⟩
  · intro hne ha f hf
    rw [h3 hne ha f hf]
    rfl
  · intro hne ha hf b hb
    exact hbool s b hne ha hf hb
  · intro h
    exact hbool "true" true (by decide) (by rfl) h (by rfl)
  · intro h
    exact hbool "TRUE" true (by decide) (by rfl) h (by rfl)
  · intro h
    exact hbool "t" true (by decide) (by rfl) h (by rfl)
  · intro h
    rw [(parseValue_cases parseFloat "hello").2.2.2.2 (by decide) (by rfl) h (by rfl)]
    rfl

/-- C26, amended, at closed inputs: the cell `42` keeps its text, the cell `007` does not,
and the cell `hello` keeps its text. -/
theorem csv_text_canonical_witness :
    (sprintfV (parseValue sampleParseFloat "42") = stringsTrimSpace "42" ↔
        stringsTrimSpace "42" = strconvItoa 42) ∧
      (sprintfV (parseValue sampleParseFloat "007") = stringsTrimSpace "007" ↔
        stringsTrimSpace "007" = strconvItoa 7) ∧
      sprintfV (parseValue sampleParseFloat "hello") = stringsTrimSpace "hello" :=
  ⟨((csv_text_canonical sampleParseFloat "42").2.2.1 42 (by rfl)).2,
   ((csv_text_canonical sampleParseFloat "007").2.2.1 7 (by rfl)).2,
   (csv_text_canonical sampleParseFloat "hello").2.1 (by rfl) (by rfl) (by rfl)⟩

/-! ## Symmetry and bounds of the distance -/

theorem alignment_symm {α : Type} [DecidableEq α] {s t : List α} {n : Nat}
    (h : Alignment s t n) : Alignment t s n := by
  induction h with
  | nil => exact Alignment.nil
  | delete x _ ih => exact Alignment.insert x ih
  | insert y _ ih => exact Alignment.delete y ih
  | substitute x y _ ih =>
    have h := Alignment.substitute y x ih
    have hc : (if y ≠ x then 1 else 0 : Nat) = if x ≠ y then 1 else 0 := by
      by_cases hxy : x = y
      · simp [hxy]
      · simp [hxy, Ne.symm hxy]
    rw [hc] at h
    exact h

theorem editDistance_symm {α : Type} [DecidableEq α] (s t : List α) :
    editDistance s t = editDistance t s :=
  Nat.le_antisymm
    (editDistance_le_of_alignment (alignment_symm (alignment_editDistance t s)))
    (editDistance_le_of_alignment (alignment_symm (alignment_editDistance s t)))

theorem levenshteinDistance_symm (e : CorrelationEngine) (a b : String) :
    levenshteinDistance e a b = levenshteinDistance e b a := by
  rw [levenshteinDistance_eq_editDistance, levenshteinDistance_eq_editDistance]
  exact editDistance_symm _ _

theorem fuzzyMatch_symm (lib : Stdlib) (e : CorrelationEngine) (a b : String) :
    fuzzyMatch lib e a b = fuzzyMatch lib e b a := by
  have h1 := fuzzyMatch_iff lib e a b
  have h2 := fuzzyMatch_iff lib e b a
  have hm : Nat.max (goBytes (stringsToLower lib b)).length
      (goBytes (stringsToLower lib a)).length =
      Nat.max (goBytes (stringsToLower lib a)).length
        (goBytes (stringsToLower lib b)).length := by
    simp only [Nat.max_def]
    split_ifs <;> omega
  rw [levenshteinDistance_symm e (stringsToLower lib b) (stringsToLower lib a), hm] at h2
  have h : fuzzyMatch lib e a b = true ↔ fuzzyMatch lib e b a = true := h1.trans h2.symm
  cases hx : fuzzyMatch lib e a b <;> cases hy : fuzzyMatch lib e b a <;> simp_all

/-- C23: `levenshteinDistance` is symmetric in its two strings; so is `fuzzyMatch`, and
a FUZZY comparison by `matchValues` gives the same outcome when the event value and the
commit value change places. -/
theorem levenshtein_symmetric (lib : Stdlib) (e : CorrelationEngine) (a b : String) :
    levenshteinDistance e a b = levenshteinDistance e b a ∧
      fuzzyMatch lib e a b = fuzzyMatch lib e b a ∧
      matchValues lib e a b FUZZY = matchValues lib e b a FUZZY := by
  refine ⟨levenshteinDistance_symm e a b, fuzzyMatch_symm lib e a b, ?_⟩
  by_cases h : a = "" ∨ b = ""
  · rw [matchValues_empty lib e a b FUZZY h, matchValues_empty lib e b a FUZZY h.symm]
  · have h' : ¬ (b = "" ∨ a = "") := fun hh => h hh.symm
    unfold matchValues
    rw [if_neg h, if_neg h']
    simp only [show ¬ (FUZZY = EXACT) by decide, show ¬ (FUZZY = CONTAINS) by decide,
      show ¬ (FUZZY = REGEX) by decide, if_false, if_true]
    exact fuzzyMatch_symm lib e a b

theorem alignment_length_le {α : Type} [DecidableEq α] {s t : List α} {n : Nat}
    (h : Alignment s t n) : s.length ≤ t.length + n ∧ t.length ≤ s.length + n := by
  induction h with
  | nil => simp
  | delete x _ ih =>
    simp only [List.length_cons]
    omega
  | insert y _ ih =>
    simp only [List.length_cons]
    omega
  | substitute x y _ ih =>
    simp only [List.length_cons]
    split_ifs <;> omega

theorem alignment_diagonal {α : Type} [DecidableEq α] :
    ∀ (s t : List α), ∃ n, n ≤ Nat.max s.length t.length ∧ Alignment s t n
  | [], t => ⟨t.length, by simp only [Nat.max_def, List.length_nil, List.length_cons]; split_ifs <;> omega, alignment_nil_left t⟩
  | x :: s, [] =>
    ⟨(x :: s).length, by simp only [Nat.max_def, List.length_nil, List.length_cons]; split_ifs <;> omega,
      alignment_nil_right (x :: s)⟩
  | x :: s, y :: t => by
    obtain ⟨n, hn, h⟩ := alignment_diagonal s t
    refine ⟨n + if x ≠ y then 1 else 0, ?_, Alignment.substitute x y h⟩
    simp only [List.length_cons, Nat.max_def] at hn ⊢
    split_ifs at hn ⊢ <;> omega

theorem editDistance_bounds {α : Type} [DecidableEq α] (s t : List α) :
    s.length - t.length ≤ editDistance s t ∧ t.length - s.length ≤ editDistance s t ∧
      editDistance s t ≤ Nat.max s.length t.length := by
  have h := alignment_length_le (alignment_editDistance s t)
  obtain ⟨n, hn, hal⟩ := alignment_diagonal s t
  have hle := editDistance_le_of_alignment hal
  refine ⟨by omega, by omega, le_trans hle hn⟩

theorem levenshteinDistance_bounds (e : CorrelationEngine) (a b : String) :
    (goBytes a).length - (goBytes b).length ≤ levenshteinDistance e a b ∧
      (goBytes b).length - (goBytes a).length ≤ levenshteinDistance e a b ∧
      levenshteinDistance e a b ≤ Nat.max (goBytes a).length (goBytes b).length := by
  rw [levenshteinDistance_eq_editDistance]
  exact editDistance_bounds _ _

theorem utf8Size_of_ascii (c : Char) (h : c.toNat < 128) : c.utf8Size = 1 := by
  have hle : c.val ≤ 0x7f := by
    show c.val.toNat ≤ 127
    have : c.toNat = c.val.toNat := rfl
    omega
  unfold Char.utf8Size
  simp [hle]

theorem toLower_ascii (c : Char) (h : c.toNat < 128) : c.toLower.toNat < 128 := by
  have key : ∀ n : Nat, n < 91 → (Char.ofNat (n + 32)).toNat < 128 := by decide
  unfold Char.toLower
  simp only
  split_ifs with hc
  · exact key c.toNat (by omega)
  · exact h

theorem goBytes_length_of_ascii (s : String) (h : ∀ c ∈ s.data, c.toNat < 128) :
    (goBytes s).length = s.data.length := by
  have key : ∀ l : List Char, (∀ c ∈ l, c.toNat < 128) →
      (l.flatMap String.utf8EncodeChar).length = l.length := by
    intro l
    induction l with
    | nil => intro _; rfl
    | cons c l ih =>
      intro hl
      rw [List.flatMap_cons, List.length_append, String.length_utf8EncodeChar,
        utf8Size_of_ascii c (hl c (List.mem_cons_self c l)), List.length_cons,
        ih (fun d hd => hl d (List.mem_cons_of_mem c hd))]
      omega
  exact key s.data h

theorem stringsToLower_length_of_ascii (lib : Stdlib) (s : String)
    (h : ∀ c ∈ s.data, c.toNat < 128) :
    (goBytes (stringsToLower lib s)).length = (goBytes s).length := by
  rw [goBytes_length_of_ascii s h, goBytes_length_of_ascii]
  · simp [stringsToLower]
  · intro c hc
    simp only [stringsToLower, List.mem_map] at hc
    obtain ⟨d, hd, rfl⟩ := hc
    rw [if_pos (h d hd)]
    exact toLower_ascii d (h d hd)

theorem fuzzyMatch_false_of_gap (lib : Stdlib) (e : CorrelationEngine) (a b : String)
    (h : 3 * Nat.max (goBytes (stringsToLower lib a)).length
          (goBytes (stringsToLower lib b)).length <
        10 * ((goBytes (stringsToLower lib a)).length -
            (goBytes (stringsToLower lib b)).length) ∨
      3 * Nat.max (goBytes (stringsToLower lib a)).length
          (goBytes (stringsToLower lib b)).length <
        10 * ((goBytes (stringsToLower lib b)).length -
            (goBytes (stringsToLower lib a)).length)) :
    fuzzyMatch lib e a b = false := by
  have hb := levenshteinDistance_bounds e (stringsToLower lib a) (stringsToLower lib b)
  have hiff := fuzzyMatch_iff lib e a b
  cases hf : fuzzyMatch lib e a b with
  | false => rfl
  | true =>
    have := hiff.mp hf
    omega

/-- C24, as stated, fails in its last part: `fuzzyMatch` measures the strings after
lower-casing, and lower-casing can change the length in bytes. The Kelvin sign has three
bytes and the letter `k` one, so the lengths differ by two, more than 30% of three; the
lower case of the Kelvin sign is `k`, the distance of the lower-cased strings is 0, and
the two strings fuzzy-match. -/
theorem fuzzyMatch_length_gap :
    (goBytes kelvinSign).length = 3 ∧ (goBytes "k").length = 1 ∧
      3 * Nat.max (goBytes kelvinSign).length (goBytes "k").length <
        10 * ((goBytes kelvinSign).length - (goBytes "k").length) ∧
      stringsToLower kelvinLib kelvinSign = "k" ∧
      fuzzyMatch kelvinLib ⟨testConfig⟩ kelvinSign "k" = true ∧
      ¬ (∀ (lib : Stdlib) (e : CorrelationEngine) (a b : String),
        3 * Nat.max (goBytes a).length (goBytes b).length <
            10 * ((goBytes a).length - (goBytes b).length) →
          fuzzyMatch lib e a b = false) := by
  have h1 : (goBytes kelvinSign).length = 3 := by decide
  have h2 : (goBytes "k").length = 1 := by decide
  have h3 : stringsToLower kelvinLib kelvinSign = "k" := by decide
  have h4 : fuzzyMatch kelvinLib ⟨testConfig⟩ kelvinSign "k" = true := by
    rw [fuzzyMatch_of_values kelvinLib ⟨testConfig⟩ kelvinSign "k" "k" "k" 0 1 h3
      (by decide) (by decide) (by decide)]
    decide
  refine ⟨h1, h2, by rw [h1, h2]; decide, h3, h4, ?_⟩
  intro hall
  have := hall kelvinLib ⟨testConfig⟩ kelvinSign "k" (by rw [h1, h2]; decide)
  rw [h4] at this
  exact Bool.noConfusion this

/-- C24, amended: for all strings `a` and `b`,
`|len a − len b| ≤ levenshteinDistance a b ≤ max (len a) (len b)`, with `len` the length in
bytes; hence the similarity `1 − distance / maxLen` that `fuzzyMatch` computes from the
lower-cased strings lies in `[0, 1]`; and two strings whose lower-cased forms differ in
length by more than 30% of the longer lower-cased form never fuzzy-match. Where
lower-casing keeps the lengths, as it does for ASCII strings, these are the lengths of the
strings themselves. -/
theorem levenshtein_length_bounds (lib : Stdlib) (e : CorrelationEngine) (a b : String) :
    (|((goBytes a).length : Int) - ((goBytes b).length : Int)| ≤
        (levenshteinDistance e a b : Int) ∧
      levenshteinDistance e a b ≤ Nat.max (goBytes a).length (goBytes b).length) ∧
      (((GitSnap.max (goBytes (stringsToLower lib a)).length
            (goBytes (stringsToLower lib b)).length : Nat) : ℚ) ≠ 0 →
        (0 : ℚ) ≤ 1 -
            (levenshteinDistance e (stringsToLower lib a) (stringsToLower lib b) : ℚ) /
              ((GitSnap.max (goBytes (stringsToLower lib a)).length
                (goBytes (stringsToLower lib b)).length : Nat) : ℚ) ∧
          1 - (levenshteinDistance e (stringsToLower lib a) (stringsToLower lib b) : ℚ) /
              ((GitSnap.max (goBytes (stringsToLower lib a)).length
                (goBytes (stringsToLower lib b)).length : Nat) : ℚ) ≤ 1) ∧
      (3 * (Nat.max (goBytes (stringsToLower lib a)).length
            (goBytes (stringsToLower lib b)).length : Int) <
          10 * |((goBytes (stringsToLower lib a)).length : Int) -
            ((goBytes (stringsToLower lib b)).length : Int)| →
        fuzzyMatch lib e a b = false) ∧
      ((goBytes (stringsToLower lib a)).length = (goBytes a).length →
        (goBytes (stringsToLower lib b)).length = (goBytes b).length →
        3 * (Nat.max (goBytes a).length (goBytes b).length : Int) <
          10 * |((goBytes a).length : Int) - ((goBytes b).length : Int)| →
        fuzzyMatch lib e a b = false) ∧
      ((∀ c ∈ a.data, c.toNat < 128) → (∀ c ∈ b.data, c.toNat < 128) →
        3 * (Nat.max (goBytes a).length (goBytes b).length : Int) <
          10 * |((goBytes a).length : Int) - ((goBytes b).length : Int)| →
        fuzzyMatch lib e a b = false) := by
  have hgap : ∀ x y : Nat, 3 * (Nat.max x y : Int) < 10 * |(x : Int) - (y : Int)| →
      3 * Nat.max x y < 10 * (x - y) ∨ 3 * Nat.max x y < 10 * (y - x) := by
    intro x y h
    rcases abs_cases ((x : Int) - (y : Int)) with ⟨h1, _⟩ | ⟨h1, _⟩ <;> rw [h1] at h <;> omega
  have hlow : ∀ x y : String,
      (goBytes (stringsToLower lib x)).length = (goBytes x).length →
      (goBytes (stringsToLower lib y)).length = (goBytes y).length →
      3 * (Nat.max (goBytes x).length (goBytes y).length : Int) <
        10 * |((goBytes x).length : Int) - ((goBytes y).length : Int)| →
      fuzzyMatch lib e x y = false := by
    intro x y hx hy h
    apply fuzzyMatch_false_of_gap
    rw [hx, hy]
    exact hgap _ _ h
  refine ⟨⟨?_, (levenshteinDistance_bounds e a b).2.2⟩, ?_, ?_, hlow a b, ?_⟩
  · have hb := levenshteinDistance_bounds e a b
    rw [abs_le]
    omega
  · intro hm
    have hb := (levenshteinDistance_bounds e (stringsToLower lib a)
      (stringsToLower lib b)).2.2
    rw [← max_eq_natMax] at hb
    have hpos : (0 : ℚ) < ((GitSnap.max (goBytes (stringsToLower lib a)).length
        (goBytes (stringsToLower lib b)).length : Nat) : ℚ) :=
      lt_of_le_of_ne (Nat.cast_nonneg _) (Ne.symm hm)
    have hq : (levenshteinDistance e (stringsToLower lib a) (stringsToLower lib b) : ℚ) ≤
        ((GitSnap.max (goBytes (stringsToLower lib a)).length
          (goBytes (stringsToLower lib b)).length : Nat) : ℚ) := by
      exact_mod_cast hb
    have h1 : (levenshteinDistance e (stringsToLower lib a) (stringsToLower lib b) : ℚ) /
        ((GitSnap.max (goBytes (stringsToLower lib a)).length
          (goBytes (stringsToLower lib b)).length : Nat) : ℚ) ≤ 1 :=
      (div_le_one hpos).mpr hq
    have h0 : (0 : ℚ) ≤
        (levenshteinDistance e (stringsToLower lib a) (stringsToLower lib b) : ℚ) /
        ((GitSnap.max (goBytes (stringsToLower lib a)).length
          (goBytes (stringsToLower lib b)).length : Nat) : ℚ) :=
      div_nonneg (Nat.cast_nonneg _) (le_of_lt hpos)
    constructor <;> linarith
  · intro h
    exact fuzzyMatch_false_of_gap lib e a b (hgap _ _ h)
  · intro ha hb h
    exact hlow a b (stringsToLower_length_of_ascii lib a ha)
      (stringsToLower_length_of_ascii lib b hb) h

/-- C24, amended, at closed inputs: `john` and `jonathan.smith` are ASCII strings of 4 and
14 bytes, which differ by more than 30% of 14, and they do not fuzzy-match. -/
theorem levenshtein_length_bounds_witness :
    (∀ c ∈ "john".data, c.toNat < 128) ∧ (∀ c ∈ "jonathan.smith".data, c.toNat < 128) ∧
      3 * (Nat.max (goBytes "john").length (goBytes "jonathan.smith").length : Int) <
        10 * |((goBytes "john").length : Int) - ((goBytes "jonathan.smith").length : Int)| ∧
      fuzzyMatch plainLib ⟨testConfig⟩ "john" "jonathan.smith" = false :=
  ⟨by decide, by decide, by decide,
   (levenshtein_length_bounds plainLib ⟨testConfig⟩ "john" "jonathan.smith").2.2.2.2
     (by decide) (by decide) (by decide)⟩

/-! ## The attribute score behind the gate -/

theorem thresholdFilter_eq_filter (threshold : ℚ) (results : List CorrelationResult) :
    thresholdFilter threshold results =
      results.filter (fun r => decide (r.Score ≥ threshold)) := by
  have key : ∀ (l acc : List CorrelationResult),
      l.foldl (fun filteredResults result =>
        if result.Score ≥ threshold then filteredResults ++ [result] else filteredResults)
        acc = acc ++ l.filter (fun r => decide (r.Score ≥ threshold)) := by
    intro l
    induction l with
    | nil => intro acc; simp
    | cons r l ih =>
      intro acc
      rw [List.foldl_cons, ih]
      by_cases h : r.Score ≥ threshold
      · simp [h]
      · simp [h]
  unfold thresholdFilter
  rw [key]
  simp

theorem requiredFraction_of_gate (lib : Stdlib) (e : CorrelationEngine) (event : SnapEvent)
    (commit : EnrichedCommit)
    (hgate : ¬ ((runRules lib e event commit).totalRequired > 0 ∧
      (runRules lib e event commit).requiredMatches <
        (runRules lib e event commit).totalRequired)) :
    requiredFraction (runRules lib e event commit) = 1 := by
  obtain ⟨h1, h2, _, _⟩ := runRules_counts lib e event commit
  have hle : (runRules lib e event commit).requiredMatches ≤
      (runRules lib e event commit).totalRequired := by
    rw [h1, h2]
    exact countP_and_le _ _ _
  unfold requiredFraction
  split_ifs with hpos
  · have heq : (runRules lib e event commit).requiredMatches =
        (runRules lib e event commit).totalRequired := by
      by_contra hne
      exact hgate ⟨hpos, lt_of_le_of_ne hle hne⟩
    rw [heq]
    have hne : ((runRules lib e event commit).totalRequired : ℚ) ≠ 0 := by
      exact_mod_cast (Nat.pos_iff_ne_zero.mp hpos)
    exact div_self hne
  · rfl

theorem defaultConfig_score (lib : Stdlib) (events : List SnapEvent)
    (commits : List EnrichedCommit) (r : CorrelationResult)
    (hr : r ∈ SnapToCommits lib ⟨DefaultConfig⟩ events commits) : 1 / 2 ≤ r.Score := by
  obtain ⟨_, _, _, hs, _, hm⟩ :=
    mem_SnapToCommits_score lib ⟨DefaultConfig⟩ events commits r hr
  have hw : (0 : Int) < DefaultConfig.TimeWindow := by decide
  have hscore := score_of_gate_pass lib ⟨DefaultConfig⟩ r.Event r.Commit
    (by show DefaultConfig.TimeWindow ≠ 0; omega) hm
  rw [hs] at hscore
  have hrs : r.Score = specScore lib ⟨DefaultConfig⟩ r.Event r.Commit := Option.some.inj hscore
  obtain ⟨t1, _⟩ := specTemporalScore_bounds
    (calculateTimeDelta ⟨DefaultConfig⟩ r.Event r.Commit) DefaultConfig.TimeWindow
    (calculateTimeDelta_nonneg ⟨DefaultConfig⟩ r.Event r.Commit) hw
  have hm' : ruleMatches lib ⟨DefaultConfig⟩ r.Event r.Commit
      { EventKey := "user_id", CommitKey := "author_email", MatchType := EXACT,
        Required := true } = true :=
    hm _ (List.mem_singleton.mpr rfl) rfl
  have hrules : DefaultConfig.AttributeRules =
      [{ EventKey := "user_id", CommitKey := "author_email", MatchType := EXACT,
         Required := true }] := rfl
  have ht : DefaultConfig.ScoreWeights "temporal" = some (1 / 2) := by
    simp [DefaultConfig, mapSet]
  have ha : DefaultConfig.ScoreWeights "attribute" = some (1 / 2) := by
    simp [DefaultConfig, mapSet]
  rw [hrs]
  unfold specScore
  simp only [hrules, specWeight, ht, ha, specAttributeScore, List.countP_cons,
    List.countP_nil, hm']
  norm_num
  linarith

/-- C25: when a pair passes the required-rule gate of `calculateCorrelation`, its required
fraction is 1 and its attribute score is at least 1/2, and is 1 when there is no optional
rule; the score of the pair is built from that attribute score. Under `DefaultConfig` every
result of `SnapToCommits` has a score of at least 0.5, so the filter of the command
`correlate` with its default threshold 0.5 removes no result. -/
theorem gate_pass_attribute_score (lib : Stdlib) (e : CorrelationEngine)
    (events : List SnapEvent) (commits : List EnrichedCommit) :
    (∀ (event : SnapEvent) (commit : EnrichedCommit),
        ¬ ((runRules lib e event commit).totalRequired > 0 ∧
          (runRules lib e event commit).requiredMatches <
            (runRules lib e event commit).totalRequired) →
        requiredFraction (runRules lib e event commit) = 1 ∧
          1 / 2 ≤ attributeScore (runRules lib e event commit) ∧
          attributeScore (runRules lib e event commit) ≤ 1 ∧
          ((runRules lib e event commit).totalOptional = 0 →
            attributeScore (runRules lib e event commit) = 1) ∧
          (calculateCorrelation lib e event commit).2 =
            (calculateTemporalScore e event commit).map (fun t =>
              t * specWeight e.config.ScoreWeights "temporal" +
                attributeScore (runRules lib e event commit) *
                  specWeight e.config.ScoreWeights "attribute")) ∧
      (∀ r ∈ SnapToCommits lib ⟨DefaultConfig⟩ events commits, 1 / 2 ≤ r.Score) ∧
      thresholdFilter defaultThreshold (SnapToCommits lib ⟨DefaultConfig⟩ events commits) =
        SnapToCommits lib ⟨DefaultConfig⟩ events commits := by
  refine ⟨?_, defaultConfig_score lib events commits, ?_⟩
  · intro event commit hgate
    have hrf := requiredFraction_of_gate lib e event commit hgate
    obtain ⟨_, _, h3, h4⟩ := runRules_counts lib e event commit
    have hle : (runRules lib e event commit).optionalMatches ≤
        (runRules lib e event commit).totalOptional := by
      rw [h3, h4]
      exact countP_and_le _ _ _
    obtain ⟨f0, f1⟩ := fraction_bounds _ _ hle
    refine ⟨hrf, ?_, ?_, ?_, ?_⟩
    · unfold attributeScore
      rw [hrf]
      split_ifs <;> linarith
    · unfold attributeScore
      rw [hrf]
      split_ifs <;> linarith
    · intro h0
      unfold attributeScore
      rw [hrf, if_neg (by omega)]
    · unfold calculateCorrelation
      simp only
      rw [if_neg hgate, resolved_weight, resolved_weight]
      rfl
  · rw [thresholdFilter_eq_filter, List.filter_eq_self]
    intro r hr
    have := defaultConfig_score lib events commits r hr
    simpa [defaultThreshold] using this

/-- C25 at the data of the engine test under `DefaultConfig`: the pair of the test event and
its matching commit passes the gate, and its required fraction and its attribute score
are 1. -/
theorem gate_pass_attribute_score_witness :
    ¬ ((runRules plainLib ⟨DefaultConfig⟩ (testEvent 0) (testCommitA 0)).totalRequired > 0 ∧
        (runRules plainLib ⟨DefaultConfig⟩ (testEvent 0) (testCommitA 0)).requiredMatches <
          (runRules plainLib ⟨DefaultConfig⟩ (testEvent 0) (testCommitA 0)).totalRequired) ∧
      requiredFraction (runRules plainLib ⟨DefaultConfig⟩ (testEvent 0) (testCommitA 0)) = 1 ∧
      attributeScore (runRules plainLib ⟨DefaultConfig⟩ (testEvent 0) (testCommitA 0)) = 1 :=
  ⟨by decide,
   ((gate_pass_attribute_score plainLib ⟨DefaultConfig⟩ [testEvent 0] [testCommitA 0]).1
      (testEvent 0) (testCommitA 0) (by decide)).1,
   ((gate_pass_attribute_score plainLib ⟨DefaultConfig⟩ [testEvent 0] [testCommitA 0]).1
      (testEvent 0) (testCommitA 0) (by decide)).2.2.2.1 (by decide)⟩

/-! ## The git log and the merge message -/

/-- C27: on a log whose second header line is malformed (its fifth field is not an integer)
`parseCommits` returns the first commit twice, the second copy with the numstat line that
follows the malformed header added to it; on the same log with a well-formed second header
it returns the two commits, each once, with its own numstat line. -/
theorem parseCommits_malformed_header :
    (parseCommits "repo" "main" barAuthorLog).map (List.map commitSummary) =
        Except.ok [("abc", 1, 0, ["a.go"]), ("abc", 3, 1, ["a.go", "b.go"])] ∧
      (parseCommits "repo" "main"
          ("abc|Ann|ann@x.com|Ann|1700000000|first|\n1\t0\ta.go\n\n" ++
            "def|Bob|bob@x.com|Bob|1700000100|second|abc\n2\t1\tb.go\n")).map
          (List.map commitSummary) =
        Except.ok [("abc", 1, 0, ["a.go"]), ("def", 2, 1, ["b.go"])] ∧
      (parseCommits "repo" "main" "abc|Ann|ann@x.com|Ann|1700000000|first|\nnot|a|header\n").map
          (List.map commitSummary) =
        Except.ok [("abc", 0, 0, []), ("abc", 0, 0, [])] := by
  refine ⟨by rfl, by rfl, by rfl⟩

/-- C28: on the message that ends right after `Merge pull request #` the index expression
of `extractPRNumber` is out of range; on the merge message of a pull request the number is
returned; on a line with an earlier `#` the text after that first `#` is read, and no
number is returned. -/
theorem extractPRNumber_index_out_of_range :
    extractPRNumber "Merge pull request #" =
        Except.error "index out of range [0] with length 0" ∧
      extractPRNumber "Fix build\n\nMerge pull request #   " =
        Except.error "index out of range [0] with length 0" ∧
      extractPRNumber "Merge pull request #123 from ann/topic\n\nAdd parser" =
        Except.ok (some 123) ∧
      extractPRNumber "Fix typo" = Except.ok none ∧
      extractPRNumber "Reland #12: Merge pull request #34 from ann/topic" = Except.ok none := by
  refine ⟨by rfl, by rfl, by rfl, by rfl, by rfl⟩

/-! ## The exchange sort on float64 scores -/

theorem exchangeStepBy_perm {α : Type} (gt : α → α → Bool) (i j : Nat) (hij : i < j)
    (l : List α) : (exchangeStepBy gt i l j).Perm l := by
  unfold exchangeStepBy
  split
  · rename_i ri rj hi hj
    split
    · exact set_set_perm_lt ri rj l i j hij hi hj
    · exact List.Perm.refl _
  · exact List.Perm.refl _

theorem foldl_exchangeStepBy_perm {α : Type} (gt : α → α → Bool) (i : Nat) :
    ∀ (js : List Nat) (l : List α), (∀ j ∈ js, i < j) →
      (js.foldl (exchangeStepBy gt i) l).Perm l
  | [], l, _ => List.Perm.refl _
  | j :: js, l, h => by
    simp only [List.foldl_cons]
    exact (foldl_exchangeStepBy_perm gt i js _
      (fun k hk => h k (List.mem_cons_of_mem _ hk))).trans
      (exchangeStepBy_perm gt i j (h j (List.mem_cons_self _ _)) l)

theorem exchangePassBy_perm {α : Type} (gt : α → α → Bool) (l : List α) (i : Nat) :
    (exchangePassBy gt l i).Perm l := by
  unfold exchangePassBy
  apply foldl_exchangeStepBy_perm
  intro j hj
  simp only [List.mem_range'_1] at hj
  omega

theorem foldl_exchangePassBy_perm {α : Type} (gt : α → α → Bool) :
    ∀ (is : List Nat) (l : List α), (is.foldl (exchangePassBy gt) l).Perm l
  | [], l => List.Perm.refl _
  | i :: is, l => by
    simp only [List.foldl_cons]
    exact (foldl_exchangePassBy_perm gt is _).trans (exchangePassBy_perm gt l i)

theorem exchangeSortBy_perm {α : Type} (gt : α → α → Bool) (l : List α) :
    (exchangeSortBy gt l).Perm l :=
  foldl_exchangePassBy_perm gt _ l

theorem exchangeStepBy_inv {α : Type} (gt : α → α → Bool)
    (hasym : ∀ a b, gt a b = true → gt b a = false)
    (htrans : ∀ a b c, gt a b = true → gt b c = true → gt a c = true)
    (i m : Nat) (l0 l : List α) (him : i < m)
    (hm : m < l.length) (h : PassInvBy gt i l0 l m) :
    PassInvBy gt i l0 (exchangeStepBy gt i l m) (m + 1) := by
  obtain ⟨hlen, hpre, hmax, hsuf⟩ := h
  have hi : i < l.length := by omega
  have hgi : l[i]? = some l[i] := List.getElem?_eq_getElem hi
  have hgm : l[m]? = some l[m] := List.getElem?_eq_getElem hm
  unfold exchangeStepBy
  rw [hgi, hgm]
  simp only
  split
  · rename_i hgt
    have hne : i ≠ m := by omega
    have hget : ∀ k, ((l.set i l[m]).set m l[i])[k]? =
        if k = m then some l[i] else if k = i then some l[m] else l[k]? := by
      intro k
      rw [List.getElem?_set, List.getElem?_set]
      by_cases hkm : m = k
      · subst hkm; simp [hm]
      · by_cases hki : i = k
        · subst hki; simp [hi, hkm, Ne.symm hkm]
        · simp [hkm, hki, Ne.symm hkm, Ne.symm hki]
    refine ⟨by simp [hlen], ?_, ?_, ?_⟩
    · intro k hk
      rw [hget, if_neg (by omega), if_neg (by omega)]
      exact hpre k hk
    · intro k hik hkm x y hx hy
      rw [hget, if_neg (by omega), if_pos rfl] at hx
      cases hx
      rw [hget] at hy
      by_cases hk : k = m
      · rw [if_pos hk] at hy
        cases hy
        exact hasym _ _ hgt
      · rw [if_neg hk, if_neg (by omega)] at hy
        have hold := hmax k hik (by omega) _ _ hgi hy
        cases hyx : gt y l[m] with
        | false => rfl
        | true =>
          rw [htrans _ _ _ hyx hgt] at hold
          cases hold
    · intro k hik hkl
      simp only [List.length_set] at hkl
      rw [hget]
      by_cases hk : k = m
      · rw [if_pos hk, ← hgi]
        exact hsuf i (le_refl _) hi
      · rw [if_neg hk]
        by_cases hk2 : k = i
        · rw [if_pos hk2, ← hgm]
          exact hsuf m (by omega) hm
        · rw [if_neg hk2]
          exact hsuf k hik hkl
  · rename_i hgt
    refine ⟨hlen, hpre, ?_, hsuf⟩
    intro k hik hkm x y hx hy
    by_cases hk : k = m
    · subst hk
      rw [hgi] at hx
      rw [hgm] at hy
      cases hx
      cases hy
      simpa using hgt
    · exact hmax k hik (by omega) x y hx hy

theorem foldl_exchangeStepBy_inv {α : Type} (gt : α → α → Bool)
    (hasym : ∀ a b, gt a b = true → gt b a = false)
    (htrans : ∀ a b c, gt a b = true → gt b c = true → gt a c = true)
    (i : Nat) (l0 : List α) :
    ∀ n, i + 1 + n ≤ l0.length →
      PassInvBy gt i l0 ((List.range' (i + 1) n).foldl (exchangeStepBy gt i) l0) (i + 1 + n)
  | 0, _ => by
    refine ⟨rfl, fun _ _ => rfl, ?_, ?_⟩
    · intro k h1 h2
      omega
    · intro k h1 h2
      exact ⟨k, h1, h2, rfl⟩
  | n + 1, h => by
    rw [List.range'_concat, List.foldl_append]
    simp only [Nat.one_mul, List.foldl_cons, List.foldl_nil]
    have ih := foldl_exchangeStepBy_inv gt hasym htrans i l0 n (by omega)
    have := exchangeStepBy_inv gt hasym htrans i (i + 1 + n) l0 _ (by omega)
      (by rw [ih.1]; omega) ih
    simpa [Nat.add_assoc] using this

theorem exchangePassBy_inv {α : Type} (gt : α → α → Bool)
    (hasym : ∀ a b, gt a b = true → gt b a = false)
    (htrans : ∀ a b c, gt a b = true → gt b c = true → gt a c = true)
    (l : List α) (n : Nat) (hn : n < l.length) (h : SortedUpToBy gt l n) :
    (exchangePassBy gt l n).length = l.length ∧
      SortedUpToBy gt (exchangePassBy gt l n) (n + 1) := by
  have hp := foldl_exchangeStepBy_inv gt hasym htrans n l (l.length - (n + 1)) (by omega)
  have hidx : n + 1 + (l.length - (n + 1)) = l.length := by omega
  rw [hidx] at hp
  obtain ⟨hlen, hpre, hmax, hsuf⟩ := hp
  refine ⟨hlen, ?_⟩
  intro a b ha hab x y hx hy
  have hb : b < (exchangePassBy gt l n).length := by
    by_contra hcon
    rw [List.getElem?_eq_none (by omega)] at hy
    cases hy
  by_cases han : a < n
  · have hx' : l[a]? = some x := by rw [← hpre a han]; exact hx
    by_cases hbn : b < n
    · have hy' : l[b]? = some y := by rw [← hpre b hbn]; exact hy
      exact h a b han hab x y hx' hy'
    · obtain ⟨k', hk1, _, hk3⟩ := hsuf b (by omega) hb
      have hy' : l[k']? = some y := by rw [← hk3]; exact hy
      exact h a k' han (by omega) x y hx' hy'
  · have : a = n := by omega
    subst this
    exact hmax b hab (by unfold exchangePassBy at hb; omega) x y hx hy

theorem foldl_exchangePassBy_inv {α : Type} (gt : α → α → Bool)
    (hasym : ∀ a b, gt a b = true → gt b a = false)
    (htrans : ∀ a b c, gt a b = true → gt b c = true → gt a c = true)
    (l0 : List α) :
    ∀ n, n ≤ l0.length →
      ((List.range n).foldl (exchangePassBy gt) l0).length = l0.length ∧
        SortedUpToBy gt ((List.range n).foldl (exchangePassBy gt) l0) n
  | 0, _ => by
    refine ⟨rfl, ?_⟩
    intro a b ha
    omega
  | n + 1, h => by
    rw [List.range_succ, List.foldl_append]
    simp only [List.foldl_cons, List.foldl_nil]
    obtain ⟨ihl, ihs⟩ := foldl_exchangePassBy_inv gt hasym htrans l0 n (by omega)
    obtain ⟨h1, h2⟩ := exchangePassBy_inv gt hasym htrans _ n (by rw [ihl]; omega) ihs
    exact ⟨by rw [h1, ihl], h2⟩

theorem exchangeSortBy_sorted {α : Type} (gt : α → α → Bool)
    (hasym : ∀ a b, gt a b = true → gt b a = false)
    (htrans : ∀ a b c, gt a b = true → gt b c = true → gt a c = true)
    (l : List α) :
    (exchangeSortBy gt l).Pairwise (fun r s => gt s r = false) := by
  obtain ⟨_, hs⟩ := foldl_exchangePassBy_inv gt hasym htrans l l.length (le_refl _)
  rw [List.pairwise_iff_getElem]
  intro i j hi hj hij
  exact hs i j (by unfold exchangeSortBy at hi; omega) hij _ _
    (List.getElem?_eq_getElem hi) (List.getElem?_eq_getElem hj)

theorem floatGt_asymm (a b : Option ℚ) (h : floatGt a b = true) : floatGt b a = false := by
  cases a <;> cases b <;> simp_all [floatGt]
  exact le_of_lt h

theorem floatGt_trans (a b c : Option ℚ) (h1 : floatGt a b = true) (h2 : floatGt b c = true) :
    floatGt a c = true := by
  cases a <;> cases b <;> cases c <;> simp_all [floatGt]
  exact lt_trans h2 h1

theorem exchangeStep_eq_exchangeStepBy (i : Nat) (results : List CorrelationResult) (j : Nat) :
    exchangeStep i results j =
      exchangeStepBy (fun rj ri => decide (rj.Score > ri.Score)) i results j := by
  unfold exchangeStep exchangeStepBy
  cases hi : results[i]? <;> cases hj : results[j]? <;> simp

theorem sortAndFilterResults_eq_exchangeSortBy (e : CorrelationEngine)
    (results : List CorrelationResult) :
    sortAndFilterResults e results =
      exchangeSortBy (fun rj ri => decide (rj.Score > ri.Score)) results := by
  have hstep : exchangeStep =
      exchangeStepBy (fun (rj ri : CorrelationResult) => decide (rj.Score > ri.Score)) := by
    funext i results j
    exact exchangeStep_eq_exchangeStepBy i results j
  have hpass : exchangePass =
      exchangePassBy (fun (rj ri : CorrelationResult) => decide (rj.Score > ri.Score)) := by
    funext results i
    unfold exchangePass exchangePassBy
    rw [hstep]
  unfold sortAndFilterResults exchangeSortBy
  rw [hpass]

theorem map_exchangeStepBy {α β : Type} (f : α → β) (gt : α → α → Bool) (gt' : β → β → Bool)
    (h : ∀ a b, gt' (f a) (f b) = gt a b) (i : Nat) (l : List α) (j : Nat) :
    (exchangeStepBy gt i l j).map f = exchangeStepBy gt' i (l.map f) j := by
  unfold exchangeStepBy
  rw [List.getElem?_map, List.getElem?_map]
  cases hi : l[i]? with
  | none => simp
  | some ri =>
    cases hj : l[j]? with
    | none => simp
    | some rj =>
      simp only [Option.map_some', h]
      split
      · simp [List.map_set]
      · rfl

theorem map_foldl_exchangeStepBy {α β : Type} (f : α → β) (gt : α → α → Bool)
    (gt' : β → β → Bool) (h : ∀ a b, gt' (f a) (f b) = gt a b) (i : Nat) :
    ∀ (js : List Nat) (l : List α),
      (js.foldl (exchangeStepBy gt i) l).map f = js.foldl (exchangeStepBy gt' i) (l.map f)
  | [], _ => rfl
  | j :: js, l => by
    simp only [List.foldl_cons]
    rw [map_foldl_exchangeStepBy f gt gt' h i js, map_exchangeStepBy f gt gt' h]

theorem map_foldl_exchangePassBy {α β : Type} (f : α → β) (gt : α → α → Bool)
    (gt' : β → β → Bool) (h : ∀ a b, gt' (f a) (f b) = gt a b) :
    ∀ (is : List Nat) (l : List α),
      (is.foldl (exchangePassBy gt) l).map f = is.foldl (exchangePassBy gt') (l.map f)
  | [], _ => rfl
  | i :: is, l => by
    simp only [List.foldl_cons]
    rw [map_foldl_exchangePassBy f gt gt' h is]
    congr 1
    unfold exchangePassBy
    rw [map_foldl_exchangeStepBy f gt gt' h, List.length_map]

theorem map_exchangeSortBy {α β : Type} (f : α → β) (gt : α → α → Bool) (gt' : β → β → Bool)
    (h : ∀ a b, gt' (f a) (f b) = gt a b) (l : List α) :
    (exchangeSortBy gt l).map f = exchangeSortBy gt' (l.map f) := by
  unfold exchangeSortBy
  rw [map_foldl_exchangePassBy f gt gt' h, List.length_map]

theorem sortAndFilterResults_toFloatResult (e : CorrelationEngine)
    (results : List CorrelationResult) :
    (sortAndFilterResults e results).map CorrelationResult.toFloatResult =
      sortAndFilterFloatResults (results.map CorrelationResult.toFloatResult) := by
  rw [sortAndFilterResults_eq_exchangeSortBy]
  unfold sortAndFilterFloatResults
  exact map_exchangeSortBy CorrelationResult.toFloatResult
    (fun rj ri => decide (rj.Score > ri.Score))
    (fun (rj ri : FloatResult) => floatGt rj.Score ri.Score) (fun a b => rfl) results

theorem sortAndFilterFloatResults_no_greater_behind (results : List FloatResult) :
    (sortAndFilterFloatResults results).Pairwise
      (fun r s => floatGt s.Score r.Score = false) :=
  exchangeSortBy_sorted (fun (rj ri : FloatResult) => floatGt rj.Score ri.Score)
    (fun a b => floatGt_asymm a.Score b.Score)
    (fun a b c => floatGt_trans a.Score b.Score c.Score) results

theorem sortAndFilterFloatResults_sorted (results : List FloatResult)
    (h : ∀ r ∈ results, r.Score ≠ none) :
    (sortAndFilterFloatResults results).Pairwise
      (fun r s => floatGe r.Score s.Score = true) := by
  have hperm : (sortAndFilterFloatResults results).Perm results := exchangeSortBy_perm _ _
  refine List.Pairwise.imp_of_mem ?_ (sortAndFilterFloatResults_no_greater_behind results)
  intro r s hr hs hgt
  have h1 := h r (hperm.mem_iff.mp hr)
  have h2 := h s (hperm.mem_iff.mp hs)
  cases hrs : r.Score with
  | none => exact absurd hrs h1
  | some x =>
    cases hss : s.Score with
    | none => exact absurd hss h2
    | some y =>
      rw [hrs, hss] at hgt
      simpa [floatGt, floatGe] using hgt

/-- C3, as stated, fails: a `Score` is a float64, and on the scores `NaN, 1, 2` no
comparison with NaN holds, so `sortAndFilterResults` leaves NaN in front and returns
`NaN, 2, 1`, where the first score is not greater than or equal to the second. -/
theorem sort_nan_not_descending :
    (sortAndFilterFloatResults
        [scoredFloatResult none, scoredFloatResult (some 1), scoredFloatResult (some 2)]).map
        (fun r => r.Score) = [none, some 2, some 1] ∧
      ¬ (sortAndFilterFloatResults
          [scoredFloatResult none, scoredFloatResult (some 1),
            scoredFloatResult (some 2)]).Pairwise
        (fun r s => floatGe r.Score s.Score = true) := by
  have hrun : sortAndFilterFloatResults
      [scoredFloatResult none, scoredFloatResult (some 1), scoredFloatResult (some 2)] =
      [scoredFloatResult none, scoredFloatResult (some 2), scoredFloatResult (some 1)] := by
    norm_num [sortAndFilterFloatResults, exchangeSortBy, exchangePassBy, exchangeStepBy,
      scoredFloatResult, floatGt, List.range_succ, List.range'_succ]
  rw [hrun]
  refine ⟨rfl, ?_⟩
  intro h
  have := (List.pairwise_cons.mp h).1 (scoredFloatResult (some 2)) (List.mem_cons_self _ _)
  simp [scoredFloatResult, floatGe] at this

/-- C3, amended: the list `SnapToCommits` returns is in descending order of `Score`, and so
is the list `sortAndFilterResults` returns on any list of results none of whose scores is
NaN: the score of a result is at least the score of every result behind it; scores
`0.9, 0.3, 0.6` come out as `0.9, 0.6, 0.3`. `SnapToCommits` never holds a NaN score, and
on such lists the sort on float64 scores is the sort on their values. On any list, NaN
included, no result has a result of greater score behind it. -/
theorem results_sorted_descending (lib : Stdlib) (e : CorrelationEngine)
    (events : List SnapEvent) (commits : List EnrichedCommit)
    (results : List CorrelationResult) (floatResults : List FloatResult) :
    (SnapToCommits lib e events commits).Pairwise (fun r s => r.Score ≥ s.Score) ∧
      ((∀ r ∈ floatResults, r.Score ≠ none) →
        (sortAndFilterFloatResults floatResults).Pairwise
          (fun r s => floatGe r.Score s.Score = true)) ∧
      (sortAndFilterFloatResults floatResults).Pairwise
        (fun r s => floatGt s.Score r.Score = false) ∧
      (sortAndFilterFloatResults floatResults).Perm floatResults ∧
      (sortAndFilterResults e results).map CorrelationResult.toFloatResult =
        sortAndFilterFloatResults (results.map CorrelationResult.toFloatResult) ∧
      (sortAndFilterResults e results).Pairwise (fun r s => r.Score ≥ s.Score) ∧
      (sortAndFilterFloatResults
          [scoredFloatResult (some (9 / 10)), scoredFloatResult (some (3 / 10)),
            scoredFloatResult (some (6 / 10))]).map (fun r => r.Score) =
        [some (9 / 10), some (6 / 10), some (3 / 10)] ∧
      (sortAndFilterResults e
          [scoredResult (9 / 10), scoredResult (3 / 10), scoredResult (6 / 10)]).map
          (fun r => r.Score) = [9 / 10, 6 / 10, 3 / 10] := by
  refine ⟨sortAndFilterResults_sorted e _, sortAndFilterFloatResults_sorted floatResults,
    sortAndFilterFloatResults_no_greater_behind floatResults, exchangeSortBy_perm _ _,
    sortAndFilterResults_toFloatResult e results, sortAndFilterResults_sorted e results, ?_, ?_⟩
  · norm_num [sortAndFilterFloatResults, exchangeSortBy, exchangePassBy, exchangeStepBy,
      scoredFloatResult, floatGt, List.range_succ, List.range'_succ]
  · norm_num [sortAndFilterResults, exchangePass, exchangeStep, scoredResult, List.range_succ,
      List.range'_succ]

/-- C3, amended, at closed inputs: none of the scores `0.9, 0.3, 0.6` is NaN, and the list
that `sortAndFilterResults` returns for them is in descending order. -/
theorem results_sorted_descending_witness :
    (∀ r ∈ [scoredFloatResult (some (9 / 10)), scoredFloatResult (some (3 / 10)),
        scoredFloatResult (some (6 / 10))], r.Score ≠ none) ∧
      (sortAndFilterFloatResults
          [scoredFloatResult (some (9 / 10)), scoredFloatResult (some (3 / 10)),
            scoredFloatResult (some (6 / 10))]).Pairwise
        (fun r s => floatGe r.Score s.Score = true) :=
  ⟨by
    intro r hr
    simp only [List.mem_cons, List.mem_singleton, List.not_mem_nil, or_false] at hr
    rcases hr with rfl | rfl | rfl <;> simp [scoredFloatResult],
   (results_sorted_descending plainLib ⟨testConfig⟩ [] [] []
      [scoredFloatResult (some (9 / 10)), scoredFloatResult (some (3 / 10)),
        scoredFloatResult (some (6 / 10))]).2.1 (by
      intro r hr
      simp only [List.mem_cons, List.mem_singleton, List.not_mem_nil, or_false] at hr
      rcases hr with rfl | rfl | rfl <;> simp [scoredFloatResult])⟩

/-- C11, as stated, fails in its second part: the upper case of the dotless `ı` is the
ASCII letter `I`, whose lower case is `i`, not `ı`. The value `ı` is contained in `ı`, but
after the event value is put in upper case the lower-cased needle is `i`, which is not
contained in `ı`: changing the letter case of an argument changes the result. The same
holds for the long `ſ` and `S`. -/
theorem contains_case_change_dotless :
    String.mk (dotlessI.data.map sampleToUpper) = "I" ∧
      stringsToLower plainLib dotlessI = dotlessI ∧
      stringsToLower plainLib "I" = "i" ∧
      matchValues plainLib ⟨testConfig⟩ dotlessI dotlessI CONTAINS = true ∧
      matchValues plainLib ⟨testConfig⟩ "I" dotlessI CONTAINS = false ∧
      String.mk (longS.data.map sampleToUpper) = "S" ∧
      matchValues plainLib ⟨testConfig⟩ longS longS CONTAINS = true ∧
      matchValues plainLib ⟨testConfig⟩ "S" longS CONTAINS = false := by
  refine ⟨by decide, by decide, by decide, by decide, by decide, by decide, by decide,
    by decide⟩

end GitSnap
